import Mathlib

/-!
# chat-server: the dispatcher of `server/server.go`

A shallow embedding of `chat-server/server/server.go`.

* A `net.Conn` and a `*Client` are identities, modelled as natural numbers.
* The Go heap of `Client` objects is a total map `Ptr → Client`: a Go pointer
  that is sent over a channel always points to a live object.
* A Go `map` is an association list with unique keys (`AList`); `m[k] = v` is
  `AList.insert`, `delete(m, k)` is `AList.erase`, `len(m)` the number of
  entries, and `range m` visits the entries in list order (Go leaves the order
  unspecified).
* `sync.Mutex` is a boolean.  The model is sequential: a `Lock` on a mutex
  that is already held can never be released by anybody, so the caller is
  blocked forever (`Outcome.blocked`).
* Every socket write is appended to `World.out` whether it succeeds or not;
  `World.wfail` says which attempted writes fail.
-/

namespace ChatServer

/-- An accepted connection (`net.Conn`), by identity. -/
abbrev Conn := Nat

/-- A pointer to a `Client` object (`*Client`), by identity. -/
abbrev Ptr := Nat

/-- A Go map with keys `κ` and values `ν`. -/
abbrev GoMap (κ : Type) (ν : Type) := AList (fun _ : κ => ν)

/-- The struct `Client`: the connection, the name and the current room. -/
structure Client where
  conn : Conn
  name : String
  room : String
deriving DecidableEq, Repr

/-- The struct `Server` without its three channels: the three registry maps and
the mutex (`true` when held). -/
structure Server where
  clients : GoMap Conn Ptr
  usernames : GoMap String Ptr
  rooms : GoMap String (GoMap String Ptr)
  mutex : Bool
deriving DecidableEq

/-- The lines given to `log.Printf`, by call site and arguments. -/
inductive LogLine where
  | connected (name room : String) (total : Nat)
  | disconnected (name room : String) (total : Nat)
  | sendError (name room : String)
  | whisperError (target : String)
  | whisperConfirmError (sender : String)
  | joinedRoom (name room : String)
  | readNameError
  | readError (name : String)
deriving DecidableEq, Repr

/-- The server together with what surrounds it: the heap of `Client` objects,
the text written to each socket so far (in order), the sockets closed so far,
the failure oracle of the network and the log. -/
structure World where
  srv : Server
  heap : Ptr → Client
  out : List (Conn × String)
  closed : List Conn
  wfail : Nat → Bool
  log : List LogLine

/-- What a call does: it returns, or it blocks forever in `mutex.Lock`. -/
inductive Outcome where
  | returned (w : World)
  | blocked (w : World)

/-- Sequencing: what follows a call runs only when the call returns. -/
def Outcome.andThen (o : Outcome) (f : World → Outcome) : Outcome :=
  match o with
  | .returned w => f w
  | .blocked w => .blocked w

/-- The world in which a call ended, returned or blocked. -/
def Outcome.world : Outcome → World
  | .returned w => w
  | .blocked w => w

/-- Whether the call returned. -/
def Outcome.isReturned : Outcome → Bool
  | .returned _ => true
  | .blocked _ => false

/-- The events the dispatcher receives on its three channels. -/
inductive Event where
  | register (client : Ptr)
  | unregister (client : Ptr)
  | message (client : Ptr) (msg : String)
deriving DecidableEq, Repr

/-! ## The `strings` functions the server uses -/

/-- The white space of `unicode.IsSpace`. -/
def isSpace (c : Char) : Bool :=
  c.toNat ∈ [9, 10, 11, 12, 13, 32, 0x85, 0xA0, 0x1680, 0x2028, 0x2029, 0x202F, 0x205F, 0x3000]
    || (0x2000 ≤ c.toNat && c.toNat ≤ 0x200A)

/-- The function `strings.TrimSpace`: leading and trailing white space removed. -/
def TrimSpace (s : String) : String :=
  ⟨((s.data.dropWhile isSpace).reverse.dropWhile isSpace).reverse⟩

/-- The function `strings.HasPrefix`. -/
def HasPrefix (s pre : String) : Bool :=
  pre.data.isPrefixOf s.data

/-- The function `strings.TrimPrefix`. -/
def TrimPrefix (s pre : String) : String :=
  if HasPrefix s pre then ⟨s.data.drop pre.data.length⟩ else s

/-- The split of `strings.SplitN` on a one-character separator, on characters. -/
def splitNChars (sep : Char) : Nat → List Char → List (List Char)
  | 0, _ => []
  | 1, s => [s]
  | n + 2, s =>
    match s.span (fun c => c != sep) with
    | (a, []) => [a]
    | (a, _ :: b) => a :: splitNChars sep (n + 1) b

/-- The function `strings.SplitN` for a separator of one character. -/
def SplitN (s : String) (sep : Char) (n : Nat) : List String :=
  (splitNChars sep n s.data).map String.mk

/-! ## Sockets, the mutex and the log -/

/-- The call `fmt.Fprint(conn, text)`: the text is written to the socket; the
result is `true` when the write is reported as failed. -/
def Fprint (conn : Conn) (text : String) (w : World) : World × Bool :=
  ({ w with out := w.out ++ [(conn, text)] }, w.wfail w.out.length)

/-- The call `fmt.Fprintln(conn, line)`: the line and a newline are written. -/
def Fprintln (conn : Conn) (line : String) (w : World) : World × Bool :=
  Fprint conn (line ++ "\n") w

/-- The call `log.Printf`. -/
def logPrintf (l : LogLine) (w : World) : World :=
  { w with log := w.log ++ [l] }

/-- The call `conn.Close()`. -/
def Close (conn : Conn) (w : World) : World :=
  { w with closed := w.closed ++ [conn] }

/-- The call `s.mutex.Lock()`: blocks forever when the mutex is held. -/
def Lock (w : World) : Outcome :=
  if w.srv.mutex then .blocked w
  else .returned { w with srv := { w.srv with mutex := true } }

/-- The call `s.mutex.Unlock()`. -/
def Unlock (w : World) : World :=
  { w with srv := { w.srv with mutex := false } }

/-- The function `len` on a map. -/
def len {κ ν : Type} (m : GoMap κ ν) : Nat :=
  m.entries.length

/-! ## The server -/

/-- The function `NewServer`: three empty maps and a free mutex. -/
def NewServer : Server :=
  { clients := ∅, usernames := ∅, rooms := ∅, mutex := false }

/-- The world at start-up: a new server, nothing written, closed or logged. -/
def World.init (heap : Ptr → Client) (wfail : Nat → Bool) : World :=
  { srv := NewServer, heap := heap, out := [], closed := [], wfail := wfail, log := [] }

/-- One iteration of the loop of `broadcastMessageToRoom`: the line is written
to the socket of one member and a failure is logged. -/
def sendTo (roomName message : String) (w : World) (e : (_ : String) × Ptr) : World :=
  let r := Fprintln (w.heap e.2).conn message w
  if r.2 then logPrintf (.sendError (w.heap e.2).name roomName) r.1 else r.1

/-- The method `broadcastMessageToRoom`. -/
def broadcastMessageToRoom (roomName message : String) (w : World) : Outcome :=
  (Lock w).andThen fun w =>
    match w.srv.rooms.lookup roomName with
    | some roomClients => .returned (Unlock (roomClients.entries.foldl (sendTo roomName message) w))
    | none => .returned (Unlock w)

/-- The method `sendWhisper`. -/
def sendWhisper (senderClient : Ptr) (targetUsername msg : String) (w : World) : Outcome :=
  (Lock w).andThen fun w =>
    if (w.heap senderClient).name = targetUsername then
      .returned (Unlock (Fprintln (w.heap senderClient).conn "You cannot whisper to yourself." w).1)
    else
      match w.srv.usernames.lookup targetUsername with
      | none =>
        .returned (Unlock (Fprintln (w.heap senderClient).conn
          ("User '" ++ targetUsername ++ "' not found.") w).1)
      | some targetClient =>
        let r := Fprintln (w.heap targetClient).conn
          ("[Whisper from " ++ (w.heap senderClient).name ++ "]: " ++ msg) w
        let w := if r.2 then logPrintf (.whisperError targetUsername) r.1 else r.1
        let r := Fprintln (w.heap senderClient).conn
          ("[Whisper to " ++ targetUsername ++ "]: " ++ msg) w
        let w := if r.2 then logPrintf (.whisperConfirmError (w.heap senderClient).name) r.1
          else r.1
        .returned (Unlock w)

/-- The statement `delete(oldRoomClients, client.name)` of `joinRoom` and of the
unregister case, followed by the deletion of the room when it became empty. -/
def removeFromRoom (room name : String) (roomClients : GoMap String Ptr) (w : World) : World :=
  let roomClients := roomClients.erase name
  if len roomClients = 0 then
    { w with srv := { w.srv with rooms := w.srv.rooms.erase room } }
  else
    { w with srv := { w.srv with rooms := w.srv.rooms.insert room roomClients } }

/-- The statements of `joinRoom` and of the register case that add the client
to a room, creating the room when it is absent. -/
def addToRoom (room name : String) (client : Ptr) (w : World) : World :=
  let roomClients := (w.srv.rooms.lookup room).getD ∅
  { w with srv := { w.srv with rooms := w.srv.rooms.insert room (roomClients.insert name client) } }

/-- The method `joinRoom`. -/
def joinRoom (client : Ptr) (newRoomName : String) (w : World) : Outcome :=
  (Lock w).andThen fun w =>
    if newRoomName = "" then
      .returned (Unlock (Fprintln (w.heap client).conn "Room name cannot be empty." w).1)
    else if (w.heap client).room = newRoomName then
      .returned (Unlock (Fprintln (w.heap client).conn
        ("You are already in room '" ++ newRoomName ++ "'.") w).1)
    else
      (match w.srv.rooms.lookup (w.heap client).room with
        | some oldRoomClients =>
          let w := removeFromRoom (w.heap client).room (w.heap client).name oldRoomClients w
          broadcastMessageToRoom (w.heap client).room
            ((w.heap client).name ++ " has left the room.") w
        | none => .returned w).andThen fun w =>
      let w := addToRoom newRoomName (w.heap client).name client w
      let moved : Client := { w.heap client with room := newRoomName }
      let w := { w with heap := Function.update w.heap client moved }
      let w := (Fprintln (w.heap client).conn
        ("You have joined room '" ++ newRoomName ++ "'.") w).1
      (broadcastMessageToRoom newRoomName ((w.heap client).name ++ " has joined the room.") w).andThen
        fun w => .returned (Unlock (logPrintf (.joinedRoom (w.heap client).name newRoomName) w))

/-- The method `leaveRoom`. -/
def leaveRoom (client : Ptr) (w : World) : Outcome :=
  joinRoom client "general" w

/-- The register case of `handleMessages`. -/
def handleRegister (client : Ptr) (w : World) : Outcome :=
  (Lock w).andThen fun w =>
    let w := { w with srv := { w.srv with
      clients := w.srv.clients.insert (w.heap client).conn client } }
    let w := { w with srv := { w.srv with
      usernames := w.srv.usernames.insert (w.heap client).name client } }
    let w := addToRoom (w.heap client).room (w.heap client).name client w
    let w := Unlock w
    (broadcastMessageToRoom (w.heap client).room
      ((w.heap client).name ++ " has joined the chat.") w).andThen fun w =>
    .returned (logPrintf
      (.connected (w.heap client).name (w.heap client).room (len w.srv.clients)) w)

/-- The unregister case of `handleMessages`. -/
def handleUnregister (client : Ptr) (w : World) : Outcome :=
  (Lock w).andThen fun w =>
    match w.srv.clients.lookup (w.heap client).conn with
    | some _ =>
      let w := { w with srv := { w.srv with
        clients := w.srv.clients.erase (w.heap client).conn } }
      let w := { w with srv := { w.srv with
        usernames := w.srv.usernames.erase (w.heap client).name } }
      let w := match w.srv.rooms.lookup (w.heap client).room with
        | some roomClients =>
          removeFromRoom (w.heap client).room (w.heap client).name roomClients w
        | none => w
      let w := Close (w.heap client).conn w
      let w := Unlock w
      (broadcastMessageToRoom (w.heap client).room
        ((w.heap client).name ++ " has left the chat.") w).andThen fun w =>
      .returned (logPrintf
        (.disconnected (w.heap client).name (w.heap client).room (len w.srv.clients)) w)
    | none => .returned (Unlock w)

/-- The message case of `handleMessages`. -/
def handleMessage (senderClient : Ptr) (actualMessage : String) (w : World) : Outcome :=
  if HasPrefix actualMessage "/whisper " then
    match SplitN actualMessage ' ' 3 with
    | [_, targetUsername, privateMessage] =>
      sendWhisper senderClient targetUsername privateMessage w
    | _ =>
      .returned (Fprintln (w.heap senderClient).conn "Usage: /whisper <username> <message>" w).1
  else if HasPrefix actualMessage "/join " then
    joinRoom senderClient (TrimSpace (TrimPrefix actualMessage "/join ")) w
  else if actualMessage = "/leave" then
    leaveRoom senderClient w
  else
    broadcastMessageToRoom (w.heap senderClient).room
      ((w.heap senderClient).name ++ ": " ++ actualMessage) w

/-- One iteration of the loop of `handleMessages`: one event is received and
handled. -/
def handleEvent (e : Event) (w : World) : Outcome :=
  match e with
  | .register client => handleRegister client w
  | .unregister client => handleUnregister client w
  | .message client msg => handleMessage client msg w

/-- The loop of `handleMessages` on a list of events, received in this order. -/
def handleMessages : List Event → World → Outcome
  | [], w => .returned w
  | e :: es, w => (handleEvent e w).andThen (handleMessages es)


/-! ## Observations used in the statements -/

/-- The member entries of a room, in iteration order; none when the room does
not exist. -/
def roomMembers (s : Server) (roomName : String) : List ((_ : String) × Ptr) :=
  match s.rooms.lookup roomName with
  | some roomClients => roomClients.entries
  | none => []

/-- The writes of one broadcast of a line to a list of member entries. -/
def lineTo (heap : Ptr → Client) (line : String) (ms : List ((_ : String) × Ptr)) :
    List (Conn × String) :=
  ms.map fun e => ((heap e.2).conn, line ++ "\n")

/-- The text a socket has been sent so far, write by write. -/
def received (w : World) (conn : Conn) : List String :=
  (w.out.filter fun e => e.1 = conn).map Prod.snd

/-- The world after the loop of `broadcastMessageToRoom` over a room. -/
def deliver (roomName message : String) (w : World) : World :=
  (roomMembers w.srv roomName).foldl (sendTo roomName message) w

/-- The world after the insertions of the register case, the mutex released. -/
def registered (client : Ptr) (w : World) : World :=
  { w with srv :=
    { clients := w.srv.clients.insert (w.heap client).conn client
      usernames := w.srv.usernames.insert (w.heap client).name client
      rooms := w.srv.rooms.insert (w.heap client).room
        (((w.srv.rooms.lookup (w.heap client).room).getD ∅).insert (w.heap client).name client)
      mutex := false } }

/-- The rooms after a name left a room: the room without the name, or without
the room when nobody is left in it. -/
def roomsWithout (rooms : GoMap String (GoMap String Ptr)) (room name : String) :
    GoMap String (GoMap String Ptr) :=
  match rooms.lookup room with
  | some roomClients =>
    if len (roomClients.erase name) = 0 then rooms.erase room
    else rooms.insert room (roomClients.erase name)
  | none => rooms

/-- The world after the deletions of the unregister case and the closing of the
socket, the mutex released. -/
def unregistered (client : Ptr) (w : World) : World :=
  { w with
    srv :=
      { clients := w.srv.clients.erase (w.heap client).conn
        usernames := w.srv.usernames.erase (w.heap client).name
        rooms := roomsWithout w.srv.rooms (w.heap client).room (w.heap client).name
        mutex := false }
    closed := w.closed ++ [(w.heap client).conn] }


/-! ## The registry invariants -/

/-- One `Client` object per accepted connection: `handleConnection` creates
exactly one client for the connection it was started with. -/
def ConnInjective (heap : Ptr → Client) : Prop :=
  ∀ p q, (heap p).conn = (heap q).conn → p = q

/-- The name of a register event is not a key of `usernames` in the world in
which the dispatcher receives the event.  `handleConnection` makes this check
earlier, under the mutex, and releases the mutex before it sends the event, so
the workers do not guarantee the condition.  The other events carry no
condition. -/
def admissible (e : Event) (w : World) : Bool :=
  match e with
  | .register client => decide ((w.heap client).name ∉ w.srv.usernames)
  | _ => true

/-- Every event of the list is admissible in the world in which the dispatcher
receives it. -/
def wellFormed : List Event → World → Bool
  | [], _ => true
  | e :: es, w =>
    admissible e w &&
      match handleEvent e w with
      | .returned w2 => wellFormed es w2
      | .blocked _ => true

/-- The client is a member, under its name, of the room its room field names,
and of no other room. -/
def InExactlyOneRoom (w : World) (p : Ptr) : Prop :=
  (∃ rc, w.srv.rooms.lookup (w.heap p).room = some rc ∧ rc.lookup (w.heap p).name = some p) ∧
  ∀ r rc n, w.srv.rooms.lookup r = some rc → rc.lookup n = some p →
    r = (w.heap p).room ∧ n = (w.heap p).name

/-- Registry invariant 1: every client of the connection view is in exactly one
room, the one of its room field; and a name is a key of the name view exactly
when a client of that name is a member of exactly one room. -/
def MembershipInvariant (w : World) : Prop :=
  (∀ conn p, w.srv.clients.lookup conn = some p → InExactlyOneRoom w p) ∧
  ∀ n, n ∈ w.srv.usernames ↔
    ∃ p, (w.heap p).name = n ∧
      ∃! r, ∃ rc, w.srv.rooms.lookup r = some rc ∧ rc.lookup n = some p

/-- Registry invariant 2: the names of the name view are the names of the
clients of the connection view, and the two views hold the same clients. -/
def NameViewInvariant (w : World) : Prop :=
  (∀ n, n ∈ w.srv.usernames ↔
    ∃ conn p, w.srv.clients.lookup conn = some p ∧ (w.heap p).name = n) ∧
  ∀ p, (∃ conn, w.srv.clients.lookup conn = some p) ↔
    ∃ n, w.srv.usernames.lookup n = some p

/-- The three views of the registry agree, no room is empty and the mutex is
free: what holds between two events of a well-formed run. -/
structure Consistent (w : World) : Prop where
  free : w.srv.mutex = false
  clientsOk : ∀ conn p, w.srv.clients.lookup conn = some p →
    (w.heap p).conn = conn ∧ w.srv.usernames.lookup (w.heap p).name = some p
  namesOk : ∀ n p, w.srv.usernames.lookup n = some p →
    (w.heap p).name = n ∧ w.srv.clients.lookup (w.heap p).conn = some p ∧
      ∃ rc, w.srv.rooms.lookup (w.heap p).room = some rc ∧ rc.lookup n = some p
  roomsOk : ∀ r rc n p, w.srv.rooms.lookup r = some rc → rc.lookup n = some p →
    (w.heap p).room = r ∧ w.srv.usernames.lookup n = some p
  nonempty : ∀ r rc, w.srv.rooms.lookup r = some rc → len rc ≠ 0


/-! ## Concrete worlds -/

/-- A network on which no write fails. -/
def noFail : Nat → Bool := fun _ => false

/-- Client objects for the connections 0, 1, 2, ...: the first is named A, the
second B, the others C; all start in the default room. -/
def demoHeap : Ptr → Client := fun p =>
  { conn := p, name := if p = 0 then "A" else if p = 1 then "B" else "C", room := "general" }

/-- Client objects that were all given the name bob: what `handleConnection`
creates for connections that pass the name check before any of them is
registered. -/
def bobHeap : Ptr → Client := fun p =>
  { conn := p, name := "bob", room := "general" }

/-- Client objects like those of `demoHeap`, with room field X. -/
def heapX : Ptr → Client := fun p =>
  { conn := p, name := if p = 0 then "A" else if p = 1 then "B" else "C", room := "X" }


/-! ## The connection worker -/

/-- What one run of `handleConnection` does: the world it leaves, the events it
sends on the channels, in program order, and whether it is blocked in
`mutex.Lock`.  The list `submitted` holds every send of the run as if each
completed; a send completes only when the dispatcher receives it (`sendAll`),
so what the dispatcher really receives is a prefix of the list. -/
structure Worker where
  world : World
  submitted : List Event
  blocked : Bool

/-- The method `handleConnection` for the connection `conn`.  `input` holds the
lines `ReadString` returns before the read that fails; `client` is the address
at which the new `Client` is allocated.  The name check reads `usernames` in
the world `w`; the events are handed to the dispatcher later, one by one, and
each send waits until the dispatcher receives it (`sendAll`). -/
def handleConnection (conn : Conn) (client : Ptr) (input : List String) (w : World) : Worker :=
  let w := (Fprint conn "Enter your name: " w).1
  match input with
  | [] => { world := Close conn (logPrintf .readNameError w), submitted := [], blocked := false }
  | line :: rest =>
    let name := TrimSpace line
    if name = "" then
      { world := Close conn (Fprintln conn "Name cannot be empty. Disconnecting." w).1
        submitted := []
        blocked := false }
    else
      match Lock w with
      | .blocked w => { world := w, submitted := [], blocked := true }
      | .returned w =>
        if name ∈ w.srv.usernames then
          let w := Unlock w
          { world := Close conn (Fprintln conn
              ("Name '" ++ name ++ "' is already taken. Please choose another. Disconnecting.")
              w).1
            submitted := []
            blocked := false }
        else
          let w := Unlock w
          let created : Client := { conn := conn, name := name, room := "general" }
          let w := { w with heap := Function.update w.heap client created }
          { world := logPrintf (.readError name) w
            submitted := .register client ::
              (rest.map fun l => .message client (TrimSpace l)) ++ [.unregister client]
            blocked := false }

/-! ## More observations and concrete worlds -/

/-- The value of `rooms[room][name]`, when there is one. -/
def memberOf (s : Server) (room name : String) : Option Ptr :=
  (s.rooms.lookup room).bind fun roomClients => roomClients.lookup name

/-- The world in which one client named bob is registered. -/
def oneBob : World :=
  (handleMessages [.register 0] (World.init bobHeap noFail)).world

/-- The world in which A and B are registered, both in the default room. -/
def twoInGeneral : World :=
  (handleMessages [.register 0, .register 1] (World.init demoHeap noFail)).world

/-- The world in which A, B and C are registered in the default room. -/
def threeInGeneral : World :=
  (handleMessages [.register 0, .register 1, .register 2] (World.init demoHeap noFail)).world

/-- The world in which A and B are registered, both in room X. -/
def twoInX : World :=
  (handleMessages [.register 0, .register 1] (World.init heapX noFail)).world


/-! ## The tokenisation the whisper claim describes -/

/-- The white-space tokens of a text, as `strings.Fields` gives them: `cur` is
the token being read, in reverse. -/
def specTokensFrom : List Char → List Char → List String
  | [], cur => if cur = [] then [] else [String.mk cur.reverse]
  | c :: cs, cur =>
    if isSpace c then
      if cur = [] then specTokensFrom cs [] else String.mk cur.reverse :: specTokensFrom cs []
    else specTokensFrom cs (c :: cur)

/-- The white-space separated tokens of a line: what claim C13 says the whisper
branch splits a line into.  The server itself uses `SplitN` on the space. -/
def specWhitespaceTokens (s : String) : List String :=
  specTokensFrom s.data []

/-- The usage line of the whisper branch. -/
def usageLine : String := "Usage: /whisper <username> <message>"

end ChatServer

/-!
# go-learning: functions of `09-testing/basic-testing.go`

Go's `int` is taken as the 64-bit two's complement integer; a product that
leaves the range wraps around (`wrap64`).  A `[]rune` is a list of characters,
a `[]int` a list of integers.  Loops run on fuel; `none` means that the fuel
ran out.
-/

namespace BasicTesting

/-- The value of an `int` expression after 64-bit wrap-around. -/
def wrap64 (x : Int) : Int :=
  (x + 2 ^ 63) % 2 ^ 64 - 2 ^ 63

/-- The statement `runes[i], runes[j] = runes[j], runes[i]`. -/
def swapRunes (runes : List Char) (i j : Nat) : List Char :=
  (runes.set i (runes.getD j default)).set j (runes.getD i default)

/-- The loop of `ReverseString`, from the indices `i` and `j` on. -/
def reverseLoop : Nat → List Char → Int → Int → Option (List Char)
  | 0, _, _, _ => none
  | fuel + 1, runes, i, j =>
    if i < j then reverseLoop fuel (swapRunes runes i.toNat j.toNat) (i + 1) (j - 1)
    else some runes

/-- The function `ReverseString`: the runes of the string are swapped in place
from both ends. -/
def ReverseString (s : String) : Option String :=
  (reverseLoop (s.data.length + 1) s.data 0 ((s.data.length : Int) - 1)).map String.mk

/-- The loop of `IsPrime`, from the candidate divisor `i` on. -/
def isPrimeLoop : Nat → Int → Int → Option Bool
  | 0, _, _ => none
  | fuel + 1, n, i =>
    if wrap64 (i * i) ≤ n then
      if n.tmod i = 0 then some false
      else isPrimeLoop fuel n (wrap64 (i + 2))
    else some true

/-- The function `IsPrime`. -/
def IsPrime (n : Int) : Option Bool :=
  if n < 2 then some false
  else if n = 2 then some true
  else if n.tmod 2 = 0 then some false
  else isPrimeLoop n.toNat n 3

/-- The function `Max`: the value and the error (`none` for `nil`). -/
def Max (numbers : List Int) : Int × Option String :=
  match numbers with
  | [] => (0, some "empty slice")
  | first :: rest => (rest.foldl (fun max num => if num > max then num else max) first, none)

end BasicTesting

namespace ChatServer

/-! ## The connection worker, step by step -/

/-- One effect of `handleConnection`. -/
inductive WorkerStep where
  | write (conn : Conn) (text : String)
  | close (conn : Conn)
  | lock
  | unlock
  | alloc (client : Ptr)
  | submit (e : Event)
  | log (l : LogLine)
deriving DecidableEq, Repr

/-- The effects of `handleConnection` in program order, for the same arguments
as `handleConnection`: the prompt, then the read of the name, the check under
the mutex, and either a rejection line and the closing of the socket or the
submission of the events. -/
def workerSteps (conn : Conn) (client : Ptr) (input : List String) (w : World) :
    List WorkerStep :=
  .write conn "Enter your name: " ::
    match input with
    | [] => [.log .readNameError, .close conn]
    | line :: rest =>
      if TrimSpace line = "" then
        [.write conn ("Name cannot be empty. Disconnecting." ++ "\n"), .close conn]
      else if w.srv.mutex then [.lock]
      else if TrimSpace line ∈ w.srv.usernames then
        [.lock, .unlock,
          .write conn ("Name '" ++ TrimSpace line ++
            "' is already taken. Please choose another. Disconnecting." ++ "\n"),
          .close conn]
      else
        [.lock, .unlock, .alloc client, .submit (.register client)] ++
          (rest.map fun l => .submit (.message client (TrimSpace l))) ++
          [.log (.readError (TrimSpace line)), .submit (.unregister client)]

/-- The socket write of a step, when it is one. -/
def WorkerStep.written : WorkerStep → Option (Conn × String)
  | .write conn text => some (conn, text)
  | _ => none

/-- The event a step submits, when it submits one. -/
def WorkerStep.submitted : WorkerStep → Option Event
  | .submit e => some e
  | _ => none

/-- The socket a step closes, when it closes one. -/
def WorkerStep.closedConn : WorkerStep → Option Conn
  | .close conn => some conn
  | _ => none

/-! ## Worlds that differ in the network failures only -/

/-- Two worlds with the same registry, heap, attempted socket writes and
closed sockets: they may differ in which writes fail and in the log. -/
def Agree (a b : World) : Prop :=
  a.srv = b.srv ∧ a.heap = b.heap ∧ a.out = b.out ∧ a.closed = b.closed

/-- Two outcomes of the same kind, returned or blocked, in agreeing worlds. -/
def OutcomeAgree : Outcome → Outcome → Prop
  | .returned a, .returned b => Agree a b
  | .blocked a, .blocked b => Agree a b
  | _, _ => False

/-- A network on which every write fails. -/
def allFail : Nat → Bool := fun _ => true

/-! ## Well-formed event streams -/

/-- The conditions of a well-formed stream on one event: a register event
carries a name that is not in usernames, a connection that is not in clients
and the room field general; a message event comes from a client that is in
clients. -/
def admissibleStrict (e : Event) (w : World) : Bool :=
  match e with
  | .register client =>
    decide ((w.heap client).name ∉ w.srv.usernames) &&
      decide ((w.heap client).conn ∉ w.srv.clients) &&
      decide ((w.heap client).room = "general")
  | .message client _ => decide (w.srv.clients.lookup (w.heap client).conn = some client)
  | .unregister _ => true

/-- Every event of the list meets `admissibleStrict` in the world in which the
dispatcher receives it. -/
def wellFormedStrict : List Event → World → Bool
  | [], _ => true
  | e :: es, w =>
    admissibleStrict e w &&
      match handleEvent e w with
      | .returned w2 => wellFormedStrict es w2
      | .blocked _ => true

/-- The number of memberships over all rooms. -/
def totalMemberships (s : Server) : Nat :=
  (s.rooms.entries.map fun e => len e.2).sum

/-! ## The channels between the workers and the dispatcher -/

/-- The sends of a list of events on the channels of the server, in the order
in which the dispatcher would receive them.  The channels are made without a
buffer, so a send completes when the loop of `handleMessages` receives the
event, and the loop receives the next event only after the handler of the one
before has returned.  The result is the events received, in order, and the
state of the dispatcher after them. -/
def sendAll : List Event → World → List Event × Outcome
  | [], w => ([], .returned w)
  | e :: es, w =>
    match handleEvent e w with
    | .returned w2 => (e :: (sendAll es w2).1, (sendAll es w2).2)
    | .blocked wb => ([e], .blocked wb)

/-- The first of two workers that are both sent the name bob: it makes the name
check of `handleConnection` on the empty registry. -/
def firstBob : Worker :=
  handleConnection 0 0 ["bob\n"] (World.init demoHeap noFail)

/-- The second of the two workers: it makes its name check before the
dispatcher has received the Register of the first, so on the registry the
first worker left. -/
def secondBob : Worker :=
  handleConnection 1 1 ["bob\n"] firstBob.world

/-- The world in which the dispatcher has handled the Register of the first
bob and not yet that of the second. -/
def firstBobRegistered : World :=
  (handleEvent (.register 0) secondBob.world).world

/-- The worker of a connection that is sent the name A and then a join for
room x. -/
def joiner : Worker :=
  handleConnection 0 0 ["A\n", "/join x\n"] (World.init demoHeap noFail)

/-- The world in which the dispatcher is left by the sends of `joiner`: blocked
in `joinRoom`, the mutex held. -/
def stuckInJoin : World :=
  (sendAll joiner.submitted joiner.world).2.world

/-- The worker of the connection 7 that is sent the name carol, a chat line and
a join for room x, and then disconnects. -/
def carol : Worker :=
  handleConnection 7 7 ["carol\n", " hello \n", "/join x\n"] (World.init demoHeap noFail)

/-! ## Delivery lemmas -/

theorem sendTo_srv (r m : String) (w : World) (e : (_ : String) × Ptr) :
    (sendTo r m w e).srv = w.srv := by
  cases h : w.wfail w.out.length <;> simp [sendTo, Fprintln, Fprint, logPrintf, h]

theorem sendTo_heap (r m : String) (w : World) (e : (_ : String) × Ptr) :
    (sendTo r m w e).heap = w.heap := by
  cases h : w.wfail w.out.length <;> simp [sendTo, Fprintln, Fprint, logPrintf, h]

theorem sendTo_closed (r m : String) (w : World) (e : (_ : String) × Ptr) :
    (sendTo r m w e).closed = w.closed := by
  cases h : w.wfail w.out.length <;> simp [sendTo, Fprintln, Fprint, logPrintf, h]

theorem sendTo_wfail (r m : String) (w : World) (e : (_ : String) × Ptr) :
    (sendTo r m w e).wfail = w.wfail := by
  cases h : w.wfail w.out.length <;> simp [sendTo, Fprintln, Fprint, logPrintf, h]

theorem sendTo_out (r m : String) (w : World) (e : (_ : String) × Ptr) :
    (sendTo r m w e).out = w.out ++ [((w.heap e.2).conn, m ++ "\n")] := by
  cases h : w.wfail w.out.length <;> simp [sendTo, Fprintln, Fprint, logPrintf, h]

theorem foldl_sendTo_srv (r m : String) (ms : List ((_ : String) × Ptr)) (w : World) :
    (ms.foldl (sendTo r m) w).srv = w.srv := by
  induction ms generalizing w with
  | nil => rfl
  | cons e es ih => rw [List.foldl_cons, ih, sendTo_srv]

theorem foldl_sendTo_heap (r m : String) (ms : List ((_ : String) × Ptr)) (w : World) :
    (ms.foldl (sendTo r m) w).heap = w.heap := by
  induction ms generalizing w with
  | nil => rfl
  | cons e es ih => rw [List.foldl_cons, ih, sendTo_heap]

theorem foldl_sendTo_closed (r m : String) (ms : List ((_ : String) × Ptr)) (w : World) :
    (ms.foldl (sendTo r m) w).closed = w.closed := by
  induction ms generalizing w with
  | nil => rfl
  | cons e es ih => rw [List.foldl_cons, ih, sendTo_closed]

theorem foldl_sendTo_wfail (r m : String) (ms : List ((_ : String) × Ptr)) (w : World) :
    (ms.foldl (sendTo r m) w).wfail = w.wfail := by
  induction ms generalizing w with
  | nil => rfl
  | cons e es ih => rw [List.foldl_cons, ih, sendTo_wfail]

theorem foldl_sendTo_out (r m : String) (ms : List ((_ : String) × Ptr)) (w : World) :
    (ms.foldl (sendTo r m) w).out = w.out ++ lineTo w.heap m ms := by
  induction ms generalizing w with
  | nil => simp [lineTo]
  | cons e es ih =>
    rw [List.foldl_cons, ih, sendTo_out, sendTo_heap]
    simp [lineTo]

/-- The loop of a broadcast does not look at the server: it commutes with any
change of it. -/
theorem foldl_sendTo_setSrv (r m : String) (ms : List ((_ : String) × Ptr)) (w : World)
    (s : Server) :
    ms.foldl (sendTo r m) { w with srv := s } = { ms.foldl (sendTo r m) w with srv := s } := by
  induction ms generalizing w with
  | nil => rfl
  | cons e es ih =>
    rw [List.foldl_cons, List.foldl_cons, ← ih]
    congr 1
    cases h : w.wfail w.out.length <;> simp [sendTo, Fprintln, Fprint, logPrintf, h]

theorem server_eta_mutex (s : Server) (h : s.mutex = false) :
    { s with mutex := false } = s := by
  cases s; simp_all

/-- With the mutex free a broadcast returns, and it is the delivery loop. -/
theorem broadcast_of_free (r m : String) (w : World) (h : w.srv.mutex = false) :
    broadcastMessageToRoom r m w = .returned (deliver r m w) := by
  unfold broadcastMessageToRoom Lock deliver roomMembers
  simp only [h, Bool.false_eq_true, if_false, Outcome.andThen]
  cases hr : w.srv.rooms.lookup r with
  | none =>
    simp only [Unlock, List.foldl_nil]
    congr 1
    cases w; simp_all [server_eta_mutex]
  | some rc =>
    simp only [Unlock]
    rw [foldl_sendTo_setSrv]
    simp only [foldl_sendTo_srv]
    congr 1
    have := foldl_sendTo_srv r m rc.entries w
    generalize List.foldl (sendTo r m) w rc.entries = w' at *
    cases w'; simp_all [server_eta_mutex]

/-- With the mutex held a broadcast blocks at once. -/
theorem broadcast_of_held (r m : String) (w : World) (h : w.srv.mutex = true) :
    broadcastMessageToRoom r m w = .blocked w := by
  simp [broadcastMessageToRoom, Lock, h, Outcome.andThen]

theorem deliver_srv (r m : String) (w : World) : (deliver r m w).srv = w.srv :=
  foldl_sendTo_srv r m _ w

theorem deliver_heap (r m : String) (w : World) : (deliver r m w).heap = w.heap :=
  foldl_sendTo_heap r m _ w

theorem deliver_closed (r m : String) (w : World) : (deliver r m w).closed = w.closed :=
  foldl_sendTo_closed r m _ w

theorem deliver_wfail (r m : String) (w : World) : (deliver r m w).wfail = w.wfail :=
  foldl_sendTo_wfail r m _ w

theorem deliver_out (r m : String) (w : World) :
    (deliver r m w).out = w.out ++ lineTo w.heap m (roomMembers w.srv r) :=
  foldl_sendTo_out r m _ w


/-! ## The three cases of the dispatcher, with the mutex free -/

theorem handleRegister_of_free (c : Ptr) (w : World) (h : w.srv.mutex = false) :
    handleRegister c w = .returned (logPrintf
      (.connected (w.heap c).name (w.heap c).room (len (registered c w).srv.clients))
      (deliver (w.heap c).room ((w.heap c).name ++ " has joined the chat.") (registered c w))) := by
  unfold handleRegister Lock
  simp only [h, Bool.false_eq_true, if_false, Outcome.andThen]
  have e : Unlock (addToRoom (w.heap c).room (w.heap c).name c
      { srv := { clients := AList.insert (w.heap c).conn c w.srv.clients,
                 usernames := AList.insert (w.heap c).name c w.srv.usernames,
                 rooms := w.srv.rooms, mutex := true },
        heap := w.heap, out := w.out, closed := w.closed, wfail := w.wfail, log := w.log })
      = registered c w := rfl
  simp only [e]
  rw [broadcast_of_free _ _ _ rfl]
  simp only [deliver_heap, deliver_srv]
  rfl

theorem handleUnregister_of_absent (c : Ptr) (w : World) (h : w.srv.mutex = false)
    (habs : w.srv.clients.lookup (w.heap c).conn = none) :
    handleUnregister c w = .returned w := by
  unfold handleUnregister Lock
  simp only [h, Bool.false_eq_true, if_false, Outcome.andThen, habs, Unlock]
  congr 1
  cases w; simp_all [server_eta_mutex]

theorem handleUnregister_of_present (c : Ptr) (w : World) (h : w.srv.mutex = false)
    (q : Ptr) (hq : w.srv.clients.lookup (w.heap c).conn = some q) :
    handleUnregister c w = .returned (logPrintf
      (.disconnected (w.heap c).name (w.heap c).room (len (unregistered c w).srv.clients))
      (deliver (w.heap c).room ((w.heap c).name ++ " has left the chat.") (unregistered c w))) := by
  cases hr : w.srv.rooms.lookup (w.heap c).room with
  | none =>
    simp only [handleUnregister, Lock, h, Bool.false_eq_true, if_false, Outcome.andThen, hq, hr,
      Unlock, Close]
    rw [broadcast_of_free _ _ _ rfl]
    simp only [deliver_heap, deliver_srv, unregistered, roomsWithout, hr]
  | some rc =>
    by_cases hl : len (rc.erase (w.heap c).name) = 0
    · simp only [handleUnregister, Lock, h, Bool.false_eq_true, if_false, Outcome.andThen, hq, hr,
        Unlock, Close, removeFromRoom, hl, if_true]
      rw [broadcast_of_free _ _ _ rfl]
      simp only [deliver_heap, deliver_srv, unregistered, roomsWithout, hr, hl, if_true]
    · simp only [handleUnregister, Lock, h, Bool.false_eq_true, if_false, Outcome.andThen, hq, hr,
        Unlock, Close, removeFromRoom, hl]
      rw [broadcast_of_free _ _ _ rfl]
      simp only [deliver_heap, deliver_srv, unregistered, roomsWithout, hr, hl, if_false]


/-! ## The message case -/

theorem unlock_lock_srv (s : Server) (h : s.mutex = false) :
    ({ ({ s with mutex := true } : Server) with mutex := false } : Server) = s := by
  cases s; simp_all

theorem sendWhisper_of_found (s : Ptr) (t m : String) (w : World) (h : w.srv.mutex = false)
    (hne : (w.heap s).name ≠ t) (q : Ptr) (hq : w.srv.usernames.lookup t = some q) :
    ∃ w2, sendWhisper s t m w = .returned w2 ∧ w2.srv = w.srv ∧ w2.heap = w.heap ∧
      w2.closed = w.closed ∧ w2.wfail = w.wfail ∧
      w2.out = w.out ++ [((w.heap q).conn, "[Whisper from " ++ (w.heap s).name ++ "]: " ++ m ++ "\n"),
        ((w.heap s).conn, "[Whisper to " ++ t ++ "]: " ++ m ++ "\n")] := by
  cases h1 : w.wfail w.out.length <;> cases h2 : w.wfail (w.out.length + 1) <;>
    simp [sendWhisper, Lock, h, Outcome.andThen, hne, hq, Fprintln, Fprint, logPrintf, Unlock,
      h1, h2] <;> exact unlock_lock_srv _ h

theorem sendWhisper_returned (s : Ptr) (t m : String) (w w2 : World) (h : w.srv.mutex = false)
    (hret : sendWhisper s t m w = .returned w2) :
    w2.srv = w.srv ∧ w2.heap = w.heap := by
  by_cases hne : (w.heap s).name = t
  · simp only [sendWhisper, Lock, h, Bool.false_eq_true, if_false, Outcome.andThen, hne, if_true,
      Fprintln, Fprint, Unlock, Outcome.returned.injEq] at hret
    subst hret
    exact ⟨unlock_lock_srv _ h, rfl⟩
  · cases hq : w.srv.usernames.lookup t with
    | none =>
      simp only [sendWhisper, Lock, h, Bool.false_eq_true, if_false, Outcome.andThen, hne, hq,
        Fprintln, Fprint, Unlock, Outcome.returned.injEq] at hret
      subst hret
      exact ⟨unlock_lock_srv _ h, rfl⟩
    | some q =>
      obtain ⟨w3, e, hs, hh, _⟩ := sendWhisper_of_found s t m w h hne q hq
      rw [e] at hret
      cases hret
      exact ⟨hs, hh⟩

theorem removeFromRoom_mutex (r n : String) (rc : GoMap String Ptr) (w : World) :
    (removeFromRoom r n rc w).srv.mutex = w.srv.mutex := by
  unfold removeFromRoom
  dsimp only
  split <;> rfl

/-- A room switch never returns: `joinRoom` holds the mutex when it calls
`broadcastMessageToRoom`, which locks the mutex again. -/
theorem joinRoom_blocks (c : Ptr) (n : String) (w : World) (h : w.srv.mutex = false)
    (hne : n ≠ "") (hr : (w.heap c).room ≠ n) :
    (joinRoom c n w).isReturned = false := by
  cases hl : w.srv.rooms.lookup (w.heap c).room with
  | some rc =>
    simp only [joinRoom, Lock, h, Bool.false_eq_true, if_false, Outcome.andThen, hne, hr, hl]
    rw [broadcast_of_held _ _ _ (by rw [removeFromRoom_mutex])]
    rfl
  | none =>
    simp only [joinRoom, Lock, h, Bool.false_eq_true, if_false, Outcome.andThen, hne, hr, hl]
    rw [broadcast_of_held _ _ _ rfl]
    rfl

theorem joinRoom_returned (c : Ptr) (n : String) (w w2 : World) (h : w.srv.mutex = false)
    (hret : joinRoom c n w = .returned w2) :
    w2.srv = w.srv ∧ w2.heap = w.heap := by
  by_cases hne : n = ""
  · simp only [joinRoom, Lock, h, Bool.false_eq_true, if_false, Outcome.andThen, hne, if_true,
      Fprintln, Fprint, Unlock, Outcome.returned.injEq] at hret
    subst hret
    exact ⟨unlock_lock_srv _ h, rfl⟩
  · by_cases hr : (w.heap c).room = n
    · simp only [joinRoom, Lock, h, Bool.false_eq_true, if_false, Outcome.andThen, hne, hr,
        if_true, Fprintln, Fprint, Unlock, Outcome.returned.injEq] at hret
      subst hret
      exact ⟨unlock_lock_srv _ h, rfl⟩
    · have := joinRoom_blocks c n w h hne hr
      rw [hret] at this
      simp [Outcome.isReturned] at this

theorem handleMessage_returned (c : Ptr) (m : String) (w w2 : World) (h : w.srv.mutex = false)
    (hret : handleMessage c m w = .returned w2) :
    w2.srv = w.srv ∧ w2.heap = w.heap := by
  unfold handleMessage at hret
  split at hret
  · split at hret
    · exact sendWhisper_returned _ _ _ _ _ h hret
    · simp only [Fprintln, Fprint, Outcome.returned.injEq] at hret
      subst hret
      exact ⟨rfl, rfl⟩
  · split at hret
    · exact joinRoom_returned _ _ _ _ h hret
    · split at hret
      · exact joinRoom_returned _ _ _ _ h hret
      · rw [broadcast_of_free _ _ _ h] at hret
        cases hret
        exact ⟨deliver_srv _ _ _, deliver_heap _ _ _⟩


/-! ## Preservation of the invariants -/

theorem len_ne_zero_of_lookup {rc : GoMap String Ptr} {n : String} {p : Ptr}
    (h : rc.lookup n = some p) : len rc ≠ 0 := by
  have hm : Sigma.mk n p ∈ rc.entries := AList.mem_lookup_iff.1 (by simp [h])
  intro h0
  have : rc.entries = [] := List.length_eq_zero.1 h0
  rw [this] at hm
  simp at hm

theorem lookup_roomsWithout_ne (rooms : GoMap String (GoMap String Ptr)) (rm nm r : String)
    (h : r ≠ rm) : (roomsWithout rooms rm nm).lookup r = rooms.lookup r := by
  unfold roomsWithout
  split
  · split
    · exact AList.lookup_erase_ne h
    · exact AList.lookup_insert_ne h
  · rfl

theorem lookup_roomsWithout_self (rooms : GoMap String (GoMap String Ptr)) (rm nm : String) :
    (roomsWithout rooms rm nm).lookup rm =
      match rooms.lookup rm with
      | some rc => if len (rc.erase nm) = 0 then none else some (rc.erase nm)
      | none => none := by
  unfold roomsWithout
  cases h : rooms.lookup rm with
  | none => simp [h]
  | some rc =>
    dsimp only
    split
    · exact AList.lookup_erase _ _
    · exact AList.lookup_insert _

theorem consistent_of_eq {w w2 : World} (hs : w2.srv = w.srv) (hh : w2.heap = w.heap)
    (hc : Consistent w) : Consistent w2 := by
  constructor
  · rw [hs]; exact hc.free
  · rw [hs, hh]; exact hc.clientsOk
  · rw [hs, hh]; exact hc.namesOk
  · rw [hs, hh]; exact hc.roomsOk
  · rw [hs]; exact hc.nonempty

theorem consistent_init (heap : Ptr → Client) (wfail : Nat → Bool) :
    Consistent (World.init heap wfail) := by
  constructor <;> intros <;> simp_all [World.init, NewServer]

theorem consistent_registered (c : Ptr) (w : World) (hc : Consistent w)
    (hinj : ConnInjective w.heap) (hfresh : w.srv.usernames.lookup (w.heap c).name = none) :
    Consistent (registered c w) := by
  have hconn : ∀ q, w.srv.clients.lookup (w.heap c).conn = some q → False := by
    intro q hq
    obtain ⟨h1, h2⟩ := hc.clientsOk _ _ hq
    have := hinj _ _ h1
    subst this
    rw [hfresh] at h2
    cases h2
  constructor
  · rfl
  · intro conn p hp
    show (w.heap p).conn = conn ∧
      (w.srv.usernames.insert (w.heap c).name c).lookup (w.heap p).name = some p
    have hp : (w.srv.clients.insert (w.heap c).conn c).lookup conn = some p := hp
    by_cases hcn : conn = (w.heap c).conn
    · subst hcn
      rw [AList.lookup_insert] at hp
      cases hp
      exact ⟨rfl, AList.lookup_insert _⟩
    · rw [AList.lookup_insert_ne hcn] at hp
      obtain ⟨h1, h2⟩ := hc.clientsOk _ _ hp
      refine ⟨h1, ?_⟩
      have hn : (w.heap p).name ≠ (w.heap c).name := by
        intro e
        rw [e, hfresh] at h2
        cases h2
      rw [AList.lookup_insert_ne hn]
      exact h2
  · intro n p hp
    show (w.heap p).name = n ∧
      (w.srv.clients.insert (w.heap c).conn c).lookup (w.heap p).conn = some p ∧
      ∃ rc, (w.srv.rooms.insert (w.heap c).room
        (((w.srv.rooms.lookup (w.heap c).room).getD ∅).insert (w.heap c).name c)).lookup
          (w.heap p).room = some rc ∧ rc.lookup n = some p
    have hp : (w.srv.usernames.insert (w.heap c).name c).lookup n = some p := hp
    by_cases hn : n = (w.heap c).name
    · subst hn
      rw [AList.lookup_insert] at hp
      cases hp
      exact ⟨rfl, AList.lookup_insert _, _, AList.lookup_insert _, AList.lookup_insert _⟩
    · rw [AList.lookup_insert_ne hn] at hp
      obtain ⟨h1, h2, rc, h3, h4⟩ := hc.namesOk _ _ hp
      have hcn : (w.heap p).conn ≠ (w.heap c).conn := by
        intro e
        have := hinj _ _ e
        subst this
        exact hn h1.symm
      refine ⟨h1, by rw [AList.lookup_insert_ne hcn]; exact h2, ?_⟩
      by_cases hr : (w.heap p).room = (w.heap c).room
      · rw [hr, AList.lookup_insert]
        rw [hr] at h3
        refine ⟨_, rfl, ?_⟩
        rw [AList.lookup_insert_ne hn, h3]
        exact h4
      · rw [AList.lookup_insert_ne hr]
        exact ⟨rc, h3, h4⟩
  · intro r rc n p hr hp
    show (w.heap p).room = r ∧ (w.srv.usernames.insert (w.heap c).name c).lookup n = some p
    have hr : (w.srv.rooms.insert (w.heap c).room
        (((w.srv.rooms.lookup (w.heap c).room).getD ∅).insert (w.heap c).name c)).lookup r
          = some rc := hr
    by_cases hrr : r = (w.heap c).room
    · subst hrr
      rw [AList.lookup_insert] at hr
      cases hr
      by_cases hn : n = (w.heap c).name
      · subst hn
        rw [AList.lookup_insert] at hp
        cases hp
        exact ⟨rfl, AList.lookup_insert _⟩
      · rw [AList.lookup_insert_ne hn] at hp
        cases hl : w.srv.rooms.lookup (w.heap c).room with
        | none => simp [hl] at hp
        | some rc0 =>
          simp only [hl, Option.getD_some] at hp
          obtain ⟨h1, h2⟩ := hc.roomsOk _ _ _ _ hl hp
          exact ⟨h1, by rw [AList.lookup_insert_ne hn]; exact h2⟩
    · rw [AList.lookup_insert_ne hrr] at hr
      obtain ⟨h1, h2⟩ := hc.roomsOk _ _ _ _ hr hp
      have hn : n ≠ (w.heap c).name := by
        intro e
        rw [e, hfresh] at h2
        cases h2
      exact ⟨h1, by rw [AList.lookup_insert_ne hn]; exact h2⟩
  · intro r rc hr
    have hr : (w.srv.rooms.insert (w.heap c).room
        (((w.srv.rooms.lookup (w.heap c).room).getD ∅).insert (w.heap c).name c)).lookup r
          = some rc := hr
    by_cases hrr : r = (w.heap c).room
    · subst hrr
      rw [AList.lookup_insert] at hr
      cases hr
      exact len_ne_zero_of_lookup (AList.lookup_insert _)
    · rw [AList.lookup_insert_ne hrr] at hr
      exact hc.nonempty _ _ hr


theorem consistent_unregistered (c : Ptr) (w : World) (hc : Consistent w)
    (hinj : ConnInjective w.heap) (q : Ptr)
    (hq : w.srv.clients.lookup (w.heap c).conn = some q) :
    Consistent (unregistered c w) := by
  have hqc : q = c := hinj _ _ (hc.clientsOk _ _ hq).1
  subst hqc
  have hname : w.srv.usernames.lookup (w.heap q).name = some q := (hc.clientsOk _ _ hq).2
  obtain ⟨-, -, rc0, hroom, hmem⟩ := hc.namesOk _ _ hname
  constructor
  · rfl
  · intro conn p hp
    show (w.heap p).conn = conn ∧
      (w.srv.usernames.erase (w.heap q).name).lookup (w.heap p).name = some p
    have hp : (w.srv.clients.erase (w.heap q).conn).lookup conn = some p := hp
    by_cases hcn : conn = (w.heap q).conn
    · subst hcn
      rw [AList.lookup_erase] at hp
      cases hp
    · rw [AList.lookup_erase_ne hcn] at hp
      obtain ⟨h1, h2⟩ := hc.clientsOk _ _ hp
      refine ⟨h1, ?_⟩
      have hn : (w.heap p).name ≠ (w.heap q).name := by
        intro e
        rw [e, hname] at h2
        cases h2
        exact hcn h1.symm
      rw [AList.lookup_erase_ne hn]
      exact h2
  · intro n p hp
    show (w.heap p).name = n ∧
      (w.srv.clients.erase (w.heap q).conn).lookup (w.heap p).conn = some p ∧
      ∃ rc, (roomsWithout w.srv.rooms (w.heap q).room (w.heap q).name).lookup
          (w.heap p).room = some rc ∧ rc.lookup n = some p
    have hp : (w.srv.usernames.erase (w.heap q).name).lookup n = some p := hp
    by_cases hn : n = (w.heap q).name
    · subst hn
      rw [AList.lookup_erase] at hp
      cases hp
    · rw [AList.lookup_erase_ne hn] at hp
      obtain ⟨h1, h2, rc, h3, h4⟩ := hc.namesOk _ _ hp
      have hcn : (w.heap p).conn ≠ (w.heap q).conn := by
        intro e
        have := hinj _ _ e
        subst this
        exact hn h1.symm
      refine ⟨h1, by rw [AList.lookup_erase_ne hcn]; exact h2, ?_⟩
      by_cases hr : (w.heap p).room = (w.heap q).room
      · rw [hr, lookup_roomsWithout_self, hroom]
        rw [hr, hroom] at h3
        cases h3
        have h5 : (rc0.erase (w.heap q).name).lookup n = some p := by
          rw [AList.lookup_erase_ne hn]
          exact h4
        dsimp only
        rw [if_neg (len_ne_zero_of_lookup h5)]
        exact ⟨_, rfl, h5⟩
      · rw [lookup_roomsWithout_ne _ _ _ _ hr]
        exact ⟨rc, h3, h4⟩
  · intro r rc n p hr hp
    show (w.heap p).room = r ∧ (w.srv.usernames.erase (w.heap q).name).lookup n = some p
    have hr : (roomsWithout w.srv.rooms (w.heap q).room (w.heap q).name).lookup r = some rc := hr
    by_cases hrr : r = (w.heap q).room
    · subst hrr
      rw [lookup_roomsWithout_self, hroom] at hr
      dsimp only at hr
      split at hr
      · cases hr
      · cases hr
        by_cases hn : n = (w.heap q).name
        · subst hn
          rw [AList.lookup_erase] at hp
          cases hp
        · rw [AList.lookup_erase_ne hn] at hp
          obtain ⟨h1, h2⟩ := hc.roomsOk _ _ _ _ hroom hp
          exact ⟨h1, by rw [AList.lookup_erase_ne hn]; exact h2⟩
    · rw [lookup_roomsWithout_ne _ _ _ _ hrr] at hr
      obtain ⟨h1, h2⟩ := hc.roomsOk _ _ _ _ hr hp
      have hn : n ≠ (w.heap q).name := by
        intro e
        rw [e, hname] at h2
        cases h2
        exact hrr h1.symm
      exact ⟨h1, by rw [AList.lookup_erase_ne hn]; exact h2⟩
  · intro r rc hr
    have hr : (roomsWithout w.srv.rooms (w.heap q).room (w.heap q).name).lookup r = some rc := hr
    by_cases hrr : r = (w.heap q).room
    · subst hrr
      rw [lookup_roomsWithout_self, hroom] at hr
      dsimp only at hr
      split at hr
      · cases hr
      · cases hr
        assumption
    · rw [lookup_roomsWithout_ne _ _ _ _ hrr] at hr
      exact hc.nonempty _ _ hr

/-- One admissible event keeps the registry consistent and leaves the heap as
it is, when its handler returns. -/
theorem consistent_step (e : Event) (w w2 : World) (hc : Consistent w)
    (hinj : ConnInjective w.heap) (hadm : admissible e w = true)
    (hret : handleEvent e w = .returned w2) :
    Consistent w2 ∧ w2.heap = w.heap := by
  cases e with
  | register c =>
    have hfresh : w.srv.usernames.lookup (w.heap c).name = none := by
      simpa [admissible, AList.lookup_eq_none] using hadm
    simp only [handleEvent, handleRegister_of_free c w hc.free, Outcome.returned.injEq] at hret
    subst hret
    exact ⟨consistent_of_eq (w := registered c w) (by simp [logPrintf, deliver_srv])
      (by simp [logPrintf, deliver_heap]) (consistent_registered c w hc hinj hfresh),
      by simp [logPrintf, deliver_heap, registered]⟩
  | unregister c =>
    cases hq : w.srv.clients.lookup (w.heap c).conn with
    | none =>
      simp only [handleEvent, handleUnregister_of_absent c w hc.free hq,
        Outcome.returned.injEq] at hret
      subst hret
      exact ⟨hc, rfl⟩
    | some q =>
      simp only [handleEvent, handleUnregister_of_present c w hc.free q hq,
        Outcome.returned.injEq] at hret
      subst hret
      exact ⟨consistent_of_eq (w := unregistered c w) (by simp [logPrintf, deliver_srv])
        (by simp [logPrintf, deliver_heap]) (consistent_unregistered c w hc hinj q hq),
        by simp [logPrintf, deliver_heap, unregistered]⟩
  | message c m =>
    obtain ⟨hs, hh⟩ := handleMessage_returned c m w w2 hc.free hret
    exact ⟨consistent_of_eq hs hh hc, hh⟩

/-- A well-formed run that returns ends in a consistent registry. -/
theorem consistent_run (evs : List Event) (w w2 : World) (hc : Consistent w)
    (hinj : ConnInjective w.heap) (hwf : wellFormed evs w = true)
    (hret : handleMessages evs w = .returned w2) :
    Consistent w2 ∧ w2.heap = w.heap := by
  induction evs generalizing w with
  | nil =>
    simp only [handleMessages, Outcome.returned.injEq] at hret
    subst hret
    exact ⟨hc, rfl⟩
  | cons e es ih =>
    simp only [wellFormed, Bool.and_eq_true] at hwf
    simp only [handleMessages] at hret
    cases he : handleEvent e w with
    | blocked wb => simp [he, Outcome.andThen] at hret
    | returned w1 =>
      rw [he] at hret
      simp only [he] at hwf
      obtain ⟨hc1, hh1⟩ := consistent_step e w w1 hc hinj hwf.1 he
      obtain ⟨hc2, hh2⟩ := ih w1 hc1 (hh1 ▸ hinj) hwf.2 hret
      exact ⟨hc2, hh2.trans hh1⟩


/-! ## Lists of member entries and the text a socket receives -/

theorem fst_mem_keys {e : (_ : String) × Ptr} {l : List ((_ : String) × Ptr)} (h : e ∈ l) :
    e.1 ∈ l.keys :=
  List.mem_keys.2 ⟨e.2, h⟩

theorem kerase_eq_filter (a : String) (l : List ((_ : String) × Ptr)) (nd : l.NodupKeys) :
    l.kerase a = l.filter (fun e => decide (e.1 ≠ a)) := by
  induction l with
  | nil => rfl
  | cons s l ih =>
    obtain ⟨hs, hl⟩ := List.nodupKeys_cons.1 nd
    by_cases h : a = s.1
    · subst h
      rw [List.kerase_cons_eq rfl]
      have : (s :: l).filter (fun e => decide (e.1 ≠ s.1)) = l.filter (fun e => decide (e.1 ≠ s.1)) := by
        simp
      rw [this]
      symm
      rw [List.filter_eq_self]
      intro e he
      have : e.1 ∈ l.keys := fst_mem_keys he
      simp only [ne_eq, decide_eq_true_eq]
      intro heq
      rw [heq] at this
      exact hs this
    · rw [List.kerase_cons_ne h, ih hl]
      have hne : s.1 ≠ a := fun e => h e.symm
      simp [hne]

theorem received_append (w w2 : World) (conn : Conn) (l : List (Conn × String))
    (h : w2.out = w.out ++ l) :
    received w2 conn = received w conn ++ (l.filter fun e => e.1 = conn).map Prod.snd := by
  simp [received, h]

theorem lineTo_filter (heap : Ptr → Client) (line : String) (ms : List ((_ : String) × Ptr))
    (conn : Conn) :
    ((lineTo heap line ms).filter fun e => e.1 = conn).map Prod.snd =
      (ms.filter fun e => (heap e.2).conn = conn).map fun _ => line ++ "\n" := by
  induction ms with
  | nil => rfl
  | cons e es ih =>
    simp only [lineTo, List.map_cons] at ih ⊢
    by_cases h : (heap e.2).conn = conn
    · simp [List.filter_cons, h, ih]
    · simp [List.filter_cons, h, ih]

theorem filter_eq_singleton (l : List ((_ : String) × Ptr)) (nd : l.NodupKeys)
    (P : (_ : String) × Ptr → Bool) (k : String) (v : Ptr) (hmem : Sigma.mk k v ∈ l)
    (hP : P ⟨k, v⟩ = true) (honly : ∀ e ∈ l, P e = true → e.1 = k) :
    l.filter P = [⟨k, v⟩] := by
  induction l with
  | nil => simp at hmem
  | cons s l ih =>
    obtain ⟨hs, hl⟩ := List.nodupKeys_cons.1 nd
    rcases List.mem_cons.1 hmem with h | h
    · subst h
      rw [List.filter_cons, if_pos hP]
      congr 1
      rw [List.filter_eq_nil_iff]
      intro e he hPe
      have h1 := honly e (List.mem_cons_of_mem _ he) hPe
      have h2 : e.1 ∈ l.keys := fst_mem_keys he
      rw [h1] at h2
      exact hs h2
    · have hk : k ∈ l.keys := List.mem_keys_of_mem h
      have hPs : ¬ P s = true := by
        intro hPs
        have h2 := honly s (List.mem_cons_self _ _) hPs
        rw [← h2] at hk
        exact hs hk
      rw [List.filter_cons, if_neg hPs]
      exact ih hl h (fun e he => honly e (List.mem_cons_of_mem _ he))

theorem roomMembers_nodupKeys (s : Server) (r : String) : (roomMembers s r).NodupKeys := by
  unfold roomMembers
  split
  · exact AList.nodupKeys _
  · exact List.nodupKeys_nil

theorem mem_roomMembers {s : Server} {r n : String} {p : Ptr} {rc : GoMap String Ptr}
    (hr : s.rooms.lookup r = some rc) (hn : rc.lookup n = some p) :
    Sigma.mk n p ∈ roomMembers s r := by
  unfold roomMembers
  rw [hr]
  exact AList.mem_lookup_iff.1 (by simp [hn])


/-! ## What a register and an unregister event leave behind -/

theorem register_result (c : Ptr) (w : World) (h : w.srv.mutex = false) :
    ∃ w2, handleEvent (.register c) w = .returned w2 ∧ w2.srv = (registered c w).srv ∧
      w2.heap = w.heap ∧ w2.closed = w.closed ∧ w2.wfail = w.wfail ∧
      w2.out = w.out ++ lineTo w.heap ((w.heap c).name ++ " has joined the chat.")
        (roomMembers (registered c w).srv (w.heap c).room) := by
  refine ⟨_, handleRegister_of_free c w h, ?_, ?_, ?_, ?_, ?_⟩
  · simp [logPrintf, deliver_srv]
  · simp [logPrintf, deliver_heap, registered]
  · simp [logPrintf, deliver_closed, registered]
  · simp [logPrintf, deliver_wfail, registered]
  · simp only [logPrintf, deliver_out]
    rfl

theorem unregister_result (c : Ptr) (w : World) (h : w.srv.mutex = false) (q : Ptr)
    (hq : w.srv.clients.lookup (w.heap c).conn = some q) :
    ∃ w2, handleEvent (.unregister c) w = .returned w2 ∧ w2.srv = (unregistered c w).srv ∧
      w2.heap = w.heap ∧ w2.closed = w.closed ++ [(w.heap c).conn] ∧ w2.wfail = w.wfail ∧
      w2.out = w.out ++ lineTo w.heap ((w.heap c).name ++ " has left the chat.")
        (roomMembers (unregistered c w).srv (w.heap c).room) := by
  refine ⟨_, handleUnregister_of_present c w h q hq, ?_, ?_, ?_, ?_, ?_⟩
  · simp [logPrintf, deliver_srv]
  · simp [logPrintf, deliver_heap, unregistered]
  · simp [logPrintf, deliver_closed, unregistered]
  · simp [logPrintf, deliver_wfail, unregistered]
  · simp only [logPrintf, deliver_out]
    rfl

theorem roomMembers_roomsWithout (s s2 : Server) (rm nm : String)
    (h : s2.rooms = roomsWithout s.rooms rm nm) :
    roomMembers s2 rm = (roomMembers s rm).filter (fun e => decide (e.1 ≠ nm)) ∧
    (s2.rooms.lookup rm = none ↔ roomMembers s2 rm = []) := by
  unfold roomMembers
  rw [h, lookup_roomsWithout_self]
  cases hl : s.rooms.lookup rm with
  | none => simp
  | some rc =>
    dsimp only
    have e : (rc.erase nm).entries = rc.entries.filter (fun e => decide (e.1 ≠ nm)) :=
      kerase_eq_filter nm rc.entries rc.nodupKeys
    by_cases h0 : len (rc.erase nm) = 0
    · rw [if_pos h0]
      have : (rc.erase nm).entries = [] := List.length_eq_zero.1 h0
      rw [← e, this]
      simp
    · rw [if_neg h0]
      dsimp only
      refine ⟨e, ?_⟩
      constructor
      · intro hh; cases hh
      · intro hh
        exact absurd (by rw [len, hh]; rfl) h0


/-! ## The registry invariants of a run -/

theorem membership_of_consistent {w : World} (hc : Consistent w) : MembershipInvariant w := by
  constructor
  · intro conn p hp
    obtain ⟨-, hname⟩ := hc.clientsOk _ _ hp
    obtain ⟨hn, -, rc, h3, h4⟩ := hc.namesOk _ _ hname
    refine ⟨⟨rc, h3, h4⟩, ?_⟩
    intro r rc2 n hr hm
    obtain ⟨h5, h6⟩ := hc.roomsOk _ _ _ _ hr hm
    exact ⟨h5.symm, (hc.namesOk _ _ h6).1.symm⟩
  · intro n
    constructor
    · intro hmem
      obtain ⟨p, hp⟩ := Option.isSome_iff_exists.1 (AList.lookup_isSome.2 hmem)
      obtain ⟨hn, -, rc, h3, h4⟩ := hc.namesOk _ _ hp
      refine ⟨p, hn, (w.heap p).room, ⟨rc, h3, h4⟩, ?_⟩
      rintro r ⟨rc2, hr, hm⟩
      exact (hc.roomsOk _ _ _ _ hr hm).1.symm
    · rintro ⟨p, -, r, ⟨rc, hr, hm⟩, -⟩
      have := (hc.roomsOk _ _ _ _ hr hm).2
      exact AList.lookup_isSome.1 (by simp [this])

theorem nameView_of_consistent {w : World} (hc : Consistent w) : NameViewInvariant w := by
  constructor
  · intro n
    constructor
    · intro hmem
      obtain ⟨p, hp⟩ := Option.isSome_iff_exists.1 (AList.lookup_isSome.2 hmem)
      obtain ⟨hn, h2, -⟩ := hc.namesOk _ _ hp
      exact ⟨_, p, h2, hn⟩
    · rintro ⟨conn, p, hp, hn⟩
      have := (hc.clientsOk _ _ hp).2
      rw [hn] at this
      exact AList.lookup_isSome.1 (by simp [this])
  · intro p
    constructor
    · rintro ⟨conn, hp⟩
      exact ⟨_, (hc.clientsOk _ _ hp).2⟩
    · rintro ⟨n, hp⟩
      exact ⟨_, (hc.namesOk _ _ hp).2.1⟩

theorem demoHeap_injective : ConnInjective demoHeap := by
  intro p q h
  simpa [demoHeap] using h

/-- With one Client object per connection, after every run of events in which
each Register carries a name that is not a key of usernames when the dispatcher
receives it, and all handlers of which returned, every client of the connection
view is a member of exactly one room, the one named by its room field, and a
name is in usernames iff a client of that name is a member of exactly one room.
The workers do not guarantee the condition on the names, and a run with a real
room switch does not return. -/
theorem registry_membership_invariant (heap : Ptr → Client) (wfail : Nat → Bool)
    (evs : List Event) (w : World) (hinj : ConnInjective heap)
    (hwf : wellFormed evs (World.init heap wfail) = true)
    (hret : handleMessages evs (World.init heap wfail) = .returned w) :
    MembershipInvariant w :=
  membership_of_consistent
    (consistent_run evs _ w (consistent_init heap wfail) hinj hwf hret).1

/-- Example of a run without a duplicate name: A and B register, A disconnects. -/
theorem registry_membership_invariant_witness :
    ConnInjective demoHeap ∧
    wellFormed [.register 0, .register 1, .unregister 0] (World.init demoHeap noFail) = true ∧
    (handleMessages [.register 0, .register 1, .unregister 0]
      (World.init demoHeap noFail)).isReturned = true ∧
    MembershipInvariant (handleMessages [.register 0, .register 1, .unregister 0]
      (World.init demoHeap noFail)).world :=
  ⟨demoHeap_injective, by decide, by decide,
    registry_membership_invariant demoHeap noFail [.register 0, .register 1, .unregister 0] _
      demoHeap_injective (by decide) rfl⟩

/-- C1, at the failing input: two connections are both sent the name bob, and
both workers make the name check of `handleConnection` before the dispatcher
has received a Register, so each sends one.  The registry is empty; after the
dispatcher handled the two Registers the first client is in clients and is a
member of no room, the second having its place in the default room. -/
theorem membership_fails_for_duplicate_name :
    firstBob.submitted.head? = some (.register 0) ∧
    secondBob.submitted.head? = some (.register 1) ∧
    len secondBob.world.srv.clients = 0 ∧ len secondBob.world.srv.rooms = 0 ∧
    (handleMessages [.register 0, .register 1] secondBob.world).isReturned = true ∧
    (handleMessages [.register 0, .register 1] secondBob.world).world.srv.clients.lookup 0
      = some 0 ∧
    memberOf (handleMessages [.register 0, .register 1] secondBob.world).world.srv
      "general" "bob" = some 1 ∧
    ¬ MembershipInvariant
      (handleMessages [.register 0, .register 1] secondBob.world).world := by
  refine ⟨by decide, by decide, by decide, by decide, by decide, by decide, by decide, ?_⟩
  intro h
  obtain ⟨⟨rc, h1, h2⟩, -⟩ := h.1 0 0 (by decide)
  have e : ((handleMessages [.register 0, .register 1]
      secondBob.world).world.srv.rooms.lookup "general").bind
        (fun rc => rc.lookup "bob") = some 1 := by decide
  have h1 : (handleMessages [.register 0, .register 1]
      secondBob.world).world.srv.rooms.lookup "general" = some rc := h1
  have h2 : rc.lookup "bob" = some 0 := h2
  rw [h1] at e
  simp only [Option.bind, h2] at e
  cases e

/-- With one Client object per connection, after every run of events in which
each Register carries a name that is not a key of usernames when the dispatcher
receives it, and all handlers of which returned, a name is a key of usernames
iff a client of that name is in clients, and the two views hold the same
clients.  The workers do not guarantee the condition on the names, and a run
with a real room switch does not return. -/
theorem registry_name_view_invariant (heap : Ptr → Client) (wfail : Nat → Bool)
    (evs : List Event) (w : World) (hinj : ConnInjective heap)
    (hwf : wellFormed evs (World.init heap wfail) = true)
    (hret : handleMessages evs (World.init heap wfail) = .returned w) :
    NameViewInvariant w :=
  nameView_of_consistent
    (consistent_run evs _ w (consistent_init heap wfail) hinj hwf hret).1

/-- Example of a run without a duplicate name: A and B register, A says hello, B
disconnects. -/
theorem registry_name_view_invariant_witness :
    ConnInjective demoHeap ∧
    wellFormed [.register 0, .register 1, .message 0 "hello", .unregister 1]
      (World.init demoHeap noFail) = true ∧
    (handleMessages [.register 0, .register 1, .message 0 "hello", .unregister 1]
      (World.init demoHeap noFail)).isReturned = true ∧
    NameViewInvariant (handleMessages [.register 0, .register 1, .message 0 "hello", .unregister 1]
      (World.init demoHeap noFail)).world :=
  ⟨demoHeap_injective, by decide, by decide,
    registry_name_view_invariant demoHeap noFail
      [.register 0, .register 1, .message 0 "hello", .unregister 1] _
      demoHeap_injective (by decide) rfl⟩

/-- C2, at the failing input: two connections are both sent the name bob, both
workers make the name check before the dispatcher has received a Register, and
the first connection then ends, so the dispatcher receives Register, Register,
Unregister.  The unregister case deletes by name: the second bob is still in
clients, and bob is no longer a key of usernames nor a member of any room. -/
theorem name_view_fails_for_duplicate_name :
    firstBob.submitted = [.register 0, .unregister 0] ∧
    secondBob.submitted.head? = some (.register 1) ∧
    len secondBob.world.srv.clients = 0 ∧ len secondBob.world.srv.usernames = 0 ∧
    (handleMessages [.register 0, .register 1, .unregister 0]
      secondBob.world).isReturned = true ∧
    (handleMessages [.register 0, .register 1, .unregister 0]
      secondBob.world).world.srv.clients.lookup 1 = some 1 ∧
    (handleMessages [.register 0, .register 1, .unregister 0]
      secondBob.world).world.srv.usernames.lookup "bob" = none ∧
    len (handleMessages [.register 0, .register 1, .unregister 0]
      secondBob.world).world.srv.rooms = 0 ∧
    ¬ NameViewInvariant (handleMessages [.register 0, .register 1, .unregister 0]
      secondBob.world).world := by
  refine ⟨by decide, by decide, by decide, by decide, by decide, by decide, by decide,
    by decide, ?_⟩
  intro h
  have hin := (h.1 "bob").2 ⟨1, 1, by decide, by decide⟩
  revert hin
  decide


/-! ## Room lifecycle and registration -/

/-- C3, at the failing input: A registers and is alone in the default room,
then sends a join for room x.  The handler deletes the emptied default room and
then blocks in `broadcastMessageToRoom`: it never returns, room x is never
created, and the mutex stays held. -/
theorem room_switch_blocks_dispatcher :
    (handleMessages [.register 0, .message 0 "/join x"]
      (World.init demoHeap noFail)).isReturned = false ∧
    (handleMessages [.register 0, .message 0 "/join x"]
      (World.init demoHeap noFail)).world.srv.rooms.lookup "general" = none ∧
    (handleMessages [.register 0, .message 0 "/join x"]
      (World.init demoHeap noFail)).world.srv.rooms.lookup "x" = none ∧
    (handleMessages [.register 0, .message 0 "/join x"]
      (World.init demoHeap noFail)).world.srv.mutex = true := by
  decide

/-- C4, at the failing input: two connections are both sent the name bob and
both workers make the name check before the dispatcher has received a
Register.  When the dispatcher receives the second Register the name is a key
of usernames; the register case has no check and applies it: the client is
added to clients, usernames[bob] and the member entry of the default room are
overwritten, and the join line is broadcast. -/
theorem duplicate_register_is_applied :
    firstBob.submitted.head? = some (.register 0) ∧
    secondBob.submitted.head? = some (.register 1) ∧
    (handleEvent (.register 0) secondBob.world).isReturned = true ∧
    (firstBobRegistered.heap 1).name ∈ firstBobRegistered.srv.usernames ∧
    (handleEvent (.register 1) firstBobRegistered).isReturned = true ∧
    firstBobRegistered.srv.clients.lookup 1 = none ∧
    (handleEvent (.register 1) firstBobRegistered).world.srv.clients.lookup 1 = some 1 ∧
    firstBobRegistered.srv.usernames.lookup "bob" = some 0 ∧
    (handleEvent (.register 1) firstBobRegistered).world.srv.usernames.lookup "bob" = some 1 ∧
    memberOf firstBobRegistered.srv "general" "bob" = some 0 ∧
    memberOf (handleEvent (.register 1) firstBobRegistered).world.srv "general" "bob"
      = some 1 ∧
    (handleEvent (.register 1) firstBobRegistered).world.out =
      firstBobRegistered.out ++ [(1, "bob has joined the chat.\n")] := by
  decide

/-- The name check of the connection worker, with the mutex free: when the
trimmed first line of a connection is a non-empty name that is a key of
usernames, `handleConnection` sends no event, leaves clients, usernames, rooms
and the heap as they are, writes the prompt and the already-taken line to the
new connection only and closes it.  The register case of the dispatcher itself
has no check and applies every Register it receives. -/
theorem duplicate_name_rejected_by_worker (conn : Conn) (client : Ptr) (line : String)
    (rest : List String) (w : World) (hfree : w.srv.mutex = false)
    (hne : TrimSpace line ≠ "") (htaken : TrimSpace line ∈ w.srv.usernames) :
    (handleConnection conn client (line :: rest) w).submitted = [] ∧
    (handleConnection conn client (line :: rest) w).blocked = false ∧
    (handleConnection conn client (line :: rest) w).world.srv = w.srv ∧
    (handleConnection conn client (line :: rest) w).world.heap = w.heap ∧
    (handleConnection conn client (line :: rest) w).world.closed = w.closed ++ [conn] ∧
    (handleConnection conn client (line :: rest) w).world.out = w.out ++
      [(conn, "Enter your name: "),
       (conn, "Name '" ++ TrimSpace line ++
          "' is already taken. Please choose another. Disconnecting." ++ "\n")] ∧
    ∀ c, ∃ w2, handleEvent (.register c) w = .returned w2 ∧
      w2.srv.clients.lookup (w.heap c).conn = some c ∧
      w2.srv.usernames.lookup (w.heap c).name = some c ∧
      memberOf w2.srv (w.heap c).room (w.heap c).name = some c := by
  have hsrv := unlock_lock_srv w.srv hfree
  dsimp only at hsrv
  simp only [handleConnection, hne, if_false, Lock, Fprint, hfree, Bool.false_eq_true,
    htaken, if_true, Unlock, Close, Fprintln, hsrv]
  refine ⟨trivial, trivial, trivial, trivial, trivial, ?_, ?_⟩
  · simp
  · intro c
    obtain ⟨w2, e, hs, -⟩ := register_result c w hfree
    refine ⟨w2, e, ?_, ?_, ?_⟩
    · rw [hs]; exact AList.lookup_insert _
    · rw [hs]; exact AList.lookup_insert _
    · rw [memberOf, hs]
      simp [registered]

/-- Example of the name check: bob is registered and a second connection sends bob. -/
theorem duplicate_name_rejected_by_worker_witness :
    oneBob.srv.mutex = false ∧ TrimSpace "bob\n" ≠ "" ∧ TrimSpace "bob\n" ∈ oneBob.srv.usernames ∧
    (handleConnection 1 1 ["bob\n", "hello\n"] oneBob).submitted = [] ∧
    (handleConnection 1 1 ["bob\n", "hello\n"] oneBob).world.srv = oneBob.srv :=
  have h := duplicate_name_rejected_by_worker 1 1 "bob\n" ["hello\n"] oneBob
    (by decide) (by decide) (by decide)
  ⟨by decide, by decide, by decide, h.1, h.2.2.1⟩

/-- C5: with the mutex free, a name that is not in usernames and the room field
general, the register case returns with clients[conn], usernames[name] and
rooms[general][name] set to the client (the room exists afterwards), every
other entry of the three maps as before, and the join line written once per
member entry of general, the new one included, and to nothing else. -/
theorem register_fresh_client (c : Ptr) (w : World) (hfree : w.srv.mutex = false)
    (hfresh : (w.heap c).name ∉ w.srv.usernames) (hroom : (w.heap c).room = "general") :
    ∃ w2, handleEvent (.register c) w = .returned w2 ∧
      w2.srv.clients.lookup (w.heap c).conn = some c ∧
      w2.srv.usernames.lookup (w.heap c).name = some c ∧
      w2.srv.usernames.entries = ⟨(w.heap c).name, c⟩ :: w.srv.usernames.entries ∧
      memberOf w2.srv "general" (w.heap c).name = some c ∧
      Sigma.mk (w.heap c).name c ∈ roomMembers w2.srv "general" ∧
      (∀ k, k ≠ (w.heap c).conn → w2.srv.clients.lookup k = w.srv.clients.lookup k) ∧
      (∀ n, n ≠ (w.heap c).name → w2.srv.usernames.lookup n = w.srv.usernames.lookup n) ∧
      (∀ r, r ≠ "general" → w2.srv.rooms.lookup r = w.srv.rooms.lookup r) ∧
      (∀ n, n ≠ (w.heap c).name → memberOf w2.srv "general" n = memberOf w.srv "general" n) ∧
      w2.heap = w.heap ∧ w2.closed = w.closed ∧
      w2.out = w.out ++ lineTo w.heap ((w.heap c).name ++ " has joined the chat.")
        (roomMembers w2.srv "general") := by
  obtain ⟨w2, e, hs, hh, hcl, -, ho⟩ := register_result c w hfree
  have hrooms : w2.srv.rooms = w.srv.rooms.insert "general"
      (((w.srv.rooms.lookup "general").getD ∅).insert (w.heap c).name c) := by
    rw [hs, registered, hroom]
  have hl : w2.srv.rooms.lookup "general" =
      some (((w.srv.rooms.lookup "general").getD ∅).insert (w.heap c).name c) := by
    rw [hrooms]; exact AList.lookup_insert _
  refine ⟨w2, e, ?_, ?_, ?_, ?_, ?_, ?_, ?_, ?_, ?_, hh, hcl, ?_⟩
  · rw [hs]; exact AList.lookup_insert _
  · rw [hs]; exact AList.lookup_insert _
  · rw [hs]; exact AList.insert_entries_of_neg hfresh
  · rw [memberOf, hl]
    exact AList.lookup_insert _
  · exact mem_roomMembers hl (AList.lookup_insert _)
  · intro k hk
    rw [hs]; exact AList.lookup_insert_ne hk
  · intro n hn
    rw [hs]; exact AList.lookup_insert_ne hn
  · intro r hr
    rw [hrooms]; exact AList.lookup_insert_ne hr
  · intro n hn
    rw [memberOf, hl, memberOf]
    cases hg : w.srv.rooms.lookup "general" with
    | none =>
      simp only [Option.getD_none, Option.bind]
      rw [AList.lookup_insert_ne hn]
      rfl
    | some rc =>
      simp only [Option.getD_some, Option.bind]
      rw [AList.lookup_insert_ne hn]
  · have : roomMembers w2.srv "general" = roomMembers (registered c w).srv (w.heap c).room := by
      rw [hroom, roomMembers, roomMembers, hs]
    rw [this]
    exact ho

/-- Witness of C5: C registers while A and B are in the default room; each of
the three sockets is sent the join line once. -/
theorem register_fresh_client_witness :
    twoInGeneral.srv.mutex = false ∧ (twoInGeneral.heap 2).name ∉ twoInGeneral.srv.usernames ∧
    (twoInGeneral.heap 2).room = "general" ∧
    (∃ w2, handleEvent (.register 2) twoInGeneral = .returned w2 ∧
      w2.srv.clients.lookup 2 = some 2 ∧
      w2.out = twoInGeneral.out ++ lineTo twoInGeneral.heap "C has joined the chat."
        (roomMembers w2.srv "general")) ∧
    (handleEvent (.register 2) twoInGeneral).world.out = twoInGeneral.out ++
      [(2, "C has joined the chat.\n"), (1, "C has joined the chat.\n"),
       (0, "C has joined the chat.\n")] := by
  refine ⟨by decide, by decide, by decide, ?_, by decide⟩
  obtain ⟨w2, e, h1, -, -, -, -, -, -, -, -, -, -, h2⟩ :=
    register_fresh_client 2 twoInGeneral (by decide) (by decide) (by decide)
  exact ⟨w2, e, h1, h2⟩


/-! ## Unregistration -/

/-- C6: with the mutex free and the connection of the client a key of clients,
the unregister case returns; the connection, the name and the membership of the
name in the client's room are gone and every other entry is as before; the
socket is closed; the room has no entry exactly when nobody is left in it; the
leave line is written once per remaining member entry of that room and to
nothing else, so the leaving socket gets nothing unless a remaining member
uses the same socket. -/
theorem unregister_registered_client (c : Ptr) (w : World) (hfree : w.srv.mutex = false)
    (hreg : (w.heap c).conn ∈ w.srv.clients) :
    ∃ w2, handleEvent (.unregister c) w = .returned w2 ∧
      w2.srv.clients.lookup (w.heap c).conn = none ∧
      w2.srv.usernames.lookup (w.heap c).name = none ∧
      memberOf w2.srv (w.heap c).room (w.heap c).name = none ∧
      (∀ k, k ≠ (w.heap c).conn → w2.srv.clients.lookup k = w.srv.clients.lookup k) ∧
      (∀ n, n ≠ (w.heap c).name → w2.srv.usernames.lookup n = w.srv.usernames.lookup n) ∧
      (∀ r, r ≠ (w.heap c).room → w2.srv.rooms.lookup r = w.srv.rooms.lookup r) ∧
      roomMembers w2.srv (w.heap c).room =
        (roomMembers w.srv (w.heap c).room).filter (fun e => decide (e.1 ≠ (w.heap c).name)) ∧
      (w2.srv.rooms.lookup (w.heap c).room = none ↔ roomMembers w2.srv (w.heap c).room = []) ∧
      w2.heap = w.heap ∧
      w2.closed = w.closed ++ [(w.heap c).conn] ∧
      w2.out = w.out ++ lineTo w.heap ((w.heap c).name ++ " has left the chat.")
        (roomMembers w2.srv (w.heap c).room) ∧
      ((∀ e ∈ roomMembers w2.srv (w.heap c).room, (w.heap e.2).conn ≠ (w.heap c).conn) →
        received w2 (w.heap c).conn = received w (w.heap c).conn) := by
  obtain ⟨q, hq⟩ := Option.isSome_iff_exists.1 (AList.lookup_isSome.2 hreg)
  obtain ⟨w2, e, hs, hh, hcl, -, ho⟩ := unregister_result c w hfree q hq
  have hrooms : w2.srv.rooms = roomsWithout w.srv.rooms (w.heap c).room (w.heap c).name := by
    rw [hs]; rfl
  obtain ⟨hm1, hm2⟩ := roomMembers_roomsWithout w.srv w2.srv _ _ hrooms
  have hmem : roomMembers w2.srv (w.heap c).room =
      roomMembers (unregistered c w).srv (w.heap c).room := by
    rw [roomMembers, roomMembers, hs]
  have ho2 : w2.out = w.out ++ lineTo w.heap ((w.heap c).name ++ " has left the chat.")
      (roomMembers w2.srv (w.heap c).room) := by
    rw [hmem]; exact ho
  refine ⟨w2, e, ?_, ?_, ?_, ?_, ?_, ?_, hm1, hm2, hh, hcl, ho2, ?_⟩
  · rw [hs]; exact AList.lookup_erase _ _
  · rw [hs]; exact AList.lookup_erase _ _
  · rw [memberOf, hrooms, lookup_roomsWithout_self]
    cases hl : w.srv.rooms.lookup (w.heap c).room with
    | none => rfl
    | some rc =>
      dsimp only
      split
      · rfl
      · exact AList.lookup_erase _ _
  · intro k hk
    rw [hs]; exact AList.lookup_erase_ne hk
  · intro n hn
    rw [hs]; exact AList.lookup_erase_ne hn
  · intro r hr
    rw [hrooms]; exact lookup_roomsWithout_ne _ _ _ _ hr
  · intro hno
    rw [received_append w w2 _ _ ho2, lineTo_filter]
    have : (roomMembers w2.srv (w.heap c).room).filter
        (fun e => (w.heap e.2).conn = (w.heap c).conn) = [] := by
      rw [List.filter_eq_nil_iff]
      intro e he
      simpa using hno e he
    rw [this]
    simp

/-- Witness of C6: A leaves the default room in which B and C stay; B and C
are sent the leave line once each, A nothing, and the socket of A is closed. -/
theorem unregister_registered_client_witness :
    threeInGeneral.srv.mutex = false ∧ (threeInGeneral.heap 0).conn ∈ threeInGeneral.srv.clients ∧
    (∃ w2, handleEvent (.unregister 0) threeInGeneral = .returned w2 ∧
      w2.srv.clients.lookup 0 = none ∧ w2.closed = threeInGeneral.closed ++ [0]) ∧
    (handleEvent (.unregister 0) threeInGeneral).world.out = threeInGeneral.out ++
      [(2, "A has left the chat.\n"), (1, "A has left the chat.\n")] := by
  refine ⟨by decide, by decide, ?_, by decide⟩
  obtain ⟨w2, e, h1, -, -, -, -, -, -, -, -, h2, -⟩ :=
    unregister_registered_client 0 threeInGeneral (by decide) (by decide)
  exact ⟨w2, e, h1, h2⟩

/-- C7: with the mutex free, an unregister event for a client whose connection
is not a key of clients returns the world as it was (nothing changed, written,
closed or logged); and handling the same unregister event twice in a row gives
the same outcome as handling it once, in every world. -/
theorem unregister_idempotent (c : Ptr) (w : World) (hfree : w.srv.mutex = false) :
    ((w.heap c).conn ∉ w.srv.clients → handleEvent (.unregister c) w = .returned w) ∧
    (handleEvent (.unregister c) w).andThen (handleEvent (.unregister c)) =
      handleEvent (.unregister c) w := by
  have habs : ∀ x : World, x.srv.mutex = false → (x.heap c).conn ∉ x.srv.clients →
      handleEvent (.unregister c) x = .returned x := by
    intro x hx hn
    exact handleUnregister_of_absent c x hx (AList.lookup_eq_none.2 hn)
  refine ⟨habs w hfree, ?_⟩
  cases hq : w.srv.clients.lookup (w.heap c).conn with
  | none =>
    have e := handleUnregister_of_absent c w hfree hq
    simp only [handleEvent] at e ⊢
    rw [e]
    simp only [Outcome.andThen]
    exact e
  | some q =>
    obtain ⟨w2, e, hs, hh, -⟩ := unregister_result c w hfree q hq
    rw [e]
    simp only [Outcome.andThen]
    apply habs
    · rw [hs]; rfl
    · rw [hs, hh]
      intro hmem
      have := AList.lookup_isSome.2 hmem
      simp [unregistered] at this

/-- Witness of C7: in a world where A and B are registered, C (not registered)
is unregistered, and A is unregistered twice. -/
theorem unregister_idempotent_witness :
    twoInGeneral.srv.mutex = false ∧
    (twoInGeneral.heap 2).conn ∉ twoInGeneral.srv.clients ∧
    handleEvent (.unregister 2) twoInGeneral = .returned twoInGeneral ∧
    (handleEvent (.unregister 0) twoInGeneral).andThen (handleEvent (.unregister 0)) =
      handleEvent (.unregister 0) twoInGeneral ∧
    (handleEvent (.unregister 0) twoInGeneral).world.srv.clients.lookup 0 = none :=
  ⟨by decide, by decide, (unregister_idempotent 2 twoInGeneral (by decide)).1 (by decide),
    (unregister_idempotent 0 twoInGeneral (by decide)).2, by decide⟩


/-! ## Chat lines and whispers -/

theorem chat_result (a : Ptr) (t : String) (w : World) (hfree : w.srv.mutex = false)
    (h1 : HasPrefix t "/whisper " = false) (h2 : HasPrefix t "/join " = false)
    (h3 : t ≠ "/leave") :
    handleEvent (.message a t) w =
      .returned (deliver (w.heap a).room ((w.heap a).name ++ ": " ++ t) w) := by
  simp only [handleEvent, handleMessage, h1, h2, h3, Bool.false_eq_true, if_false]
  exact broadcast_of_free _ _ _ hfree

theorem chat_received (a : Ptr) (t : String) (w : World) (conn : Conn) :
    received (deliver (w.heap a).room ((w.heap a).name ++ ": " ++ t) w) conn =
      received w conn ++
        ((roomMembers w.srv (w.heap a).room).filter fun e => (w.heap e.2).conn = conn).map
          fun _ => (w.heap a).name ++ ": " ++ t ++ "\n" := by
  rw [received_append w _ conn _ (deliver_out _ _ _), lineTo_filter]

/-- C8: with the mutex free, a text that has neither command prefix and is not
the leave command is handled by writing the line name: text once per member
entry of the sender's current room and to nothing else (each socket gets the
line once for every member that uses it); clients, usernames, rooms, every room
field and the closed sockets are as before. -/
theorem chat_delivery (a : Ptr) (t : String) (w : World) (hfree : w.srv.mutex = false)
    (h1 : HasPrefix t "/whisper " = false) (h2 : HasPrefix t "/join " = false)
    (h3 : t ≠ "/leave") :
    ∃ w2, handleEvent (.message a t) w = .returned w2 ∧
      w2.srv = w.srv ∧ w2.heap = w.heap ∧ w2.closed = w.closed ∧
      w2.out = w.out ++ lineTo w.heap ((w.heap a).name ++ ": " ++ t)
        (roomMembers w.srv (w.heap a).room) ∧
      ∀ conn, received w2 conn = received w conn ++
        ((roomMembers w.srv (w.heap a).room).filter fun e => (w.heap e.2).conn = conn).map
          fun _ => (w.heap a).name ++ ": " ++ t ++ "\n" := by
  exact ⟨_, chat_result a t w hfree h1 h2 h3, deliver_srv _ _ _, deliver_heap _ _ _,
    deliver_closed _ _ _, deliver_out _ _ _, chat_received a t w⟩

/-- Witness of C8: A and B are in room X and A sends hello; B receives exactly
the line A: hello. -/
theorem chat_delivery_witness :
    twoInX.srv.mutex = false ∧ HasPrefix "hello" "/whisper " = false ∧
    HasPrefix "hello" "/join " = false ∧ "hello" ≠ "/leave" ∧
    (twoInX.heap 0).room = "X" ∧ (twoInX.heap 1).room = "X" ∧
    (∃ w2, handleEvent (.message 0 "hello") twoInX = .returned w2 ∧ w2.srv = twoInX.srv ∧
      received w2 1 = received twoInX 1 ++
        ((roomMembers twoInX.srv (twoInX.heap 0).room).filter
          fun e => (twoInX.heap e.2).conn = 1).map
            fun _ => (twoInX.heap 0).name ++ ": " ++ "hello" ++ "\n") ∧
    received (handleEvent (.message 0 "hello") twoInX).world 1 =
      received twoInX 1 ++ ["A: hello\n"] := by
  refine ⟨by decide, by decide, by decide, by decide, by decide, by decide, ?_, by decide⟩
  obtain ⟨w2, e, h1, -, -, -, h2⟩ :=
    chat_delivery 0 "hello" twoInX (by decide) (by decide) (by decide) (by decide)
  exact ⟨w2, e, h1, h2 1⟩

/-- C9 as stated fails: A and B are in the default room and A sends hello; the
handler returns and the socket of A is sent the line A: hello. -/
theorem sender_gets_own_line :
    (handleEvent (.message 0 "hello") twoInGeneral).isReturned = true ∧
    received (handleEvent (.message 0 "hello") twoInGeneral).world 0 =
      received twoInGeneral 0 ++ ["A: hello\n"] := by
  decide

/-- C9 (as amended): the sender is delivered its own chat line.  With the mutex
free, for a client that is a member of its current room under its name, and a
text that has no command prefix and is not the leave command, the handler
writes the line name: text to the sender's own socket, exactly once when no
other member entry of the room uses that socket. -/
theorem sender_receives_own_line (a : Ptr) (t : String) (w : World)
    (hfree : w.srv.mutex = false)
    (h1 : HasPrefix t "/whisper " = false) (h2 : HasPrefix t "/join " = false)
    (h3 : t ≠ "/leave")
    (hmem : memberOf w.srv (w.heap a).room (w.heap a).name = some a)
    (hown : ∀ e ∈ roomMembers w.srv (w.heap a).room,
      (w.heap e.2).conn = (w.heap a).conn → e.1 = (w.heap a).name) :
    ∃ w2, handleEvent (.message a t) w = .returned w2 ∧
      received w2 (w.heap a).conn =
        received w (w.heap a).conn ++ [(w.heap a).name ++ ": " ++ t ++ "\n"] := by
  refine ⟨_, chat_result a t w hfree h1 h2 h3, ?_⟩
  rw [chat_received]
  have hin : Sigma.mk (w.heap a).name a ∈ roomMembers w.srv (w.heap a).room := by
    unfold memberOf at hmem
    cases hl : w.srv.rooms.lookup (w.heap a).room with
    | none => rw [hl] at hmem; cases hmem
    | some rc =>
      rw [hl] at hmem
      exact mem_roomMembers hl hmem
  have := filter_eq_singleton (roomMembers w.srv (w.heap a).room)
    (roomMembers_nodupKeys _ _) (fun e => decide ((w.heap e.2).conn = (w.heap a).conn))
    (w.heap a).name a hin (by simp) (by simpa using hown)
  rw [this]
  rfl

/-- Witness of C9: A and B are in the default room and A sends hello. -/
theorem sender_receives_own_line_witness :
    twoInGeneral.srv.mutex = false ∧
    memberOf twoInGeneral.srv (twoInGeneral.heap 0).room (twoInGeneral.heap 0).name = some 0 ∧
    (∀ e ∈ roomMembers twoInGeneral.srv (twoInGeneral.heap 0).room,
      (twoInGeneral.heap e.2).conn = (twoInGeneral.heap 0).conn →
        e.1 = (twoInGeneral.heap 0).name) ∧
    ∃ w2, handleEvent (.message 0 "hello") twoInGeneral = .returned w2 ∧
      received w2 (twoInGeneral.heap 0).conn =
        received twoInGeneral (twoInGeneral.heap 0).conn ++
          [(twoInGeneral.heap 0).name ++ ": " ++ "hello" ++ "\n"] :=
  ⟨by decide, by decide, by decide,
    sender_receives_own_line 0 "hello" twoInGeneral (by decide) (by decide) (by decide)
      (by decide) (by decide) (by decide)⟩

/-- C10: with the mutex free, a sender whose name differs from the target name
and a target name that is a key of usernames, `sendWhisper` returns after
writing the whisper-from line to the socket of the target and the whisper-to
line to the socket of the sender, these two writes and no other; the registry,
the room fields and the closed sockets are as before. -/
theorem whisper_delivered (s : Ptr) (t m : String) (q : Ptr) (w : World)
    (hfree : w.srv.mutex = false) (hne : (w.heap s).name ≠ t)
    (hq : w.srv.usernames.lookup t = some q) :
    ∃ w2, sendWhisper s t m w = .returned w2 ∧
      w2.srv = w.srv ∧ w2.heap = w.heap ∧ w2.closed = w.closed ∧
      w2.out = w.out ++
        [((w.heap q).conn, "[Whisper from " ++ (w.heap s).name ++ "]: " ++ m ++ "\n"),
         ((w.heap s).conn, "[Whisper to " ++ t ++ "]: " ++ m ++ "\n")] := by
  obtain ⟨w2, e, hs, hh, hc, -, ho⟩ := sendWhisper_of_found s t m w hfree hne q hq
  exact ⟨w2, e, hs, hh, hc, ho⟩

/-- Witness of C10: A whispers hi to B while C is in the same room; C gets
nothing. -/
theorem whisper_delivered_witness :
    threeInGeneral.srv.mutex = false ∧ (threeInGeneral.heap 0).name ≠ "B" ∧
    threeInGeneral.srv.usernames.lookup "B" = some 1 ∧
    (∃ w2, sendWhisper 0 "B" "hi" threeInGeneral = .returned w2 ∧ w2.srv = threeInGeneral.srv) ∧
    (sendWhisper 0 "B" "hi" threeInGeneral).world.out = threeInGeneral.out ++
      [(1, "[Whisper from A]: hi\n"), (0, "[Whisper to B]: hi\n")] ∧
    (handleEvent (.message 0 "/whisper B hi") threeInGeneral).world.out = threeInGeneral.out ++
      [(1, "[Whisper from A]: hi\n"), (0, "[Whisper to B]: hi\n")] := by
  refine ⟨by decide, by decide, by decide, ?_, by decide, by decide⟩
  obtain ⟨w2, e, h1, -⟩ :=
    whisper_delivered 0 "B" "hi" 1 threeInGeneral (by decide) (by decide) (by decide)
  exact ⟨w2, e, h1⟩


/-! ## Whisper errors -/

theorem sendWhisper_self_or_absent (s : Ptr) (t m : String) (w : World)
    (hfree : w.srv.mutex = false)
    (herr : (w.heap s).name = t ∨ t ∉ w.srv.usernames) :
    ∃ w2, sendWhisper s t m w = .returned w2 ∧
      w2.srv = w.srv ∧ w2.heap = w.heap ∧ w2.closed = w.closed ∧
      w2.out = w.out ++ [((w.heap s).conn,
        (if (w.heap s).name = t then "You cannot whisper to yourself."
          else "User '" ++ t ++ "' not found.") ++ "\n")] := by
  by_cases hself : (w.heap s).name = t
  · refine ⟨Unlock (Fprintln (w.heap s).conn "You cannot whisper to yourself."
      { w with srv := { w.srv with mutex := true } }).1, ?_, unlock_lock_srv _ hfree, rfl, rfl, ?_⟩
    · simp only [sendWhisper, Lock, hfree, Bool.false_eq_true, if_false, Outcome.andThen, hself,
        if_true]
    · simp [hself, Unlock, Fprintln, Fprint]
  · have hnone : w.srv.usernames.lookup t = none :=
      AList.lookup_eq_none.2 (herr.resolve_left hself)
    refine ⟨Unlock (Fprintln (w.heap s).conn ("User '" ++ t ++ "' not found.")
      { w with srv := { w.srv with mutex := true } }).1, ?_, unlock_lock_srv _ hfree, rfl, rfl, ?_⟩
    · simp only [sendWhisper, Lock, hfree, Bool.false_eq_true, if_false, Outcome.andThen, hself,
        hnone]
    · simp [hself, Unlock, Fprintln, Fprint]

/-- C11: with the mutex free, a whisper to the sender's own name writes the line
You cannot whisper to yourself. to the sender, and otherwise a whisper to a
name that is not a key of usernames writes the line User 'T' not found. to the
sender; in both cases this is the only write, and the registry, the room
fields and the closed sockets are as before. -/
theorem whisper_lookup_errors (s : Ptr) (t m : String) (w : World)
    (hfree : w.srv.mutex = false)
    (herr : (w.heap s).name = t ∨ t ∉ w.srv.usernames) :
    ∃ w2, sendWhisper s t m w = .returned w2 ∧
      w2.srv = w.srv ∧ w2.heap = w.heap ∧ w2.closed = w.closed ∧
      w2.out = w.out ++ [((w.heap s).conn,
        (if (w.heap s).name = t then "You cannot whisper to yourself."
          else "User '" ++ t ++ "' not found.") ++ "\n")] :=
  sendWhisper_self_or_absent s t m w hfree herr

/-- Witness of C11: A, B and C are registered; A whispers to its own name, and
A whispers to U, who is not registered: only the socket of A is written to. -/
theorem whisper_lookup_errors_witness :
    threeInGeneral.srv.mutex = false ∧
    "U" ∉ threeInGeneral.srv.usernames ∧ (threeInGeneral.heap 0).name = "A" ∧
    (∃ w2, sendWhisper 0 "U" "hi" threeInGeneral = .returned w2 ∧ w2.srv = threeInGeneral.srv) ∧
    (∃ w2, sendWhisper 0 "A" "hi" threeInGeneral = .returned w2 ∧ w2.srv = threeInGeneral.srv) ∧
    (handleEvent (.message 0 "/whisper U hi") threeInGeneral).world.out =
      threeInGeneral.out ++ [(0, "User 'U' not found.\n")] ∧
    (handleEvent (.message 0 "/whisper A hi") threeInGeneral).world.out =
      threeInGeneral.out ++ [(0, "You cannot whisper to yourself.\n")] := by
  refine ⟨by decide, by decide, by decide, ?_, ?_, by decide, by decide⟩
  · obtain ⟨w2, e, h1, -⟩ :=
      whisper_lookup_errors 0 "U" "hi" threeInGeneral (by decide) (Or.inr (by decide))
    exact ⟨w2, e, h1⟩
  · obtain ⟨w2, e, h1, -⟩ :=
      whisper_lookup_errors 0 "A" "hi" threeInGeneral (by decide) (Or.inl (by decide))
    exact ⟨w2, e, h1⟩

/-! ## Joining the current room, the empty room name, leave -/

theorem hasPrefix_iff (m pre : String) :
    HasPrefix m pre = true ↔ ∃ t : List Char, m.data = pre.data ++ t := by
  unfold HasPrefix
  rw [List.isPrefixOf_iff_prefix]
  constructor
  · rintro ⟨t, ht⟩; exact ⟨t, ht.symm⟩
  · rintro ⟨t, ht⟩; exact ⟨t, ht.symm⟩

theorem not_whisper_of_join (m : String) (h : HasPrefix m "/join " = true) :
    HasPrefix m "/whisper " = false := by
  obtain ⟨t, ht⟩ := (hasPrefix_iff _ _).1 h
  unfold HasPrefix
  rw [ht]
  rfl

theorem joinRoom_of_empty (c : Ptr) (w : World) (hfree : w.srv.mutex = false) :
    joinRoom c "" w = .returned (Unlock (Fprintln (w.heap c).conn "Room name cannot be empty."
      { w with srv := { w.srv with mutex := true } }).1) := by
  simp only [joinRoom, Lock, hfree, Bool.false_eq_true, if_false, Outcome.andThen, if_true]

theorem joinRoom_of_same (c : Ptr) (n : String) (w : World) (hfree : w.srv.mutex = false)
    (hne : n ≠ "") (hr : (w.heap c).room = n) :
    joinRoom c n w = .returned (Unlock (Fprintln (w.heap c).conn
      ("You are already in room '" ++ n ++ "'.")
      { w with srv := { w.srv with mutex := true } }).1) := by
  simp only [joinRoom, Lock, hfree, Bool.false_eq_true, if_false, Outcome.andThen, hne, hr,
    if_true]

/-- C16: with the mutex free and a client whose room field is not empty, a join
message whose trimmed room name is the client's current room, or a leave
message while the client is in general, writes the line You are already in
room 'r'. to the client and nothing else; the registry (and so the number of
members of r), the room fields and the closed sockets are as before. -/
theorem join_current_room_noop (c : Ptr) (m : String) (w : World)
    (hfree : w.srv.mutex = false) (hroom : (w.heap c).room ≠ "")
    (hm : (HasPrefix m "/join " = true ∧ TrimSpace (TrimPrefix m "/join ") = (w.heap c).room) ∨
      (m = "/leave" ∧ (w.heap c).room = "general")) :
    ∃ w2, handleEvent (.message c m) w = .returned w2 ∧
      w2.srv = w.srv ∧ w2.heap = w.heap ∧ w2.closed = w.closed ∧
      (roomMembers w2.srv (w.heap c).room).length = (roomMembers w.srv (w.heap c).room).length ∧
      w2.out = w.out ++
        [((w.heap c).conn, "You are already in room '" ++ (w.heap c).room ++ "'." ++ "\n")] := by
  have key : handleEvent (.message c m) w = joinRoom c (w.heap c).room w := by
    rcases hm with ⟨hp, ht⟩ | ⟨hl, hg⟩
    · simp only [handleEvent, handleMessage, not_whisper_of_join m hp, hp, ht,
        Bool.false_eq_true, if_false, if_true]
    · subst hl
      have h1 : HasPrefix "/leave" "/whisper " = false := by decide
      have h2 : HasPrefix "/leave" "/join " = false := by decide
      simp only [handleEvent, handleMessage, h1, h2, Bool.false_eq_true, if_false, if_true,
        leaveRoom, hg]
  rw [key, joinRoom_of_same c _ w hfree hroom rfl]
  refine ⟨_, rfl, ?_, rfl, rfl, ?_, ?_⟩
  · exact unlock_lock_srv _ hfree
  · have : (Unlock (Fprintln (w.heap c).conn ("You are already in room '" ++ (w.heap c).room ++ "'.")
        { w with srv := { w.srv with mutex := true } }).1).srv = w.srv := unlock_lock_srv _ hfree
    rw [this]
  · simp [Unlock, Fprintln, Fprint]

/-- Witness of C16: A is in general and sends a join for general, then leave. -/
theorem join_current_room_noop_witness :
    twoInGeneral.srv.mutex = false ∧ (twoInGeneral.heap 0).room ≠ "" ∧
    HasPrefix "/join general" "/join " = true ∧
    TrimSpace (TrimPrefix "/join general" "/join ") = (twoInGeneral.heap 0).room ∧
    (∃ w2, handleEvent (.message 0 "/join general") twoInGeneral = .returned w2 ∧
      w2.srv = twoInGeneral.srv) ∧
    (∃ w2, handleEvent (.message 0 "/leave") twoInGeneral = .returned w2 ∧
      w2.srv = twoInGeneral.srv) ∧
    (handleEvent (.message 0 "/join general") twoInGeneral).world.out =
      twoInGeneral.out ++ [(0, "You are already in room 'general'.\n")] ∧
    (handleEvent (.message 0 "/leave") twoInGeneral).world.out =
      twoInGeneral.out ++ [(0, "You are already in room 'general'.\n")] := by
  refine ⟨by decide, by decide, by decide, by decide, ?_, ?_, by decide, by decide⟩
  · obtain ⟨w2, e, h1, -⟩ := join_current_room_noop 0 "/join general" twoInGeneral
      (by decide) (by decide) (Or.inl ⟨by decide, by decide⟩)
    exact ⟨w2, e, h1⟩
  · obtain ⟨w2, e, h1, -⟩ := join_current_room_noop 0 "/leave" twoInGeneral
      (by decide) (by decide) (Or.inr ⟨rfl, by decide⟩)
    exact ⟨w2, e, h1⟩

/-- C17: with the mutex free, a message that starts with the join prefix and
whose remainder is empty after trimming writes the line Room name cannot be
empty. to the sender and nothing else; the registry, the room fields and the
closed sockets are as before. -/
theorem empty_room_name_rejected (c : Ptr) (m : String) (w : World)
    (hfree : w.srv.mutex = false) (hp : HasPrefix m "/join " = true)
    (he : TrimSpace (TrimPrefix m "/join ") = "") :
    ∃ w2, handleEvent (.message c m) w = .returned w2 ∧
      w2.srv = w.srv ∧ w2.heap = w.heap ∧ w2.closed = w.closed ∧
      w2.out = w.out ++ [((w.heap c).conn, "Room name cannot be empty." ++ "\n")] := by
  have key : handleEvent (.message c m) w = joinRoom c "" w := by
    simp only [handleEvent, handleMessage, not_whisper_of_join m hp, hp, he,
      Bool.false_eq_true, if_false, if_true]
  rw [key, joinRoom_of_empty c w hfree]
  refine ⟨_, rfl, ?_, rfl, rfl, ?_⟩
  · exact unlock_lock_srv _ hfree
  · simp [Unlock, Fprintln, Fprint]

/-- Witness of C17: A sends the join prefix followed by blanks only. -/
theorem empty_room_name_rejected_witness :
    twoInGeneral.srv.mutex = false ∧ HasPrefix "/join   " "/join " = true ∧
    TrimSpace (TrimPrefix "/join   " "/join ") = "" ∧
    (∃ w2, handleEvent (.message 0 "/join   ") twoInGeneral = .returned w2 ∧
      w2.srv = twoInGeneral.srv) ∧
    (handleEvent (.message 0 "/join   ") twoInGeneral).world.out =
      twoInGeneral.out ++ [(0, "Room name cannot be empty.\n")] := by
  refine ⟨by decide, by decide, by decide, ?_, by decide⟩
  obtain ⟨w2, e, h1, -⟩ := empty_room_name_rejected 0 "/join   " twoInGeneral
    (by decide) (by decide) (by decide)
  exact ⟨w2, e, h1⟩

/-- C18: in every world and for every client, the leave message has the same
outcome as the message join general (the same world, returned or blocked, so
the same registry and the same writes); a message that continues after the
word leave, such as leave now, is handled as a chat line. -/
theorem leave_is_join_general (c : Ptr) (w : World) :
    handleEvent (.message c "/leave") w = handleEvent (.message c "/join general") w ∧
    handleEvent (.message c "/leave") w = joinRoom c "general" w ∧
    ∀ r : String, r ≠ "" →
      handleEvent (.message c ("/leave" ++ r)) w =
        broadcastMessageToRoom (w.heap c).room ((w.heap c).name ++ ": " ++ ("/leave" ++ r)) w := by
  have h1 : HasPrefix "/leave" "/whisper " = false := by decide
  have h2 : HasPrefix "/leave" "/join " = false := by decide
  have h3 : HasPrefix "/join general" "/whisper " = false := by decide
  have h4 : HasPrefix "/join general" "/join " = true := by decide
  have h5 : TrimSpace (TrimPrefix "/join general" "/join ") = "general" := by decide
  refine ⟨?_, ?_, ?_⟩
  · simp only [handleEvent, handleMessage, h1, h2, h3, h4, h5, Bool.false_eq_true, if_false,
      if_true, leaveRoom]
  · simp only [handleEvent, handleMessage, h1, h2, Bool.false_eq_true, if_false,
      if_true, leaveRoom]
  · intro r hr
    have hd : ("/leave" ++ r).data = '/' :: 'l' :: 'e' :: 'a' :: 'v' :: 'e' :: r.data := by
      rw [String.data_append]; rfl
    have e1 : HasPrefix ("/leave" ++ r) "/whisper " = false := by
      unfold HasPrefix; rw [hd]; rfl
    have e2 : HasPrefix ("/leave" ++ r) "/join " = false := by
      unfold HasPrefix; rw [hd]; rfl
    have e3 : "/leave" ++ r ≠ "/leave" := by
      intro h
      have := congrArg String.data h
      rw [hd] at this
      have hr2 : r.data = [] := by simpa using this
      apply hr
      cases r
      simp_all
    simp only [handleEvent, handleMessage, e1, e2, e3, Bool.false_eq_true, if_false]

/-! ## Splitting a whisper line -/

theorem span_ne_of_not_mem (sep : Char) (a : List Char) (h : sep ∉ a) :
    a.span (fun c => c != sep) = (a, []) := by
  induction a with
  | nil => rfl
  | cons x xs ih =>
    have hx : x ≠ sep := fun e => h (e ▸ List.mem_cons_self _ _)
    have hxs : sep ∉ xs := fun e => h (List.mem_cons_of_mem _ e)
    have ih := ih hxs
    rw [List.span_eq_take_drop] at ih ⊢
    simp only [Prod.mk.injEq] at ih
    simp [List.takeWhile_cons, List.dropWhile_cons, hx, ih.1, ih.2]

theorem span_ne_append (sep : Char) (a b : List Char) (h : sep ∉ a) :
    (a ++ sep :: b).span (fun c => c != sep) = (a, sep :: b) := by
  induction a with
  | nil => simp [List.span_eq_take_drop]
  | cons x xs ih =>
    have hx : x ≠ sep := fun e => h (e ▸ List.mem_cons_self _ _)
    have hxs : sep ∉ xs := fun e => h (List.mem_cons_of_mem _ e)
    have ih := ih hxs
    rw [List.span_eq_take_drop] at ih ⊢
    simp only [Prod.mk.injEq] at ih
    simp [List.takeWhile_cons, List.dropWhile_cons, hx, ih.1, ih.2]

theorem split_at_first (sep : Char) (l : List Char) (h : sep ∈ l) :
    ∃ b c, l = b ++ sep :: c ∧ sep ∉ b := by
  induction l with
  | nil => simp at h
  | cons x xs ih =>
    by_cases hx : x = sep
    · exact ⟨[], xs, by simp [hx], by simp⟩
    · have hxs : sep ∈ xs := by
        rcases List.mem_cons.1 h with e | e
        · exact absurd e.symm hx
        · exact e
      obtain ⟨b, c, e, hb⟩ := ih hxs
      refine ⟨x :: b, c, by simp [e], ?_⟩
      intro hm
      rcases List.mem_cons.1 hm with e2 | e2
      · exact hx e2.symm
      · exact hb e2

theorem splitNChars_two (a b : List Char) (ha : ' ' ∉ a) (hb : ' ' ∉ b) :
    splitNChars ' ' 3 (a ++ ' ' :: b) = [a, b] := by
  simp only [splitNChars, span_ne_append ' ' a b ha, span_ne_of_not_mem ' ' b hb]

theorem splitNChars_three (a b c : List Char) (ha : ' ' ∉ a) (hb : ' ' ∉ b) :
    splitNChars ' ' 3 (a ++ ' ' :: (b ++ ' ' :: c)) = [a, b, c] := by
  simp only [splitNChars, span_ne_append ' ' a _ ha, span_ne_append ' ' b c hb]

/-- A line with the whisper prefix has one space and splits in two, or has at
least two spaces and splits in three at its first two spaces. -/
theorem whisper_parts (m : String) (hp : HasPrefix m "/whisper " = true) :
    (m.data.count ' ' = 1 ∧ ∃ b : List Char, ' ' ∉ b ∧
      m.data = "/whisper".data ++ ' ' :: b ∧ SplitN m ' ' 3 = ["/whisper", String.mk b]) ∨
    (2 ≤ m.data.count ' ' ∧ ∃ b c : List Char, ' ' ∉ b ∧
      m.data = "/whisper".data ++ ' ' :: (b ++ ' ' :: c) ∧
      SplitN m ' ' 3 = ["/whisper", String.mk b, String.mk c]) := by
  obtain ⟨t, ht⟩ := (hasPrefix_iff _ _).1 hp
  have ht2 : m.data = "/whisper".data ++ ' ' :: t := by rw [ht]; rfl
  have ha : ' ' ∉ "/whisper".data := by decide
  have hca : "/whisper".data.count ' ' = 0 := List.count_eq_zero.2 ha
  by_cases hs : ' ' ∈ t
  · right
    obtain ⟨b, c, e, hb⟩ := split_at_first ' ' t hs
    subst e
    refine ⟨?_, b, c, hb, ht2, ?_⟩
    · rw [ht2]
      simp only [List.count_append, List.count_cons_self, hca, List.count_eq_zero.2 hb]
      omega
    · simp only [SplitN, ht2, splitNChars_three _ b c ha hb, List.map]
  · left
    refine ⟨?_, t, hs, ht2, ?_⟩
    · rw [ht2]
      simp only [List.count_append, List.count_cons_self, hca, List.count_eq_zero.2 hs]
    · simp only [SplitN, ht2, splitNChars_two _ t ha hs, List.map]

theorem handleMessage_usage (s : Ptr) (m : String) (w : World) (b : String)
    (hp : HasPrefix m "/whisper " = true) (hsplit : SplitN m ' ' 3 = ["/whisper", b]) :
    handleMessage s m w = .returned (Fprintln (w.heap s).conn usageLine w).1 := by
  simp only [handleMessage, hp, if_true, hsplit, usageLine]

theorem handleMessage_whisper (s : Ptr) (m : String) (w : World) (b c : String)
    (hp : HasPrefix m "/whisper " = true) (hsplit : SplitN m ' ' 3 = ["/whisper", b, c]) :
    handleMessage s m w = sendWhisper s b c w := by
  simp only [handleMessage, hp, if_true, hsplit]

theorem ne_of_data_head (a b : String) (c d : Char) (x y : List Char)
    (ha : a.data = c :: x) (hb : b.data = d :: y) (h : c ≠ d) : a ≠ b := by
  intro e
  rw [e, hb] at ha
  exact h (List.cons.inj ha).1.symm

theorem usage_data : (usageLine ++ "\n").data =
    'U' :: 's' :: 'a' :: (usageLine ++ "\n").data.drop 3 := by
  decide

theorem notFound_ne_usage (t : String) :
    "User '" ++ t ++ "' not found." ++ "\n" ≠ usageLine ++ "\n" := by
  intro e
  have hd : ("User '" ++ t ++ "' not found." ++ "\n").data =
      'U' :: 's' :: 'e' :: ("r '".data ++ t.data ++ "' not found.".data ++ "\n".data) := by
    simp only [String.data_append]
    rfl
  rw [e, usage_data] at hd
  have h3 := (List.cons.inj (List.cons.inj (List.cons.inj hd).2).2).1
  revert h3
  decide

theorem whisperFrom_ne_usage (n m : String) :
    "[Whisper from " ++ n ++ "]: " ++ m ++ "\n" ≠ usageLine ++ "\n" := by
  have hd : ("[Whisper from " ++ n ++ "]: " ++ m ++ "\n").data =
      '[' :: ("Whisper from ".data ++ n.data ++ "]: ".data ++ m.data ++ "\n".data) := by
    simp only [String.data_append]
    rfl
  exact ne_of_data_head _ _ _ _ _ _ hd usage_data (by decide)

theorem whisperTo_ne_usage (n m : String) :
    "[Whisper to " ++ n ++ "]: " ++ m ++ "\n" ≠ usageLine ++ "\n" := by
  have hd : ("[Whisper to " ++ n ++ "]: " ++ m ++ "\n").data =
      '[' :: ("Whisper to ".data ++ n.data ++ "]: ".data ++ m.data ++ "\n".data) := by
    simp only [String.data_append]
    rfl
  exact ne_of_data_head _ _ _ _ _ _ hd usage_data (by decide)

/-- Whatever `sendWhisper` writes, it is never the usage line. -/
theorem sendWhisper_lines (s : Ptr) (t m : String) (w : World) :
    ∃ l, (sendWhisper s t m w).world.out = w.out ++ l ∧
      ∀ e ∈ l, e.2 ≠ usageLine ++ "\n" := by
  cases hmx : w.srv.mutex with
  | true =>
    refine ⟨[], ?_, by simp⟩
    simp [sendWhisper, Lock, hmx, Outcome.andThen, Outcome.world]
  | false =>
    by_cases hself : (w.heap s).name = t
    · obtain ⟨w2, e, -, -, -, ho⟩ := sendWhisper_self_or_absent s t m w hmx (Or.inl hself)
      refine ⟨_, by rw [e]; exact ho, ?_⟩
      intro x hx
      simp only [List.mem_singleton] at hx
      subst hx
      simp only [hself, if_true]
      decide
    · cases hq : w.srv.usernames.lookup t with
      | none =>
        obtain ⟨w2, e, -, -, -, ho⟩ := sendWhisper_self_or_absent s t m w hmx
          (Or.inr (AList.lookup_eq_none.1 hq))
        refine ⟨_, by rw [e]; exact ho, ?_⟩
        intro x hx
        simp only [List.mem_singleton] at hx
        subst hx
        simp only [hself, if_false]
        exact notFound_ne_usage t
      | some q =>
        obtain ⟨w2, e, -, -, -, -, ho⟩ := sendWhisper_of_found s t m w hmx hself q hq
        refine ⟨_, by rw [e]; exact ho, ?_⟩
        intro x hx
        simp only [List.mem_cons, List.mem_singleton, List.not_mem_nil, or_false] at hx
        rcases hx with hx | hx
        · subst hx; exact whisperFrom_ne_usage _ _
        · subst hx; exact whisperTo_ne_usage _ _

/-- C12: a message with the whisper prefix yields fewer than three parts
exactly when it contains one space; then the handler returns after writing the
usage line to the sender and nothing else, with the registry, the room fields
and the closed sockets as before; and a message with the prefix and at least
two spaces never makes the handler write the usage line. -/
theorem malformed_whisper_usage (s : Ptr) (m : String) (w : World)
    (hp : HasPrefix m "/whisper " = true) :
    ((SplitN m ' ' 3).length < 3 ↔ m.data.count ' ' = 1) ∧
    (m.data.count ' ' = 1 →
      ∃ w2, handleEvent (.message s m) w = .returned w2 ∧
        w2.srv = w.srv ∧ w2.heap = w.heap ∧ w2.closed = w.closed ∧
        w2.out = w.out ++ [((w.heap s).conn, "Usage: /whisper <username> <message>" ++ "\n")]) ∧
    (2 ≤ m.data.count ' ' →
      ∃ l, (handleEvent (.message s m) w).world.out = w.out ++ l ∧
        ∀ e ∈ l, e.2 ≠ "Usage: /whisper <username> <message>" ++ "\n") := by
  rcases whisper_parts m hp with ⟨h1, b, -, -, hsplit⟩ | ⟨h2, b, c, -, -, hsplit⟩
  · refine ⟨?_, ?_, ?_⟩
    · rw [hsplit]; simp [h1]
    · intro _
      refine ⟨_, handleMessage_usage s m w _ hp hsplit, rfl, rfl, rfl, rfl⟩
    · intro h; omega
  · refine ⟨?_, ?_, ?_⟩
    · rw [hsplit]
      constructor
      · intro h; simp at h
      · intro h; omega
    · intro h; omega
    · intro _
      have e : handleEvent (.message s m) w = sendWhisper s (String.mk b) (String.mk c) w :=
        handleMessage_whisper s m w _ _ hp hsplit
      rw [e]
      exact sendWhisper_lines s _ _ w

/-- Witness of C12: A sends a whisper with a target and no text, and a whisper
with target and text. -/
theorem malformed_whisper_usage_witness :
    HasPrefix "/whisper B" "/whisper " = true ∧ "/whisper B".data.count ' ' = 1 ∧
    (SplitN "/whisper B" ' ' 3).length < 3 ∧
    (∃ w2, handleEvent (.message 0 "/whisper B") threeInGeneral = .returned w2 ∧
      w2.srv = threeInGeneral.srv ∧
      w2.out = threeInGeneral.out ++ [(0, "Usage: /whisper <username> <message>" ++ "\n")]) ∧
    (handleEvent (.message 0 "/whisper B") threeInGeneral).world.out =
      threeInGeneral.out ++ [(0, "Usage: /whisper <username> <message>\n")] := by
  have h := malformed_whisper_usage 0 "/whisper B" threeInGeneral (by decide)
  refine ⟨by decide, by decide, h.1.2 (by decide), ?_, by decide⟩
  obtain ⟨w2, e, h1, -, -, h2⟩ := h.2.1 (by decide)
  exact ⟨w2, e, h1, h2⟩

/-- C13 as stated fails: with A, B and C registered, the line whisper, two
spaces, B, hi has the white-space tokens whisper, B, hi, but the handler takes
the empty text between the two spaces as the target and tells A that user ''
is not found; the line whisper B, tab, hi has the same three white-space
tokens and gets the usage line. -/
theorem whisper_not_split_on_whitespace :
    specWhitespaceTokens "/whisper  B hi" = ["/whisper", "B", "hi"] ∧
    specWhitespaceTokens "/whisper B\thi" = ["/whisper", "B", "hi"] ∧
    threeInGeneral.srv.usernames.lookup "B" = some 1 ∧
    (handleEvent (.message 0 "/whisper  B hi") threeInGeneral).world.out =
      threeInGeneral.out ++ [(0, "User '' not found.\n")] ∧
    (handleEvent (.message 0 "/whisper B\thi") threeInGeneral).world.out =
      threeInGeneral.out ++ [(0, "Usage: /whisper <username> <message>\n")] := by
  decide

/-- C13 (as amended): whisper tokenisation is by the space character.  A
message with the whisper prefix is split at its first two spaces: with a
target that contains no space, the line whisper, space, target, space, text is
handled as the whisper of that text to that target (the target may be empty,
the text is everything after the second space); and every message with the
prefix either has that form, or has one space only and gets the usage line. -/
theorem whisper_split_on_spaces (s : Ptr) (m : String) (w : World)
    (hp : HasPrefix m "/whisper " = true) :
    (∀ t c : String, ' ' ∉ t.data → m = "/whisper " ++ t ++ " " ++ c →
      handleEvent (.message s m) w = sendWhisper s t c w) ∧
    ((m.data.count ' ' = 1 ∧
        handleEvent (.message s m) w = .returned (Fprintln (w.heap s).conn usageLine w).1) ∨
      ∃ t c : String, ' ' ∉ t.data ∧ m = "/whisper " ++ t ++ " " ++ c ∧
        handleEvent (.message s m) w = sendWhisper s t c w) := by
  have ha : ' ' ∉ "/whisper".data := by decide
  constructor
  · intro t c ht hm
    have hd : m.data = "/whisper".data ++ ' ' :: (t.data ++ ' ' :: c.data) := by
      rw [hm]
      simp [String.data_append]
    have hsplit : SplitN m ' ' 3 = ["/whisper", t, c] := by
      simp only [SplitN, hd, splitNChars_three _ _ _ ha ht, List.map]
    exact handleMessage_whisper s m w _ _ hp hsplit
  · rcases whisper_parts m hp with ⟨h1, b, -, -, hsplit⟩ | ⟨-, b, c, hb, hd, hsplit⟩
    · exact Or.inl ⟨h1, handleMessage_usage s m w _ hp hsplit⟩
    · refine Or.inr ⟨String.mk b, String.mk c, hb, ?_, handleMessage_whisper s m w _ _ hp hsplit⟩
      apply String.ext
      rw [hd]
      simp [String.data_append]

/-- Witness of C13: A whispers to B with one space on each side of the
target. -/
theorem whisper_split_on_spaces_witness :
    HasPrefix "/whisper B hi there" "/whisper " = true ∧ ' ' ∉ "B".data ∧
    handleEvent (.message 0 "/whisper B hi there") threeInGeneral =
      sendWhisper 0 "B" "hi there" threeInGeneral ∧
    (handleEvent (.message 0 "/whisper B hi there") threeInGeneral).world.out =
      threeInGeneral.out ++
        [(1, "[Whisper from A]: hi there\n"), (0, "[Whisper to B]: hi there\n")] :=
  ⟨by decide, by decide,
    (whisper_split_on_spaces 0 "/whisper B hi there" threeInGeneral (by decide)).1
      "B" "hi there" (by decide) (by decide),
    by decide⟩

/-! ## The room switch blocks the dispatcher -/

/-- The dispatcher after the sends of `sendAll` is the dispatcher of
`handleMessages` on the same events. -/
theorem sendAll_outcome (evs : List Event) :
    ∀ w : World, (sendAll evs w).2 = handleMessages evs w := by
  induction evs with
  | nil => intro w; rfl
  | cons e es ih =>
    intro w
    simp only [sendAll, handleMessages]
    cases he : handleEvent e w with
    | blocked wb => rfl
    | returned w2 => simpa [Outcome.andThen] using ih w2

/-- The events received are a prefix of the events sent. -/
theorem sendAll_prefix (evs : List Event) :
    ∀ w : World, (sendAll evs w).1 <+: evs := by
  induction evs with
  | nil => intro w; exact List.prefix_refl _
  | cons e es ih =>
    intro w
    simp only [sendAll]
    cases he : handleEvent e w with
    | blocked wb => exact ⟨es, rfl⟩
    | returned w2 => exact List.prefix_cons_inj e |>.2 (ih w2)

/-- When every handler returns, every send completes. -/
theorem sendAll_of_returned (evs : List Event) :
    ∀ w w2 : World, handleMessages evs w = .returned w2 → (sendAll evs w).1 = evs := by
  induction evs with
  | nil => intro w w2 _; rfl
  | cons e es ih =>
    intro w w2 h
    simp only [sendAll]
    simp only [handleMessages] at h
    cases he : handleEvent e w with
    | blocked wb => simp [he, Outcome.andThen] at h
    | returned w1 =>
      rw [he] at h
      simp only [Outcome.andThen] at h
      simp only [ih w1 w2 h]

/-- C14, at the failing input: A and B are in general and A sends a join for
room x.  The handler does not return: it blocks with A already removed from
general, room x not created, the room field of A still general and nothing
written. -/
theorem room_switch_never_completes :
    (handleEvent (.message 0 "/join x") twoInGeneral).isReturned = false ∧
    memberOf twoInGeneral.srv "general" "A" = some 0 ∧
    memberOf (handleEvent (.message 0 "/join x") twoInGeneral).world.srv "general" "A" = none ∧
    (handleEvent (.message 0 "/join x") twoInGeneral).world.srv.rooms.lookup "x" = none ∧
    ((handleEvent (.message 0 "/join x") twoInGeneral).world.heap 0).room = "general" ∧
    (handleEvent (.message 0 "/join x") twoInGeneral).world.out = twoInGeneral.out := by
  decide

/-- C15, at the failing input: A and B register, each asks for room X, and A
then sends leave.  The dispatcher receives the first join and blocks in it, so
nobody ever is in room X and the leave is not received: B is not told that A
left, A gets no confirmation for general, and the room field of A is still
general. -/
theorem leave_never_completes :
    (sendAll [.register 0, .register 1, .message 0 "/join X", .message 1 "/join X",
      .message 0 "/leave"] (World.init demoHeap noFail)).1 =
      [.register 0, .register 1, .message 0 "/join X"] ∧
    (sendAll [.register 0, .register 1, .message 0 "/join X", .message 1 "/join X",
      .message 0 "/leave"] (World.init demoHeap noFail)).2.isReturned = false ∧
    (sendAll [.register 0, .register 1, .message 0 "/join X", .message 1 "/join X",
      .message 0 "/leave"] (World.init demoHeap noFail)).2.world.srv.rooms.lookup "X" = none ∧
    ((sendAll [.register 0, .register 1, .message 0 "/join X", .message 1 "/join X",
      .message 0 "/leave"] (World.init demoHeap noFail)).2.world.heap 0).room = "general" ∧
    received (sendAll [.register 0, .register 1, .message 0 "/join X", .message 1 "/join X",
      .message 0 "/leave"] (World.init demoHeap noFail)).2.world 1 =
      ["B has joined the chat.\n"] ∧
    received (sendAll [.register 0, .register 1, .message 0 "/join X", .message 1 "/join X",
      .message 0 "/leave"] (World.init demoHeap noFail)).2.world 0 =
      ["A has joined the chat.\n", "B has joined the chat.\n"] ∧
    memberOf (sendAll [.register 0, .register 1, .message 0 "/join X", .message 1 "/join X",
      .message 0 "/leave"] (World.init demoHeap noFail)).2.world.srv "general" "A" = none := by
  decide

/-- C19, at the failing input: from the empty registry A and B register and B
sends a join for room lobby.  The run is well formed, the handler of the join
blocks with the mutex held, and every later event blocks as well. -/
theorem join_handler_deadlocks :
    wellFormed [.register 0, .register 1, .message 1 "/join lobby"]
      (World.init demoHeap noFail) = true ∧
    (handleMessages [.register 0, .register 1] (World.init demoHeap noFail)).isReturned = true ∧
    (handleMessages [.register 0, .register 1, .message 1 "/join lobby"]
      (World.init demoHeap noFail)).isReturned = false ∧
    (handleMessages [.register 0, .register 1, .message 1 "/join lobby"]
      (World.init demoHeap noFail)).world.srv.mutex = true ∧
    (handleEvent (.message 0 "hello") (handleMessages
      [.register 0, .register 1, .message 1 "/join lobby"]
      (World.init demoHeap noFail)).world).isReturned = false ∧
    (handleEvent (.unregister 0) (handleMessages
      [.register 0, .register 1, .message 1 "/join lobby"]
      (World.init demoHeap noFail)).world).isReturned = false ∧
    (handleEvent (.register 2) (handleMessages
      [.register 0, .register 1, .message 1 "/join lobby"]
      (World.init demoHeap noFail)).world).isReturned = false := by
  decide

/-! ## Counting registrations -/

/-- One register event for a client with a fresh name, a fresh connection and
the room field general adds one entry to each view. -/
theorem register_counts (p : Ptr) (w : World) (hfree : w.srv.mutex = false)
    (hroom : (w.heap p).room = "general")
    (hn : (w.heap p).name ∉ w.srv.usernames) (hc : (w.heap p).conn ∉ w.srv.clients)
    (hr : memberOf w.srv "general" (w.heap p).name = none) :
    ∃ w1, handleEvent (.register p) w = .returned w1 ∧ w1.heap = w.heap ∧
      w1.srv.mutex = false ∧
      w1.srv.clients = w.srv.clients.insert (w.heap p).conn p ∧
      w1.srv.usernames = w.srv.usernames.insert (w.heap p).name p ∧
      len w1.srv.clients = len w.srv.clients + 1 ∧
      len w1.srv.usernames = len w.srv.usernames + 1 ∧
      roomMembers w1.srv "general" = ⟨(w.heap p).name, p⟩ :: roomMembers w.srv "general" ∧
      memberOf w1.srv "general" (w.heap p).name = some p ∧
      ∀ n, n ≠ (w.heap p).name → memberOf w1.srv "general" n = memberOf w.srv "general" n := by
  obtain ⟨w1, e, hs, hh, -⟩ := register_result p w hfree
  have hrooms : w1.srv.rooms = w.srv.rooms.insert "general"
      (((w.srv.rooms.lookup "general").getD ∅).insert (w.heap p).name p) := by
    rw [hs, registered, hroom]
  have hl : w1.srv.rooms.lookup "general" =
      some (((w.srv.rooms.lookup "general").getD ∅).insert (w.heap p).name p) := by
    rw [hrooms]; exact AList.lookup_insert _
  have hnot : (w.heap p).name ∉ (w.srv.rooms.lookup "general").getD ∅ := by
    unfold memberOf at hr
    cases hg : w.srv.rooms.lookup "general" with
    | none => simp
    | some rc =>
      rw [hg] at hr
      simpa using AList.lookup_eq_none.1 hr
  refine ⟨w1, e, hh, by rw [hs]; rfl, by rw [hs]; rfl, by rw [hs]; rfl, ?_, ?_, ?_, ?_, ?_⟩
  · rw [hs]
    show (w.srv.clients.insert (w.heap p).conn p).entries.length = _
    rw [AList.insert_entries_of_neg hc]
    rfl
  · rw [hs]
    show (w.srv.usernames.insert (w.heap p).name p).entries.length = _
    rw [AList.insert_entries_of_neg hn]
    rfl
  · unfold roomMembers
    rw [hl]
    dsimp only
    rw [AList.insert_entries_of_neg hnot]
    cases hg : w.srv.rooms.lookup "general" with
    | none => rfl
    | some rc => rfl
  · rw [memberOf, hl]
    exact AList.lookup_insert _
  · intro n hne
    rw [memberOf, hl, memberOf]
    cases hg : w.srv.rooms.lookup "general" with
    | none =>
      simp only [Option.getD_none, Option.bind]
      rw [AList.lookup_insert_ne hne]
      rfl
    | some rc =>
      simp only [Option.getD_some, Option.bind]
      rw [AList.lookup_insert_ne hne]

/-- A list of register events for clients with pairwise distinct fresh names
and connections, all with room field general, adds one entry per client to
each view and leaves the other entries alone. -/
theorem register_all (heap : Ptr → Client) (ps : List Ptr) :
    ∀ w : World, w.heap = heap → w.srv.mutex = false →
    (∀ p ∈ ps, (heap p).room = "general") →
    (ps.map fun p => (heap p).name).Nodup → (ps.map fun p => (heap p).conn).Nodup →
    (∀ p ∈ ps, (heap p).name ∉ w.srv.usernames) →
    (∀ p ∈ ps, (heap p).conn ∉ w.srv.clients) →
    (∀ p ∈ ps, memberOf w.srv "general" (heap p).name = none) →
    ∃ w2, handleMessages (ps.map .register) w = .returned w2 ∧ w2.heap = heap ∧
      len w2.srv.clients = len w.srv.clients + ps.length ∧
      len w2.srv.usernames = len w.srv.usernames + ps.length ∧
      (roomMembers w2.srv "general").length = (roomMembers w.srv "general").length + ps.length ∧
      (∀ p ∈ ps, w2.srv.clients.lookup (heap p).conn = some p ∧
        w2.srv.usernames.lookup (heap p).name = some p ∧
        memberOf w2.srv "general" (heap p).name = some p) ∧
      (∀ k, (∀ p ∈ ps, (heap p).conn ≠ k) → w2.srv.clients.lookup k = w.srv.clients.lookup k) ∧
      (∀ n, (∀ p ∈ ps, (heap p).name ≠ n) →
        w2.srv.usernames.lookup n = w.srv.usernames.lookup n ∧
        memberOf w2.srv "general" n = memberOf w.srv "general" n) := by
  induction ps with
  | nil =>
    intro w hh _ _ _ _ _ _ _
    exact ⟨w, rfl, hh, rfl, rfl, rfl, by simp, fun _ _ => rfl, fun _ _ => ⟨rfl, rfl⟩⟩
  | cons p ps ih =>
    intro w hh hfree hroom hnd hcd hfn hfc hfr
    subst hh
    have hnd2 : (w.heap p).name ∉ (ps.map fun q => (w.heap q).name) ∧
        (ps.map fun q => (w.heap q).name).Nodup := List.nodup_cons.1 hnd
    have hcd2 : (w.heap p).conn ∉ (ps.map fun q => (w.heap q).conn) ∧
        (ps.map fun q => (w.heap q).conn).Nodup := List.nodup_cons.1 hcd
    obtain ⟨w1, e1, hh1, hf1, hcl, hus, hlc, hlu, hrm, hmp, hmo⟩ :=
      register_counts p w hfree (hroom p (List.mem_cons_self _ _))
        (hfn p (List.mem_cons_self _ _)) (hfc p (List.mem_cons_self _ _))
        (hfr p (List.mem_cons_self _ _))
    have hname : ∀ q ∈ ps, (w.heap q).name ≠ (w.heap p).name := by
      intro q hq e
      exact hnd2.1 (List.mem_map.2 ⟨q, hq, e⟩)
    have hconn : ∀ q ∈ ps, (w.heap q).conn ≠ (w.heap p).conn := by
      intro q hq e
      exact hcd2.1 (List.mem_map.2 ⟨q, hq, e⟩)
    obtain ⟨w2, e2, hh2, hc2, hu2, hr2, hin2, hk2, hn2⟩ := ih w1 hh1 hf1
      (fun q hq => hroom q (List.mem_cons_of_mem _ hq)) hnd2.2 hcd2.2
      (by
        intro q hq
        rw [hus, AList.mem_insert]
        rintro (h | h)
        · exact hname q hq h
        · exact hfn q (List.mem_cons_of_mem _ hq) h)
      (by
        intro q hq
        rw [hcl, AList.mem_insert]
        rintro (h | h)
        · exact hconn q hq h
        · exact hfc q (List.mem_cons_of_mem _ hq) h)
      (by
        intro q hq
        rw [hmo _ (hname q hq)]
        exact hfr q (List.mem_cons_of_mem _ hq))
    refine ⟨w2, ?_, hh2, ?_, ?_, ?_, ?_, ?_, ?_⟩
    · simp only [List.map_cons, handleMessages, e1, Outcome.andThen]
      exact e2
    · rw [hc2, hlc, List.length_cons]; omega
    · rw [hu2, hlu, List.length_cons]; omega
    · rw [hr2, hrm, List.length_cons, List.length_cons]; omega
    · intro q hq
      rcases List.mem_cons.1 hq with h | h
      · subst h
        refine ⟨?_, ?_, ?_⟩
        · rw [hk2 _ (fun r hr => hconn r hr), hcl]
          exact AList.lookup_insert _
        · rw [(hn2 _ (fun r hr => hname r hr)).1, hus]
          exact AList.lookup_insert _
        · rw [(hn2 _ (fun r hr => hname r hr)).2]
          exact hmp
      · exact hin2 q h
    · intro k hk
      rw [hk2 k (fun q hq => hk q (List.mem_cons_of_mem _ hq)), hcl]
      exact AList.lookup_insert_ne (fun e => hk p (List.mem_cons_self _ _) e.symm)
    · intro n hn
      have hne : n ≠ (w.heap p).name := fun e => hn p (List.mem_cons_self _ _) e.symm
      obtain ⟨a, b⟩ := hn2 n (fun q hq => hn q (List.mem_cons_of_mem _ hq))
      refine ⟨?_, ?_⟩
      · rw [a, hus]
        exact AList.lookup_insert_ne hne
      · rw [b]
        exact hmo n hne

/-- C20: for every list of clients with pairwise distinct names, pairwise
distinct connections and the room field general, and for every order in which
their register events reach the dispatcher, the run from the empty registry
returns with exactly as many members of general, entries of usernames and
entries of clients as there are clients, and each client is found under its
connection, under its name, and under its name in general. -/
theorem registration_count (heap : Ptr → Client) (wfail : Nat → Bool) (ps qs : List Ptr)
    (hroom : ∀ p ∈ ps, (heap p).room = "general")
    (hnames : (ps.map fun p => (heap p).name).Nodup)
    (hconns : (ps.map fun p => (heap p).conn).Nodup)
    (horder : qs.Perm ps) :
    ∃ w, handleMessages (qs.map .register) (World.init heap wfail) = .returned w ∧
      (roomMembers w.srv "general").length = ps.length ∧
      len w.srv.usernames = ps.length ∧
      len w.srv.clients = ps.length ∧
      ∀ p ∈ ps, w.srv.clients.lookup (heap p).conn = some p ∧
        w.srv.usernames.lookup (heap p).name = some p ∧
        memberOf w.srv "general" (heap p).name = some p := by
  obtain ⟨w, e, -, hc, hu, hr, hin, -, -⟩ := register_all heap qs (World.init heap wfail) rfl rfl
    (fun p hp => hroom p (horder.mem_iff.1 hp))
    ((horder.map _).nodup_iff.2 hnames) ((horder.map _).nodup_iff.2 hconns)
    (fun p _ => by simp [World.init, NewServer])
    (fun p _ => by simp [World.init, NewServer])
    (fun p _ => by simp [World.init, NewServer, memberOf])
  refine ⟨w, e, ?_, ?_, ?_, ?_⟩
  · rw [hr, horder.length_eq]; simp [roomMembers, World.init, NewServer]
  · rw [hu, horder.length_eq]; simp [len, World.init, NewServer]
  · rw [hc, horder.length_eq]; simp [len, World.init, NewServer]
  · intro p hp
    exact hin p (horder.mem_iff.2 hp)

/-- Witness of C20: A, B and C register in the order C, A, B. -/
theorem registration_count_witness :
    (∀ p ∈ [0, 1, 2], (demoHeap p).room = "general") ∧
    ([0, 1, 2].map fun p => (demoHeap p).name).Nodup ∧
    ([0, 1, 2].map fun p => (demoHeap p).conn).Nodup ∧
    List.Perm [2, 0, 1] [0, 1, 2] ∧
    (∃ w, handleMessages ([2, 0, 1].map .register) (World.init demoHeap noFail) = .returned w ∧
      (roomMembers w.srv "general").length = 3 ∧ len w.srv.usernames = 3 ∧
      len w.srv.clients = 3) ∧
    (roomMembers (handleMessages ([2, 0, 1].map .register)
      (World.init demoHeap noFail)).world.srv "general").length = 3 := by
  have hperm : List.Perm [2, 0, 1] [0, 1, 2] := by decide
  refine ⟨by decide, by decide, by decide, hperm, ?_, by decide⟩
  obtain ⟨w, e, h1, h2, h3, -⟩ := registration_count demoHeap noFail [0, 1, 2] [2, 0, 1]
    (by decide) (by decide) (by decide) hperm
  exact ⟨w, e, h1, h2, h3⟩
end ChatServer

namespace BasicTesting

/-! ## Max -/

theorem foldl_max_ge (rest : List Int) (m : Int) :
    m ≤ rest.foldl (fun max num => if num > max then num else max) m ∧
    ∀ x ∈ rest, x ≤ rest.foldl (fun max num => if num > max then num else max) m := by
  induction rest generalizing m with
  | nil => simp
  | cons a as ih =>
    simp only [List.foldl_cons, List.mem_cons, forall_eq_or_imp]
    obtain ⟨h1, h2⟩ := ih (if a > m then a else m)
    refine ⟨?_, ?_, h2⟩
    · by_cases h : a > m
      · rw [if_pos h] at h1 ⊢; omega
      · rw [if_neg h] at h1 ⊢; omega
    · by_cases h : a > m
      · rw [if_pos h] at h1 ⊢; omega
      · rw [if_neg h] at h1 ⊢; omega

theorem foldl_max_mem (rest : List Int) (m : Int) :
    rest.foldl (fun max num => if num > max then num else max) m = m ∨
    rest.foldl (fun max num => if num > max then num else max) m ∈ rest := by
  induction rest generalizing m with
  | nil => simp
  | cons a as ih =>
    simp only [List.foldl_cons, List.mem_cons]
    rcases ih (if a > m then a else m) with h | h
    · rw [h]
      split
      · right; left; rfl
      · left; rfl
    · right; right; exact h

/-- C27: `Max` returns an error exactly for the empty slice; for a non-empty
slice it returns no error and a value that is an element of the slice and is
greater than or equal to every element. -/
theorem max_spec (numbers : List Int) :
    ((Max numbers).2 ≠ none ↔ numbers = []) ∧
    (numbers ≠ [] → (Max numbers).2 = none ∧ (Max numbers).1 ∈ numbers ∧
      ∀ x ∈ numbers, x ≤ (Max numbers).1) ∧
    Max [3, 1, 4, 1, 5, 9] = (9, none) ∧ Max [-5, -1, -10] = (-1, none) ∧
    Max [] = (0, some "empty slice") := by
  refine ⟨?_, ?_, by decide, by decide, by decide⟩
  · cases numbers <;> simp [Max]
  · intro hne
    cases numbers with
    | nil => exact absurd rfl hne
    | cons first rest =>
      refine ⟨rfl, ?_, ?_⟩
      · show rest.foldl _ first ∈ first :: rest
        rcases foldl_max_mem rest first with h | h
        · rw [h]; exact List.mem_cons_self _ _
        · exact List.mem_cons_of_mem _ h
      · intro x hx
        show x ≤ rest.foldl _ first
        rcases List.mem_cons.1 hx with h | h
        · rw [h]; exact (foldl_max_ge rest first).1
        · exact (foldl_max_ge rest first).2 x h

/-- Witness of C27: the slice 3, 1, 4, 1, 5, 9. -/
theorem max_spec_witness :
    ([3, 1, 4, 1, 5, 9] : List Int) ≠ [] ∧ (Max [3, 1, 4, 1, 5, 9]).2 = none ∧
    (Max [3, 1, 4, 1, 5, 9]).1 ∈ ([3, 1, 4, 1, 5, 9] : List Int) ∧
    ∀ x ∈ ([3, 1, 4, 1, 5, 9] : List Int), x ≤ (Max [3, 1, 4, 1, 5, 9]).1 :=
  ⟨by decide, (max_spec [3, 1, 4, 1, 5, 9]).2.1 (by decide)⟩

/-! ## ReverseString -/

theorem swapRunes_ends (a m b : List Char) (x y : Char) :
    swapRunes (a ++ x :: (m ++ y :: b)) a.length (a.length + m.length + 1) =
      a ++ y :: (m ++ x :: b) := by
  unfold swapRunes
  have h1 : (a ++ x :: (m ++ y :: b)).getD (a.length + m.length + 1) default = y := by
    rw [List.getD_eq_getElem?_getD, List.getElem?_append_right (by omega)]
    have : a.length + m.length + 1 - a.length = m.length + 1 := by omega
    rw [this, List.getElem?_cons_succ, List.getElem?_append_right (by omega)]
    simp
  have h2 : (a ++ x :: (m ++ y :: b)).getD a.length default = x := by
    rw [List.getD_eq_getElem?_getD, List.getElem?_append_right (by omega)]
    simp
  rw [h1, h2, List.set_append_right _ _ (by omega)]
  simp only [Nat.sub_self, List.set_cons_zero]
  rw [List.set_append_right _ _ (by omega)]
  have : a.length + m.length + 1 - a.length = m.length + 1 := by omega
  rw [this, List.set_cons_succ, List.set_append_right _ _ (by omega)]
  simp

/-- The loop reverses the part of the runes between the two indices. -/
theorem reverseLoop_middle (fuel : Nat) :
    ∀ a m b : List Char, m.length < 2 * fuel →
      reverseLoop fuel (a ++ m ++ b) a.length ((a.length : Int) + m.length - 1) =
        some (a ++ m.reverse ++ b) := by
  induction fuel with
  | zero => intro a m b h; omega
  | succ fuel ih =>
    intro a m b h
    cases m with
    | nil =>
      have : ¬ ((a.length : Int) < (a.length : Int) + (([] : List Char).length : Nat) - 1) := by
        simp
      simp only [reverseLoop, this, if_false]
      simp
    | cons x m =>
      rcases List.eq_nil_or_concat m with hm | ⟨m2, y, hm⟩
      · subst hm
        have : ¬ ((a.length : Int) < (a.length : Int) + (([x] : List Char).length : Nat) - 1) := by
          simp
        simp only [reverseLoop, this, if_false]
        simp
      · rw [List.concat_eq_append] at hm
        subst hm
        have hL : (x :: (m2 ++ [y])).length = m2.length + 2 := by simp
        rw [hL] at h ⊢
        have hlt : (a.length : Int) < (a.length : Int) + ((m2.length + 2 : Nat) : Int) - 1 := by
          push_cast
          omega
        simp only [reverseLoop, hlt, if_true]
        have hj : ((a.length : Int) + ((m2.length + 2 : Nat) : Int) - 1).toNat =
            a.length + m2.length + 1 := by
          push_cast
          omega
        have hi : ((a.length : Nat) : Int).toNat = a.length := by simp
        rw [hj, hi]
        have hsw : swapRunes (a ++ x :: (m2 ++ [y]) ++ b) a.length (a.length + m2.length + 1) =
            (a ++ [y]) ++ m2 ++ (x :: b) := by
          have := swapRunes_ends a m2 b x y
          simpa using this
        rw [hsw]
        have hlen : m2.length < 2 * fuel := by omega
        have := ih (a ++ [y]) m2 (x :: b) hlen
        have e1 : ((a ++ [y]).length : Int) = (a.length : Int) + 1 := by simp
        have e2 : (a.length : Int) + 1 + (m2.length : Nat) - 1 =
            (a.length : Int) + ((m2.length + 2 : Nat) : Int) - 1 - 1 := by
          push_cast
          omega
        rw [e1, e2] at this
        rw [this]
        simp

theorem reverseLoop_all (runes : List Char) :
    reverseLoop (runes.length + 1) runes 0 ((runes.length : Int) - 1) = some runes.reverse := by
  have := reverseLoop_middle (runes.length + 1) [] runes [] (by omega)
  simpa using this

/-- C26: `ReverseString` returns the string whose code points are those of the
argument in reverse order (the Korean and the empty example of the test
included), and reversing twice gives the argument back. -/
theorem reverseString_spec (s : String) :
    ReverseString s = some (String.mk s.data.reverse) ∧
    (ReverseString s).bind ReverseString = some s ∧
    ReverseString "안녕" = some "녕안" ∧ ReverseString "" = some "" ∧
    ReverseString "hello" = some "olleh" := by
  have h : ∀ t : String, ReverseString t = some (String.mk t.data.reverse) := by
    intro t
    unfold ReverseString
    rw [reverseLoop_all]
    rfl
  refine ⟨h s, ?_, by decide, by decide, by decide⟩
  rw [h s, Option.bind, h]
  simp

end BasicTesting

namespace ChatServer

/-! ## The connection worker -/

theorem trimSpace_last (s : String) (c : Char)
    (h : (TrimSpace s).data.getLast? = some c) : isSpace c = false := by
  unfold TrimSpace at h
  simp only [List.getLast?_reverse] at h
  have := List.head?_dropWhile_not isSpace (s.data.dropWhile isSpace).reverse
  rw [h] at this
  exact this

theorem trimSpace_ne_empty (r : List Char) (c : Char) (h : r.getLast? = some c)
    (hc : isSpace c = false) : TrimSpace (String.mk r) ≠ "" := by
  obtain ⟨ys, rfl⟩ := List.getLast?_eq_some_iff.1 h
  have h1 : ∃ z, (ys ++ [c]).dropWhile isSpace = z ++ [c] := by
    rw [List.dropWhile_append]
    split
    · exact ⟨[], by simp [List.dropWhile_cons, hc]⟩
    · exact ⟨_, rfl⟩
  obtain ⟨z, hz⟩ := h1
  intro e
  have e2 := congrArg String.data e
  unfold TrimSpace at e2
  simp only [hz, List.reverse_append, List.reverse_cons, List.reverse_nil, List.nil_append,
    List.singleton_append, List.dropWhile_cons, hc] at e2
  simp at e2

/-- A text that does not end in white space and has the join prefix names a
room that is not empty after trimming. -/
theorem join_name_ne_empty (m : String)
    (hlast : ∀ c, m.data.getLast? = some c → isSpace c = false)
    (hp : HasPrefix m "/join " = true) :
    TrimSpace (TrimPrefix m "/join ") ≠ "" := by
  obtain ⟨t, ht⟩ := (hasPrefix_iff _ _).1 hp
  have hdrop : TrimPrefix m "/join " = String.mk t := by
    unfold TrimPrefix
    rw [if_pos hp, ht]
    simp
  rw [hdrop]
  rcases List.eq_nil_or_concat t with h | ⟨t2, c, h⟩
  · subst h
    have : m.data.getLast? = some ' ' := by rw [ht]; rfl
    have := hlast _ this
    revert this
    decide
  · rw [List.concat_eq_append] at h
    subst h
    have hl : m.data.getLast? = some c := by
      rw [ht, ← List.append_assoc]
      exact List.getLast?_eq_some_iff.2 ⟨_, rfl⟩
    exact trimSpace_ne_empty _ c (by simp) (hlast c hl)

theorem handleConnection_accepted (conn : Conn) (client : Ptr) (line : String)
    (rest : List String) (w : World) (hfree : w.srv.mutex = false)
    (hne : TrimSpace line ≠ "") (hfresh : TrimSpace line ∉ w.srv.usernames) :
    (handleConnection conn client (line :: rest) w).submitted =
      .register client :: (rest.map fun l => .message client (TrimSpace l)) ++
        [.unregister client] ∧
    (handleConnection conn client (line :: rest) w).blocked = false ∧
    (handleConnection conn client (line :: rest) w).world.srv = w.srv ∧
    (handleConnection conn client (line :: rest) w).world.heap =
      Function.update w.heap client { conn := conn, name := TrimSpace line, room := "general" } ∧
    (handleConnection conn client (line :: rest) w).world.closed = w.closed ∧
    (handleConnection conn client (line :: rest) w).world.out =
      w.out ++ [(conn, "Enter your name: ")] := by
  have hsrv := unlock_lock_srv w.srv hfree
  dsimp only at hsrv
  simp only [handleConnection, hne, if_false, Lock, Fprint, hfree, Bool.false_eq_true,
    hfresh, Unlock, logPrintf, hsrv]
  exact ⟨trivial, trivial, trivial, trivial, trivial, trivial⟩

/-- Every message event a worker submits carries a trimmed line. -/
theorem submitted_message_trimmed (conn : Conn) (client : Ptr) (input : List String)
    (w : World) (c : Ptr) (m : String)
    (h : Event.message c m ∈ (handleConnection conn client input w).submitted) :
    c = client ∧ ∃ l ∈ input, m = TrimSpace l := by
  unfold handleConnection at h
  cases input with
  | nil => simp at h
  | cons line rest =>
    dsimp only at h
    split at h
    · simp at h
    · split at h
      · simp at h
      · split at h
        · simp at h
        · simp only [List.mem_cons, List.mem_append, List.mem_map, List.mem_singleton,
            reduceCtorEq, false_or, or_false] at h
          rcases h with ⟨l, hl, e⟩ | h
          · cases e
            exact ⟨rfl, l, List.mem_cons_of_mem _ hl, rfl⟩
          · simp at h

/-- The rejections of the handshake, with the mutex free: when the first line of
a connection is empty after trimming, or is a name that is a key of usernames,
`handleConnection` writes the prompt and then exactly one line, the empty-name
line or the already-taken line, to the new connection, closes it, sends no
event and leaves the registry and the heap as they are, so the holder of the
name is still registered. -/
theorem handshake_rejected (conn : Conn) (client : Ptr) (line : String)
    (rest : List String) (w : World) (hfree : w.srv.mutex = false)
    (hrej : TrimSpace line = "" ∨ TrimSpace line ∈ w.srv.usernames) :
    (handleConnection conn client (line :: rest) w).submitted = [] ∧
    (handleConnection conn client (line :: rest) w).blocked = false ∧
    (handleConnection conn client (line :: rest) w).world.srv = w.srv ∧
    (handleConnection conn client (line :: rest) w).world.heap = w.heap ∧
    (handleConnection conn client (line :: rest) w).world.closed = w.closed ++ [conn] ∧
    (handleConnection conn client (line :: rest) w).world.out = w.out ++
      [(conn, "Enter your name: "),
       (conn, (if TrimSpace line = "" then "Name cannot be empty. Disconnecting."
          else "Name '" ++ TrimSpace line ++
            "' is already taken. Please choose another. Disconnecting.") ++ "\n")] ∧
    ∀ p, w.srv.usernames.lookup (TrimSpace line) = some p →
      (handleConnection conn client (line :: rest) w).world.srv.usernames.lookup
        (TrimSpace line) = some p := by
  by_cases hne : TrimSpace line = ""
  · simp only [handleConnection, hne, if_true, Fprint, Close, Fprintln]
    refine ⟨trivial, trivial, trivial, trivial, trivial, ?_, fun p hp => hp⟩
    simp
  · have htaken := hrej.resolve_left hne
    have hsrv := unlock_lock_srv w.srv hfree
    dsimp only at hsrv
    simp only [handleConnection, hne, if_false, Lock, Fprint, hfree, Bool.false_eq_true,
      htaken, if_true, Unlock, Close, Fprintln, hsrv]
    refine ⟨trivial, trivial, trivial, trivial, trivial, ?_, fun p hp => hp⟩
    simp

/-- Example of the rejections: bob is registered; a second connection sends bob,
and a third sends a blank line. -/
theorem handshake_rejected_witness :
    oneBob.srv.mutex = false ∧ TrimSpace "bob\n" ∈ oneBob.srv.usernames ∧
    TrimSpace "  \n" = "" ∧
    (handleConnection 1 1 ["bob\n", "hi\n"] oneBob).submitted = [] ∧
    (handleConnection 2 2 ["  \n", "hi\n"] oneBob).submitted = [] ∧
    (handleConnection 1 1 ["bob\n", "hi\n"] oneBob).world.out = oneBob.out ++
      [(1, "Enter your name: "),
       (1, "Name 'bob' is already taken. Please choose another. Disconnecting.\n")] ∧
    (handleConnection 2 2 ["  \n", "hi\n"] oneBob).world.out = oneBob.out ++
      [(2, "Enter your name: "), (2, "Name cannot be empty. Disconnecting.\n")] ∧
    (handleConnection 1 1 ["bob\n", "hi\n"] oneBob).world.srv.usernames.lookup "bob" = some 0 :=
  ⟨by decide, by decide, by decide,
    (handshake_rejected 1 1 "bob\n" ["hi\n"] oneBob (by decide) (Or.inr (by decide))).1,
    (handshake_rejected 2 2 "  \n" ["hi\n"] oneBob (by decide) (Or.inl (by decide))).1,
    by decide, by decide, by decide⟩

/-- C21, at the failing input: a connection is sent the name A and a join for
room x, which leaves the dispatcher blocked in `joinRoom` with the mutex held;
a second connection is then sent the name A, a key of usernames.  Its worker
writes the prompt and blocks in `mutex.Lock` of the name check: the
already-taken line is not written and the connection is not closed. -/
theorem handshake_blocks_behind_room_switch :
    joiner.submitted = [.register 0, .message 0 "/join x", .unregister 0] ∧
    (sendAll joiner.submitted joiner.world).1 = [.register 0, .message 0 "/join x"] ∧
    (sendAll joiner.submitted joiner.world).2.isReturned = false ∧
    stuckInJoin.srv.mutex = true ∧
    TrimSpace "A\n" ∈ stuckInJoin.srv.usernames ∧
    (handleConnection 1 1 ["A\n"] stuckInJoin).blocked = true ∧
    (handleConnection 1 1 ["A\n"] stuckInJoin).submitted = [] ∧
    (handleConnection 1 1 ["A\n"] stuckInJoin).world.out =
      stuckInJoin.out ++ [(1, "Enter your name: ")] ∧
    (handleConnection 1 1 ["A\n"] stuckInJoin).world.closed = [] := by
  decide

/-- The sends of an accepted connection in program order, each taken to
complete: for a connection whose name is accepted (the mutex free, the trimmed
first line not empty and not a key of usernames) and whose further input is the
lines of `rest` followed by a failing read, the list `submitted` of
`handleConnection` is the register event of the new client, one message event
with the trimmed text for each line, in order, and then one unregister event;
the new client has the connection, the trimmed name and the room general. -/
theorem worker_event_sequence (conn : Conn) (client : Ptr) (line : String)
    (rest : List String) (w : World) (hfree : w.srv.mutex = false)
    (hne : TrimSpace line ≠ "") (hfresh : TrimSpace line ∉ w.srv.usernames) :
    (handleConnection conn client (line :: rest) w).submitted =
      [.register client] ++ (rest.map fun l => .message client (TrimSpace l)) ++
        [.unregister client] ∧
    (handleConnection conn client (line :: rest) w).blocked = false ∧
    (handleConnection conn client (line :: rest) w).world.heap client =
      { conn := conn, name := TrimSpace line, room := "general" } := by
  obtain ⟨h1, h2, -, h4, -⟩ := handleConnection_accepted conn client line rest w hfree hne hfresh
  refine ⟨by rw [h1]; rfl, h2, ?_⟩
  rw [h4]
  simp

/-- Example of the sends in program order: carol connects to the empty server,
sends two lines and disconnects. -/
theorem worker_event_sequence_witness :
    (World.init demoHeap noFail).srv.mutex = false ∧ TrimSpace "carol\n" ≠ "" ∧
    TrimSpace "carol\n" ∉ (World.init demoHeap noFail).srv.usernames ∧
    (handleConnection 7 7 ["carol\n", " hello \n", "/join x\n"]
      (World.init demoHeap noFail)).submitted =
      [.register 7, .message 7 "hello", .message 7 "/join x", .unregister 7] :=
  ⟨by decide, by decide, by decide,
    (worker_event_sequence 7 7 "carol\n" [" hello \n", "/join x\n"]
      (World.init demoHeap noFail) (by decide) (by decide) (by decide)).1⟩

/-- C22, at the failing input: carol connects to the empty server, sends a chat
line and a join for room x, and disconnects.  The name is accepted and the
worker has four sends in program order; the dispatcher receives the first
three and blocks in the handler of the join, so the send of the Unregister
never completes and the socket is never closed. -/
theorem unregister_never_received :
    TrimSpace "carol\n" ≠ "" ∧
    TrimSpace "carol\n" ∉ (World.init demoHeap noFail).srv.usernames ∧
    carol.submitted =
      [.register 7, .message 7 "hello", .message 7 "/join x", .unregister 7] ∧
    (sendAll carol.submitted carol.world).1 =
      [.register 7, .message 7 "hello", .message 7 "/join x"] ∧
    Event.unregister 7 ∉ (sendAll carol.submitted carol.world).1 ∧
    (sendAll carol.submitted carol.world).2.isReturned = false ∧
    (sendAll carol.submitted carol.world).2.world.srv.clients.lookup 7 = some 7 ∧
    (sendAll carol.submitted carol.world).2.world.closed = [] := by
  decide

theorem filterMap_some_map {α β : Type} (f : α → β) (l : List α) :
    l.filterMap (fun x => some (f x)) = l.map f := by
  induction l with
  | nil => rfl
  | cons a as ih => simp [List.filterMap_cons, ih]

theorem no_submit_split (l : List WorkerStep) (h : ∀ s ∈ l, s.submitted = none)
    (pre post : List WorkerStep) (e : Event) (hl : l = pre ++ .submit e :: post) : False := by
  have : WorkerStep.submit e ∈ l := by rw [hl]; simp
  have := h _ this
  simp [WorkerStep.submitted] at this

theorem first_submit_unique (p1 : List WorkerStep) :
    ∀ (p2 q1 q2 : List WorkerStep) (x y : Event),
      p1 ++ .submit x :: q1 = p2 ++ .submit y :: q2 →
      (∀ s ∈ p1, s.submitted = none) → (∀ s ∈ p2, s.submitted = none) → x = y := by
  induction p1 with
  | nil =>
    intro p2 q1 q2 x y h _ h2
    cases p2 with
    | nil => simpa using (List.cons.inj h).1
    | cons b p2 =>
      have hb : b = .submit x := (List.cons.inj h).1.symm
      have := h2 b (List.mem_cons_self _ _)
      rw [hb] at this
      simp [WorkerStep.submitted] at this
  | cons a p1 ih =>
    intro p2 q1 q2 x y h h1 h2
    cases p2 with
    | nil =>
      have ha : a = .submit y := (List.cons.inj h).1
      have := h1 a (List.mem_cons_self _ _)
      rw [ha] at this
      simp [WorkerStep.submitted] at this
    | cons b p2 =>
      exact ih p2 q1 q2 x y (List.cons.inj h).2
        (fun s hs => h1 s (List.mem_cons_of_mem _ hs))
        (fun s hs => h2 s (List.mem_cons_of_mem _ hs))

theorem after_submit_quiet (a b : List WorkerStep)
    (ha : ∀ s ∈ a, s.submitted = none)
    (hb : ∀ s ∈ b, s.written = none ∧ s.closedConn = none)
    (pre post : List WorkerStep) (e : Event) (h : a ++ b = pre ++ .submit e :: post) :
    ∀ s ∈ post, s.written = none ∧ s.closedConn = none := by
  rcases List.append_eq_append_iff.1 h with ⟨a2, -, h2⟩ | ⟨c2, h1, h2⟩
  · intro s hs
    exact hb s (by rw [h2]; simp [hs])
  · cases c2 with
    | nil =>
      intro s hs
      exact hb s (by rw [← List.nil_append b, ← h2]; simp [hs])
    | cons x c2 =>
      have hx : x = .submit e := (List.cons.inj h2).1.symm
      have := ha x (by rw [h1]; simp)
      rw [hx] at this
      simp [WorkerStep.submitted] at this

/-- C24: in the program order of `handleConnection`, every socket write and
every close is on the worker's own connection; after a submission (the first
one is the register event) no step is a socket write; the worker leaves
clients, usernames and rooms as they are; and the steps are those of
`handleConnection`: the same submitted events, socket writes and closed
sockets. -/
theorem worker_writes_before_register (conn : Conn) (client : Ptr) (input : List String)
    (w : World) :
    (∀ s ∈ workerSteps conn client input w, ∀ c t, s = .write c t → c = conn) ∧
    (∀ s ∈ workerSteps conn client input w, ∀ c, s = .close c → c = conn) ∧
    (∀ pre post e, workerSteps conn client input w = pre ++ .submit e :: post →
      ∀ s ∈ post, s.written = none ∧ s.closedConn = none) ∧
    (∀ pre post e, workerSteps conn client input w = pre ++ .submit e :: post →
      (∀ s ∈ pre, s.submitted = none) → e = .register client) ∧
    (handleConnection conn client input w).world.srv.clients = w.srv.clients ∧
    (handleConnection conn client input w).world.srv.usernames = w.srv.usernames ∧
    (handleConnection conn client input w).world.srv.rooms = w.srv.rooms ∧
    (handleConnection conn client input w).submitted =
      (workerSteps conn client input w).filterMap WorkerStep.submitted ∧
    (handleConnection conn client input w).world.out =
      w.out ++ (workerSteps conn client input w).filterMap WorkerStep.written ∧
    (handleConnection conn client input w).world.closed =
      w.closed ++ (workerSteps conn client input w).filterMap WorkerStep.closedConn := by
  cases input with
  | nil =>
    have hs : workerSteps conn client [] w =
        [.write conn "Enter your name: ", .log .readNameError, .close conn] := rfl
    rw [hs]
    refine ⟨by simp, by simp, ?_, ?_, by trivial, by trivial, by trivial, by trivial, ?_, ?_⟩
    · intro pre post e h
      exact (no_submit_split _ (by simp [WorkerStep.submitted]) pre post e h).elim
    · intro pre post e h
      exact (no_submit_split _ (by simp [WorkerStep.submitted]) pre post e h).elim
    · simp [handleConnection, Fprint, Close, logPrintf, WorkerStep.written]
    · simp [handleConnection, Fprint, Close, logPrintf, WorkerStep.closedConn]
  | cons line rest =>
    by_cases hne : TrimSpace line = ""
    · have hs : workerSteps conn client (line :: rest) w =
          [.write conn "Enter your name: ",
           .write conn ("Name cannot be empty. Disconnecting." ++ "\n"), .close conn] := by
        simp only [workerSteps, hne, if_true]
      rw [hs]
      simp only [handleConnection, hne, if_true, Fprint, Close, Fprintln]
      refine ⟨by simp, by simp, ?_, ?_, by trivial, by trivial, by trivial, by trivial, ?_, ?_⟩
      · intro pre post e h
        exact (no_submit_split _ (by simp [WorkerStep.submitted]) pre post e h).elim
      · intro pre post e h
        exact (no_submit_split _ (by simp [WorkerStep.submitted]) pre post e h).elim
      · simp [WorkerStep.written]
      · simp [WorkerStep.closedConn]
    · cases hm : w.srv.mutex with
      | true =>
        have hs : workerSteps conn client (line :: rest) w =
            [.write conn "Enter your name: ", .lock] := by
          simp only [workerSteps, hne, if_false, hm, if_true]
        rw [hs]
        simp only [handleConnection, hne, if_false, Fprint, Lock, hm, if_true]
        refine ⟨by simp, by simp, ?_, ?_, by trivial, by trivial, by trivial, by trivial, ?_, ?_⟩
        · intro pre post e h
          exact (no_submit_split _ (by simp [WorkerStep.submitted]) pre post e h).elim
        · intro pre post e h
          exact (no_submit_split _ (by simp [WorkerStep.submitted]) pre post e h).elim
        · simp [WorkerStep.written]
        · simp [WorkerStep.closedConn]
      | false =>
        by_cases htaken : TrimSpace line ∈ w.srv.usernames
        · have hs : workerSteps conn client (line :: rest) w =
              [.write conn "Enter your name: ", .lock, .unlock,
               .write conn ("Name '" ++ TrimSpace line ++
                 "' is already taken. Please choose another. Disconnecting." ++ "\n"),
               .close conn] := by
            simp only [workerSteps, hne, if_false, hm, Bool.false_eq_true, htaken, if_true]
          rw [hs]
          simp only [handleConnection, hne, if_false, Fprint, Lock, hm, Bool.false_eq_true,
            htaken, if_true, Unlock, Close, Fprintln]
          refine ⟨by simp, by simp, ?_, ?_, by trivial, by trivial, by trivial, by trivial, ?_, ?_⟩
          · intro pre post e h
            exact (no_submit_split _ (by simp [WorkerStep.submitted]) pre post e h).elim
          · intro pre post e h
            exact (no_submit_split _ (by simp [WorkerStep.submitted]) pre post e h).elim
          · simp [WorkerStep.written]
          · simp [WorkerStep.closedConn]
        · have hs : workerSteps conn client (line :: rest) w =
              [.write conn "Enter your name: ", .lock, .unlock, .alloc client] ++
              (.submit (.register client) ::
                ((rest.map fun l => .submit (.message client (TrimSpace l))) ++
                [.log (.readError (TrimSpace line)), .submit (.unregister client)])) := by
            simp only [workerSteps, hne, if_false, hm, Bool.false_eq_true, htaken]
            simp
          obtain ⟨a1, a2, a3, -, a5, a6⟩ :=
            handleConnection_accepted conn client line rest w hm hne htaken
          rw [hs]
          refine ⟨?_, ?_, ?_, ?_, by rw [a3], by rw [a3], by rw [a3], ?_, ?_, ?_⟩
          · intro s hs2 c t e
            subst e
            simp at hs2
            exact hs2.1
          · intro s hs2 c e
            subst e
            simp at hs2
          · intro pre post e h
            refine after_submit_quiet _ _ ?_ ?_ pre post e h
            · simp [WorkerStep.submitted]
            · intro s hs2
              simp only [List.mem_cons, List.mem_append, List.mem_map, List.mem_singleton,
                List.not_mem_nil, or_false] at hs2
              rcases hs2 with h | ⟨l, -, h⟩ | h | h <;> subst h <;>
                exact ⟨rfl, rfl⟩
          · intro pre post e h hpre
            exact (first_submit_unique _ _ _ _ _ _ h (by simp [WorkerStep.submitted]) hpre).symm
          · rw [a1]
            simp [WorkerStep.submitted, List.filterMap_append, List.filterMap_map,
              Function.comp_def]
            exact (filterMap_some_map _ rest).symm
          · rw [a6]
            simp [WorkerStep.written, List.filterMap_append, List.filterMap_map,
              Function.comp_def]
          · rw [a5]
            simp [WorkerStep.closedConn, List.filterMap_append, List.filterMap_map,
              Function.comp_def]

/-- C29: a text that is its own trimming and starts with the join prefix names
a room that is not empty after trimming; so for every message event that
`handleConnection` submits and that has the join prefix, the handler calls
`joinRoom` with a room name that is not empty, and the branch of the empty
room name is not taken. -/
theorem empty_room_name_unreachable (conn : Conn) (client : Ptr) (input : List String)
    (w : World) :
    (∀ m : String, TrimSpace m = m → HasPrefix m "/join " = true →
      TrimSpace (TrimPrefix m "/join ") ≠ "") ∧
    ∀ c m, Event.message c m ∈ (handleConnection conn client input w).submitted →
      HasPrefix m "/join " = true →
      TrimSpace (TrimPrefix m "/join ") ≠ "" ∧
      ∀ w2 : World, handleEvent (.message c m) w2 =
        joinRoom c (TrimSpace (TrimPrefix m "/join ")) w2 := by
  constructor
  · intro m hm hp
    refine join_name_ne_empty m ?_ hp
    intro c hc
    rw [← hm] at hc
    exact trimSpace_last m c hc
  · intro c m hmem hp
    obtain ⟨-, l, -, hl⟩ := submitted_message_trimmed conn client input w c m hmem
    refine ⟨join_name_ne_empty m ?_ hp, ?_⟩
    · intro x hx
      rw [hl] at hx
      exact trimSpace_last l x hx
    · intro w2
      simp only [handleEvent, handleMessage, not_whisper_of_join m hp, hp,
        Bool.false_eq_true, if_false, if_true]

/-- C30: with the mutex free, a line that after trimming is exactly the word
join or the word whisper with its slash is handled as chat: the handler returns
after writing the line name: text once per member entry of the sender's current
room and nothing else (no usage or error reply), with the registry, the room
fields and the closed sockets as before. -/
theorem bare_command_is_chat (c : Ptr) (line : String) (w : World)
    (hfree : w.srv.mutex = false)
    (hbare : TrimSpace line = "/join" ∨ TrimSpace line = "/whisper") :
    ∃ w2, handleEvent (.message c (TrimSpace line)) w = .returned w2 ∧
      w2.srv = w.srv ∧ w2.heap = w.heap ∧ w2.closed = w.closed ∧
      w2.out = w.out ++ lineTo w.heap ((w.heap c).name ++ ": " ++ TrimSpace line)
        (roomMembers w.srv (w.heap c).room) := by
  have h : HasPrefix (TrimSpace line) "/whisper " = false ∧
      HasPrefix (TrimSpace line) "/join " = false ∧ TrimSpace line ≠ "/leave" := by
    rcases hbare with e | e <;> rw [e] <;> decide
  exact ⟨_, chat_result c _ w hfree h.1 h.2.1 h.2.2, deliver_srv _ _ _, deliver_heap _ _ _,
    deliver_closed _ _ _, deliver_out _ _ _⟩

/-- Witness of C30: A sends the join word followed by blanks, and the whisper
word followed by a blank; B and A are sent the bare word as a chat line. -/
theorem bare_command_is_chat_witness :
    twoInGeneral.srv.mutex = false ∧ TrimSpace "/join   \n" = "/join" ∧
    TrimSpace "/whisper \n" = "/whisper" ∧
    (handleConnection 0 0 ["A\n", "/join   \n", "/whisper \n"]
      (World.init demoHeap noFail)).submitted =
      [.register 0, .message 0 "/join", .message 0 "/whisper", .unregister 0] ∧
    (∃ w2, handleEvent (.message 0 (TrimSpace "/join   \n")) twoInGeneral = .returned w2 ∧
      w2.srv = twoInGeneral.srv) ∧
    (∃ w2, handleEvent (.message 0 (TrimSpace "/whisper \n")) twoInGeneral = .returned w2 ∧
      w2.srv = twoInGeneral.srv) ∧
    (handleEvent (.message 0 "/join") twoInGeneral).world.out =
      twoInGeneral.out ++ [(1, "A: /join\n"), (0, "A: /join\n")] ∧
    (handleEvent (.message 0 "/whisper") twoInGeneral).world.out =
      twoInGeneral.out ++ [(1, "A: /whisper\n"), (0, "A: /whisper\n")] := by
  refine ⟨by decide, by decide, by decide, by decide, ?_, ?_, by decide, by decide⟩
  · obtain ⟨w2, e, h1, -⟩ :=
      bare_command_is_chat 0 "/join   \n" twoInGeneral (by decide) (Or.inl (by decide))
    exact ⟨w2, e, h1⟩
  · obtain ⟨w2, e, h1, -⟩ :=
      bare_command_is_chat 0 "/whisper \n" twoInGeneral (by decide) (Or.inr (by decide))
    exact ⟨w2, e, h1⟩

/-! ## Delivery failures -/

theorem agree_cases {P : World → World → Prop}
    (h : ∀ s hp o c f1 l1 f2 l2,
      P ⟨s, hp, o, c, f1, l1⟩ ⟨s, hp, o, c, f2, l2⟩) :
    ∀ a b, Agree a b → P a b := by
  intro a b hab
  cases a
  cases b
  simp only [Agree] at hab
  obtain ⟨h1, h2, h3, h4⟩ := hab
  subst h1 h2 h3 h4
  exact h _ _ _ _ _ _ _ _

theorem agree_refl (a : World) : Agree a a := ⟨rfl, rfl, rfl, rfl⟩

theorem agree_wfail (w : World) (f g : Nat → Bool) :
    Agree { w with wfail := f } { w with wfail := g } := ⟨rfl, rfl, rfl, rfl⟩

theorem andThen_agree (o1 o2 : Outcome) (f : World → Outcome) (h : OutcomeAgree o1 o2)
    (hf : ∀ x y, Agree x y → OutcomeAgree (f x) (f y)) :
    OutcomeAgree (o1.andThen f) (o2.andThen f) := by
  cases o1 <;> cases o2 <;> simp only [OutcomeAgree] at h
  · exact hf _ _ h
  · exact h

theorem lock_agree (a b : World) (h : Agree a b) : OutcomeAgree (Lock a) (Lock b) := by
  revert h
  refine @agree_cases (fun a b => OutcomeAgree (Lock a) (Lock b)) ?_ a b
  intro s hp o c f1 l1 f2 l2
  cases hm : s.mutex <;> simp [Lock, hm, OutcomeAgree, Agree]

theorem unlock_agree (a b : World) (h : Agree a b) : Agree (Unlock a) (Unlock b) := by
  revert h
  refine @agree_cases (fun a b => Agree (Unlock a) (Unlock b)) ?_ a b
  intro s hp o c f1 l1 f2 l2
  simp [Unlock, Agree]

theorem logPrintf_agree (x y : LogLine) (a b : World) (h : Agree a b) :
    Agree (logPrintf x a) (logPrintf y b) := by
  revert h
  refine @agree_cases (fun a b => Agree (logPrintf x a) (logPrintf y b)) ?_ a b
  intro s hp o c f1 l1 f2 l2
  simp [logPrintf, Agree]

theorem logPrintf_agree_left (x : LogLine) (a b : World) (h : Agree a b) :
    Agree (logPrintf x a) b := by
  revert h
  refine @agree_cases (fun a b => Agree (logPrintf x a) b) ?_ a b
  intro s hp o c f1 l1 f2 l2
  simp [logPrintf, Agree]

theorem agree_symm {a b : World} (h : Agree a b) : Agree b a :=
  ⟨h.1.symm, h.2.1.symm, h.2.2.1.symm, h.2.2.2.symm⟩

theorem agree_trans {a b c : World} (h : Agree a b) (h2 : Agree b c) : Agree a c :=
  ⟨h.1.trans h2.1, h.2.1.trans h2.2.1, h.2.2.1.trans h2.2.2.1, h.2.2.2.trans h2.2.2.2⟩

theorem fprintln_agree (conn : Conn) (t : String) (a b : World) (h : Agree a b) :
    Agree (Fprintln conn t a).1 (Fprintln conn t b).1 := by
  revert h
  refine @agree_cases (fun a b => Agree (Fprintln conn t a).1 (Fprintln conn t b).1) ?_ a b
  intro s hp o c f1 l1 f2 l2
  simp [Fprintln, Fprint, Agree]

/-- A write followed by the logging of its failure, as in the broadcast loop
and in `sendWhisper`: whether the write fails or not, the worlds agree. -/
theorem write_logged_agree (conn : Conn) (t : String) (x : LogLine) (a b : World)
    (h : Agree a b) :
    Agree (if (Fprintln conn t a).2 then logPrintf x (Fprintln conn t a).1
        else (Fprintln conn t a).1)
      (if (Fprintln conn t b).2 then logPrintf x (Fprintln conn t b).1
        else (Fprintln conn t b).1) := by
  have hw := fprintln_agree conn t a b h
  split <;> split
  · exact logPrintf_agree _ _ _ _ hw
  · exact logPrintf_agree_left _ _ _ hw
  · exact agree_symm (logPrintf_agree_left _ _ _ (agree_symm hw))
  · exact hw

theorem sendTo_agree (r m : String) (e : (_ : String) × Ptr) (a b : World) (h : Agree a b) :
    Agree (sendTo r m a e) (sendTo r m b e) := by
  have := write_logged_agree (a.heap e.2).conn m (.sendError (a.heap e.2).name r) a b h
  unfold sendTo
  rw [← h.2.1]
  exact this

theorem foldl_sendTo_agree (r m : String) (ms : List ((_ : String) × Ptr)) :
    ∀ a b, Agree a b → Agree (ms.foldl (sendTo r m) a) (ms.foldl (sendTo r m) b) := by
  induction ms with
  | nil => intro a b h; exact h
  | cons e es ih =>
    intro a b h
    exact ih _ _ (sendTo_agree r m e a b h)

theorem broadcast_agree (r m : String) (a b : World) (h : Agree a b) :
    OutcomeAgree (broadcastMessageToRoom r m a) (broadcastMessageToRoom r m b) := by
  unfold broadcastMessageToRoom
  refine andThen_agree _ _ _ (lock_agree a b h) ?_
  intro x y hxy
  rw [← hxy.1]
  cases x.srv.rooms.lookup r with
  | none => exact unlock_agree _ _ hxy
  | some rc => exact unlock_agree _ _ (foldl_sendTo_agree r m _ _ _ hxy)

theorem returned_agree {a b : World} (h : Agree a b) :
    OutcomeAgree (.returned a) (.returned b) := h

theorem handleRegister_agree (c : Ptr) (a b : World) (h : Agree a b) :
    OutcomeAgree (handleRegister c a) (handleRegister c b) := by
  revert h
  refine @agree_cases (fun a b => OutcomeAgree (handleRegister c a) (handleRegister c b)) ?_ a b
  intro s hp o cl f1 l1 f2 l2
  cases hm : s.mutex with
  | true => simp [handleRegister, Lock, hm, Outcome.andThen, OutcomeAgree, Agree]
  | false =>
    simp only [handleRegister, Lock, hm, Bool.false_eq_true, if_false, Outcome.andThen]
    refine andThen_agree _ _ _ (broadcast_agree _ _ _ _ ⟨rfl, rfl, rfl, rfl⟩) ?_
    intro x y hxy
    rw [← hxy.1, ← hxy.2.1]
    exact logPrintf_agree _ _ _ _ hxy

theorem handleUnregister_agree (c : Ptr) (a b : World) (h : Agree a b) :
    OutcomeAgree (handleUnregister c a) (handleUnregister c b) := by
  revert h
  refine @agree_cases
    (fun a b => OutcomeAgree (handleUnregister c a) (handleUnregister c b)) ?_ a b
  intro s hp o cl f1 l1 f2 l2
  cases hm : s.mutex with
  | true => simp [handleUnregister, Lock, hm, Outcome.andThen, OutcomeAgree, Agree]
  | false =>
    cases hq : s.clients.lookup (hp c).conn with
    | none =>
      simp [handleUnregister, Lock, hm, Outcome.andThen, hq, OutcomeAgree, Agree, Unlock]
    | some q =>
      have hk : ∀ x y, Agree x y →
          OutcomeAgree
            (Outcome.returned (logPrintf
              (.disconnected (x.heap c).name (x.heap c).room (len x.srv.clients)) x))
            (Outcome.returned (logPrintf
              (.disconnected (y.heap c).name (y.heap c).room (len y.srv.clients)) y)) := by
        intro x y hxy
        exact logPrintf_agree _ _ _ _ hxy
      cases hr : s.rooms.lookup (hp c).room with
      | none =>
        simp only [handleUnregister, Lock, hm, Bool.false_eq_true, if_false, Outcome.andThen,
          hq, hr, Unlock, Close]
        exact andThen_agree _ _ _ (broadcast_agree _ _ _ _ ⟨rfl, rfl, rfl, rfl⟩) hk
      | some rc =>
        by_cases hl : len (rc.erase (hp c).name) = 0
        · simp only [handleUnregister, Lock, hm, Bool.false_eq_true, if_false, Outcome.andThen,
            hq, hr, Unlock, Close, removeFromRoom, hl, if_true]
          exact andThen_agree _ _ _ (broadcast_agree _ _ _ _ ⟨rfl, rfl, rfl, rfl⟩) hk
        · simp only [handleUnregister, Lock, hm, Bool.false_eq_true, if_false, Outcome.andThen,
            hq, hr, Unlock, Close, removeFromRoom, hl]
          exact andThen_agree _ _ _ (broadcast_agree _ _ _ _ ⟨rfl, rfl, rfl, rfl⟩) hk

theorem whisper_confirm_agree (c : Ptr) (t m : String) (x y : World) (h : Agree x y) :
    Agree
      (if (Fprintln (x.heap c).conn ("[Whisper to " ++ t ++ "]: " ++ m) x).2 then
        logPrintf (.whisperConfirmError (x.heap c).name)
          (Fprintln (x.heap c).conn ("[Whisper to " ++ t ++ "]: " ++ m) x).1
        else (Fprintln (x.heap c).conn ("[Whisper to " ++ t ++ "]: " ++ m) x).1)
      (if (Fprintln (y.heap c).conn ("[Whisper to " ++ t ++ "]: " ++ m) y).2 then
        logPrintf (.whisperConfirmError (y.heap c).name)
          (Fprintln (y.heap c).conn ("[Whisper to " ++ t ++ "]: " ++ m) y).1
        else (Fprintln (y.heap c).conn ("[Whisper to " ++ t ++ "]: " ++ m) y).1) := by
  rw [← h.2.1]
  exact write_logged_agree _ _ _ x y h

theorem sendWhisper_agree (c : Ptr) (t m : String) (a b : World) (h : Agree a b) :
    OutcomeAgree (sendWhisper c t m a) (sendWhisper c t m b) := by
  unfold sendWhisper
  refine andThen_agree _ _ _ (lock_agree a b h) ?_
  intro x y hxy
  rw [← hxy.1, ← hxy.2.1]
  by_cases hs : (x.heap c).name = t
  · simp only [hs, if_true]
    exact unlock_agree _ _ (fprintln_agree _ _ _ _ hxy)
  · simp only [hs, if_false]
    cases hq : x.srv.usernames.lookup t with
    | none => exact unlock_agree _ _ (fprintln_agree _ _ _ _ hxy)
    | some q =>
      dsimp only
      refine unlock_agree _ _ ?_
      have h1 := write_logged_agree (x.heap q).conn
        ("[Whisper from " ++ (x.heap c).name ++ "]: " ++ m) (.whisperError t) x y hxy
      exact whisper_confirm_agree c t m _ _ h1

theorem joinRoom_tail_agree (client : Ptr) (newRoomName : String) (x y : World)
    (h : Agree x y) :
    OutcomeAgree
      ((broadcastMessageToRoom newRoomName
          ((x.heap client).name ++ " has joined the room.") x).andThen
        fun w => .returned (Unlock (logPrintf (.joinedRoom (w.heap client).name newRoomName) w)))
      ((broadcastMessageToRoom newRoomName
          ((y.heap client).name ++ " has joined the room.") y).andThen
        fun w => .returned (Unlock (logPrintf (.joinedRoom (w.heap client).name newRoomName) w))) := by
  rw [← h.2.1]
  refine andThen_agree _ _ _ (broadcast_agree _ _ _ _ h) ?_
  intro a b hab
  rw [← hab.2.1]
  exact unlock_agree _ _ (logPrintf_agree _ _ _ _ hab)

theorem joinRoom_enter_agree (client : Ptr) (newRoomName : String) (x y : World)
    (h : Agree x y) :
    OutcomeAgree
      (let w := addToRoom newRoomName (x.heap client).name client x
       let moved : Client := { w.heap client with room := newRoomName }
       let w := { w with heap := Function.update w.heap client moved }
       let w := (Fprintln (w.heap client).conn
         ("You have joined room '" ++ newRoomName ++ "'.") w).1
       (broadcastMessageToRoom newRoomName
          ((w.heap client).name ++ " has joined the room.") w).andThen
        fun w => .returned (Unlock (logPrintf (.joinedRoom (w.heap client).name newRoomName) w)))
      (let w := addToRoom newRoomName (y.heap client).name client y
       let moved : Client := { w.heap client with room := newRoomName }
       let w := { w with heap := Function.update w.heap client moved }
       let w := (Fprintln (w.heap client).conn
         ("You have joined room '" ++ newRoomName ++ "'.") w).1
       (broadcastMessageToRoom newRoomName
          ((w.heap client).name ++ " has joined the room.") w).andThen
        fun w => .returned (Unlock (logPrintf (.joinedRoom (w.heap client).name newRoomName) w))) := by
  revert h
  refine @agree_cases (fun x y => OutcomeAgree
      (let w := addToRoom newRoomName (x.heap client).name client x
       let moved : Client := { w.heap client with room := newRoomName }
       let w := { w with heap := Function.update w.heap client moved }
       let w := (Fprintln (w.heap client).conn
         ("You have joined room '" ++ newRoomName ++ "'.") w).1
       (broadcastMessageToRoom newRoomName
          ((w.heap client).name ++ " has joined the room.") w).andThen
        fun w => .returned (Unlock (logPrintf (.joinedRoom (w.heap client).name newRoomName) w)))
      (let w := addToRoom newRoomName (y.heap client).name client y
       let moved : Client := { w.heap client with room := newRoomName }
       let w := { w with heap := Function.update w.heap client moved }
       let w := (Fprintln (w.heap client).conn
         ("You have joined room '" ++ newRoomName ++ "'.") w).1
       (broadcastMessageToRoom newRoomName
          ((w.heap client).name ++ " has joined the room.") w).andThen
        fun w => .returned (Unlock (logPrintf (.joinedRoom (w.heap client).name newRoomName) w))))
    ?_ x y
  intro s hp o c f1 l1 f2 l2
  exact joinRoom_tail_agree client newRoomName _ _ ⟨rfl, rfl, rfl, rfl⟩

theorem joinRoom_agree (client : Ptr) (newRoomName : String) (a b : World) (h : Agree a b) :
    OutcomeAgree (joinRoom client newRoomName a) (joinRoom client newRoomName b) := by
  unfold joinRoom
  refine andThen_agree _ _ _ (lock_agree a b h) ?_
  intro x y hxy
  by_cases hn : newRoomName = ""
  · simp only [hn, if_true]
    rw [← hxy.2.1]
    exact unlock_agree _ _ (fprintln_agree _ _ _ _ hxy)
  · rw [← hxy.2.1]
    by_cases hr : (x.heap client).room = newRoomName
    · simp only [hn, hr, if_true, if_false]
      exact unlock_agree _ _ (fprintln_agree _ _ _ _ hxy)
    · simp only [hn, hr, if_false]
      refine andThen_agree _ _ _ ?_ (joinRoom_enter_agree client newRoomName)
      rw [← hxy.1]
      cases hl : x.srv.rooms.lookup (x.heap client).room with
      | none => exact hxy
      | some old =>
        dsimp only
        revert hxy
        refine @agree_cases (fun x y => OutcomeAgree
          (broadcastMessageToRoom
            ((removeFromRoom (x.heap client).room (x.heap client).name old x).heap client).room
            (((removeFromRoom (x.heap client).room (x.heap client).name old x).heap client).name ++
              " has left the room.")
            (removeFromRoom (x.heap client).room (x.heap client).name old x))
          (broadcastMessageToRoom
            ((removeFromRoom (x.heap client).room (x.heap client).name old y).heap client).room
            (((removeFromRoom (x.heap client).room (x.heap client).name old y).heap client).name ++
              " has left the room.")
            (removeFromRoom (x.heap client).room (x.heap client).name old y))) ?_ x y
        intro s hp o c f1 l1 f2 l2
        simp only [removeFromRoom]
        split <;> exact broadcast_agree _ _ _ _ ⟨rfl, rfl, rfl, rfl⟩

theorem handleMessage_agree (c : Ptr) (m : String) (a b : World) (h : Agree a b) :
    OutcomeAgree (handleMessage c m a) (handleMessage c m b) := by
  unfold handleMessage
  rw [← h.2.1]
  split
  · split
    · exact sendWhisper_agree _ _ _ _ _ h
    · exact fprintln_agree _ _ _ _ h
  · split
    · exact joinRoom_agree _ _ _ _ h
    · split
      · exact joinRoom_agree _ _ _ _ h
      · exact broadcast_agree _ _ _ _ h

theorem handleEvent_agree (e : Event) (a b : World) (h : Agree a b) :
    OutcomeAgree (handleEvent e a) (handleEvent e b) := by
  cases e with
  | register c => exact handleRegister_agree c a b h
  | unregister c => exact handleUnregister_agree c a b h
  | message c m => exact handleMessage_agree c m a b h

/-- C23: for every world, every event and every assignment of failures to the
socket writes, the handler ends as it does when no write fails: it returns or
blocks alike, with the same clients, usernames and rooms, the same room fields,
the same closed sockets and the same attempted writes in the same order; the
same holds for `sendWhisper`.  What a failure changes is the log only, as for
the broadcast of hello when every write fails. -/
theorem delivery_failures_isolated (e : Event) (w : World) (fails : Nat → Bool) :
    OutcomeAgree (handleEvent e { w with wfail := fails })
      (handleEvent e { w with wfail := fun _ => false }) ∧
    (∀ s t m, OutcomeAgree (sendWhisper s t m { w with wfail := fails })
      (sendWhisper s t m { w with wfail := fun _ => false })) ∧
    (handleEvent (.message 0 "hello") { twoInGeneral with wfail := allFail }).world.out =
      twoInGeneral.out ++ [(1, "A: hello\n"), (0, "A: hello\n")] ∧
    (handleEvent (.message 0 "hello") { twoInGeneral with wfail := allFail }).world.log =
      (handleEvent (.message 0 "hello") twoInGeneral).world.log ++
        [.sendError "B" "general", .sendError "A" "general"] :=
  ⟨handleEvent_agree e _ _ (agree_wfail w _ _),
    fun s t m => sendWhisper_agree s t m _ _ (agree_wfail w _ _), by decide, by decide⟩

/-! ## Counting memberships -/

theorem sum_kerase (f : (_ : String) × GoMap String Ptr → Nat)
    (l : List ((_ : String) × GoMap String Ptr)) (r : String) :
    ((l.kerase r).map f).sum +
      (match l.dlookup r with
        | some old => f ⟨r, old⟩
        | none => 0) = (l.map f).sum := by
  induction l with
  | nil => simp
  | cons e es ih =>
    by_cases h : r = e.1
    · rw [List.kerase_cons_eq h]
      obtain ⟨k, v⟩ := e
      simp only at h
      subst h
      rw [List.dlookup_cons_eq]
      simp only [List.map_cons, List.sum_cons]
      omega
    · rw [List.kerase_cons_ne h, List.dlookup_cons_ne _ _ h]
      simp only [List.map_cons, List.sum_cons]
      omega

theorem total_insert (s : GoMap String (GoMap String Ptr)) (r : String) (rc : GoMap String Ptr) :
    ((s.insert r rc).entries.map fun e => len e.2).sum +
      (match s.lookup r with
        | some old => len old
        | none => 0) = (s.entries.map fun e => len e.2).sum + len rc := by
  have := sum_kerase (fun e => len e.2) s.entries r
  rw [AList.insert_entries]
  simp only [List.map_cons, List.sum_cons]
  unfold AList.lookup
  cases hl : s.entries.dlookup r with
  | none => rw [hl] at this; simp only at this ⊢; omega
  | some old => rw [hl] at this; simp only at this ⊢; omega

theorem total_erase (s : GoMap String (GoMap String Ptr)) (r : String) :
    ((s.erase r).entries.map fun e => len e.2).sum +
      (match s.lookup r with
        | some old => len old
        | none => 0) = (s.entries.map fun e => len e.2).sum :=
  sum_kerase (fun e => len e.2) s.entries r

theorem len_insert_of_not_mem {κ ν : Type} [DecidableEq κ] (m : GoMap κ ν) (k : κ) (v : ν)
    (h : k ∉ m) : len (m.insert k v) = len m + 1 := by
  unfold len
  rw [AList.insert_entries_of_neg h]
  rfl

theorem len_erase_of_mem {κ ν : Type} [DecidableEq κ] (m : GoMap κ ν) (k : κ)
    (h : k ∈ m) : len (m.erase k) + 1 = len m := by
  unfold len
  obtain ⟨b, l1, l2, -, h2, h3⟩ := List.exists_of_kerase (AList.mem_keys.1 h)
  show (m.entries.kerase k).length + 1 = m.entries.length
  rw [h3, h2]
  simp
  omega

theorem total_registered (c : Ptr) (w : World) (hc : Consistent w)
    (hinj : ConnInjective w.heap) (hfresh : w.srv.usernames.lookup (w.heap c).name = none)
    (hcount : totalMemberships w.srv = len w.srv.clients) :
    totalMemberships (registered c w).srv = len (registered c w).srv.clients := by
  have hconn : (w.heap c).conn ∉ w.srv.clients := by
    intro hmem
    obtain ⟨q, hq⟩ := Option.isSome_iff_exists.1 (AList.lookup_isSome.2 hmem)
    obtain ⟨h1, h2⟩ := hc.clientsOk _ _ hq
    have := hinj _ _ h1
    subst this
    rw [hfresh] at h2
    cases h2
  have hcl : len (registered c w).srv.clients = len w.srv.clients + 1 :=
    len_insert_of_not_mem _ _ _ hconn
  have hins := total_insert w.srv.rooms (w.heap c).room
    (((w.srv.rooms.lookup (w.heap c).room).getD ∅).insert (w.heap c).name c)
  have hnot : (w.heap c).name ∉ (w.srv.rooms.lookup (w.heap c).room).getD ∅ := by
    cases hg : w.srv.rooms.lookup (w.heap c).room with
    | none => simp
    | some rc =>
      simp only [Option.getD_some]
      intro hmem
      obtain ⟨p, hp⟩ := Option.isSome_iff_exists.1 (AList.lookup_isSome.2 hmem)
      have := (hc.roomsOk _ _ _ _ hg hp).2
      rw [hfresh] at this
      cases this
  have hlen := len_insert_of_not_mem _ _ c hnot
  rw [hcl]
  show ((w.srv.rooms.insert (w.heap c).room
    (((w.srv.rooms.lookup (w.heap c).room).getD ∅).insert (w.heap c).name c)).entries.map
      fun e => len e.2).sum = _
  unfold totalMemberships at hcount
  cases hg : w.srv.rooms.lookup (w.heap c).room with
  | none =>
    rw [hg] at hins hlen
    simp only [Option.getD_none] at hins hlen ⊢
    have h0 : len (∅ : GoMap String Ptr) = 0 := rfl
    omega
  | some rc =>
    rw [hg] at hins hlen
    simp only [Option.getD_some] at hins hlen ⊢
    omega

theorem total_unregistered (c : Ptr) (w : World) (hc : Consistent w)
    (hinj : ConnInjective w.heap) (q : Ptr)
    (hq : w.srv.clients.lookup (w.heap c).conn = some q)
    (hcount : totalMemberships w.srv = len w.srv.clients) :
    totalMemberships (unregistered c w).srv = len (unregistered c w).srv.clients := by
  have hqc : q = c := hinj _ _ (hc.clientsOk _ _ hq).1
  subst hqc
  have hname : w.srv.usernames.lookup (w.heap q).name = some q := (hc.clientsOk _ _ hq).2
  obtain ⟨-, -, rc0, hroom, hmem⟩ := hc.namesOk _ _ hname
  have hcl : len (unregistered q w).srv.clients + 1 = len w.srv.clients :=
    len_erase_of_mem _ _ (AList.lookup_isSome.1 (by simp [hq]))
  have hrc : len (rc0.erase (w.heap q).name) + 1 = len rc0 :=
    len_erase_of_mem _ _ (AList.lookup_isSome.1 (by simp [hmem]))
  unfold totalMemberships at hcount ⊢
  show ((roomsWithout w.srv.rooms (w.heap q).room (w.heap q).name).entries.map
    fun e => len e.2).sum = _
  unfold roomsWithout
  rw [hroom]
  dsimp only
  by_cases h0 : len (rc0.erase (w.heap q).name) = 0
  · rw [if_pos h0]
    have := total_erase w.srv.rooms (w.heap q).room
    rw [hroom] at this
    simp only at this
    omega
  · rw [if_neg h0]
    have := total_insert w.srv.rooms (w.heap q).room (rc0.erase (w.heap q).name)
    rw [hroom] at this
    simp only at this
    omega

theorem admissible_of_strict (e : Event) (w : World) (h : admissibleStrict e w = true) :
    admissible e w = true := by
  cases e with
  | register c =>
    simp only [admissibleStrict, Bool.and_eq_true, decide_eq_true_eq] at h
    simp only [admissible, decide_eq_true_eq]
    exact h.1.1
  | unregister c => rfl
  | message c m => rfl

/-- One event of a well-formed stream keeps the registry consistent and the
number of memberships equal to the number of clients. -/
theorem counted_step (e : Event) (w w2 : World) (hc : Consistent w)
    (hinj : ConnInjective w.heap) (hadm : admissibleStrict e w = true)
    (hcount : totalMemberships w.srv = len w.srv.clients)
    (hret : handleEvent e w = .returned w2) :
    totalMemberships w2.srv = len w2.srv.clients := by
  cases e with
  | register c =>
    have hfresh : w.srv.usernames.lookup (w.heap c).name = none := by
      have := admissible_of_strict _ _ hadm
      simpa [admissible, AList.lookup_eq_none] using this
    obtain ⟨w3, e3, hs, -⟩ := register_result c w hc.free
    rw [e3] at hret
    cases hret
    rw [hs]
    exact total_registered c w hc hinj hfresh hcount
  | unregister c =>
    cases hq : w.srv.clients.lookup (w.heap c).conn with
    | none =>
      simp only [handleEvent, handleUnregister_of_absent c w hc.free hq,
        Outcome.returned.injEq] at hret
      subst hret
      exact hcount
    | some q =>
      obtain ⟨w3, e3, hs, -⟩ := unregister_result c w hc.free q hq
      rw [e3] at hret
      cases hret
      rw [hs]
      exact total_unregistered c w hc hinj q hq hcount
  | message c m =>
    obtain ⟨hs, -⟩ := handleMessage_returned c m w w2 hc.free hret
    rw [hs]
    exact hcount

theorem counted_run (evs : List Event) (w w2 : World) (hc : Consistent w)
    (hinj : ConnInjective w.heap) (hwf : wellFormedStrict evs w = true)
    (hcount : totalMemberships w.srv = len w.srv.clients)
    (hret : handleMessages evs w = .returned w2) :
    Consistent w2 ∧ totalMemberships w2.srv = len w2.srv.clients := by
  induction evs generalizing w with
  | nil =>
    simp only [handleMessages, Outcome.returned.injEq] at hret
    subst hret
    exact ⟨hc, hcount⟩
  | cons e es ih =>
    simp only [wellFormedStrict, Bool.and_eq_true] at hwf
    simp only [handleMessages] at hret
    cases he : handleEvent e w with
    | blocked wb => simp [he, Outcome.andThen] at hret
    | returned w1 =>
      rw [he] at hret
      simp only [he] at hwf
      obtain ⟨hc1, hh1⟩ := consistent_step e w w1 hc hinj (admissible_of_strict _ _ hwf.1) he
      exact ih w1 hc1 (hh1 ▸ hinj) hwf.2 (counted_step e w w1 hc hinj hwf.1 hcount he) hret

theorem wellFormedStrict_take (evs : List Event) :
    ∀ (k : Nat) (w : World), wellFormedStrict evs w = true →
      wellFormedStrict (evs.take k) w = true := by
  induction evs with
  | nil => intro k w h; simpa using h
  | cons e es ih =>
    intro k w h
    cases k with
    | zero => rfl
    | succ k =>
      simp only [List.take_succ_cons, wellFormedStrict, Bool.and_eq_true] at h ⊢
      refine ⟨h.1, ?_⟩
      cases he : handleEvent e w with
      | blocked wb => rfl
      | returned w1 =>
        have h2 := h.2
        simp only [he] at h2 ⊢
        exact ih k w1 h2

/-- C28, at the failing input: A and B register, A says hello and B asks for
room lobby.  The stream is well formed; the handler of the join blocks after it
removed B from the default room, and the dispatcher stays there: B is in
clients and in usernames and is a member of no room, room lobby does not exist,
and the rooms hold one membership for two entries of clients. -/
theorem room_switch_frozen_state :
    wellFormedStrict [.register 0, .register 1, .message 0 "hello", .message 1 "/join lobby"]
      (World.init demoHeap noFail) = true ∧
    ∃ w, handleMessages [.register 0, .register 1, .message 0 "hello", .message 1 "/join lobby"]
        (World.init demoHeap noFail) = .blocked w ∧
      w.srv.clients.lookup 1 = some 1 ∧ w.srv.usernames.lookup "B" = some 1 ∧
      (w.heap 1).room = "general" ∧ memberOf w.srv "general" "B" = none ∧
      w.srv.rooms.lookup "lobby" = none ∧ ¬ InExactlyOneRoom w 1 ∧
      len w.srv.clients = 2 ∧ len w.srv.rooms = 1 ∧ totalMemberships w.srv = 1 := by
  refine ⟨by decide, _, rfl, by decide, by decide, by decide, by decide, by decide, ?_,
    by decide, by decide, by decide⟩
  rintro ⟨⟨rc, h1, h2⟩, -⟩
  have e : memberOf (handleMessages
      [.register 0, .register 1, .message 0 "hello", .message 1 "/join lobby"]
      (World.init demoHeap noFail)).world.srv "general" "B" = none := by decide
  have h1 : (handleMessages
      [.register 0, .register 1, .message 0 "hello", .message 1 "/join lobby"]
      (World.init demoHeap noFail)).world.srv.rooms.lookup "general" = some rc := h1
  have h2 : rc.lookup "B" = some 1 := h2
  rw [memberOf, h1] at e
  simp only [Option.bind, h2] at e
  cases e

/-- The invariants at the end of every completed step: from the empty registry,
with one Client object per connection, in the world `w` in which the dispatcher
is after the first `k` events of a well-formed stream (each Register with a
name not in usernames, a connection not in clients and the room field general,
each Message from a client in clients), when the handlers of these events all
returned: clients and usernames hold the same clients, every client of clients
is a member of the room of its room field and of no other, no room is empty,
and the number of memberships over all rooms is the number of entries of
clients.  A stream with a real room switch has no such world after the
switch. -/
theorem wellformed_stream_invariants (heap : Ptr → Client) (wfail : Nat → Bool)
    (evs : List Event) (k : Nat) (w : World) (hinj : ConnInjective heap)
    (hwf : wellFormedStrict evs (World.init heap wfail) = true)
    (hret : handleMessages (evs.take k) (World.init heap wfail) = .returned w) :
    (∀ p, (∃ conn, w.srv.clients.lookup conn = some p) ↔
      ∃ n, w.srv.usernames.lookup n = some p) ∧
    (∀ conn p, w.srv.clients.lookup conn = some p → InExactlyOneRoom w p) ∧
    (∀ r rc, w.srv.rooms.lookup r = some rc → len rc ≠ 0) ∧
    totalMemberships w.srv = len w.srv.clients := by
  obtain ⟨hc, hcount⟩ := counted_run (evs.take k) _ w (consistent_init heap wfail) hinj
    (wellFormedStrict_take evs k _ hwf) rfl hret
  exact ⟨(nameView_of_consistent hc).2, (membership_of_consistent hc).1, hc.nonempty, hcount⟩

/-- Example of a well-formed stream without a room switch: A and B register, A
says hello, A disconnects, C registers; the world after the first four events
and after all five. -/
theorem wellformed_stream_invariants_witness :
    ConnInjective demoHeap ∧
    wellFormedStrict [.register 0, .register 1, .message 0 "hello", .unregister 0, .register 2]
      (World.init demoHeap noFail) = true ∧
    (handleMessages [.register 0, .register 1, .message 0 "hello", .unregister 0, .register 2]
      (World.init demoHeap noFail)).isReturned = true ∧
    totalMemberships (handleMessages
      [.register 0, .register 1, .message 0 "hello", .unregister 0]
      (World.init demoHeap noFail)).world.srv =
      len (handleMessages
        [.register 0, .register 1, .message 0 "hello", .unregister 0]
        (World.init demoHeap noFail)).world.srv.clients ∧
    totalMemberships (handleMessages
      [.register 0, .register 1, .message 0 "hello", .unregister 0]
      (World.init demoHeap noFail)).world.srv = 1 ∧
    totalMemberships (handleMessages
      [.register 0, .register 1, .message 0 "hello", .unregister 0, .register 2]
      (World.init demoHeap noFail)).world.srv = 2 :=
  ⟨demoHeap_injective, by decide, by decide,
    (wellformed_stream_invariants demoHeap noFail
      [.register 0, .register 1, .message 0 "hello", .unregister 0, .register 2] 4 _
      demoHeap_injective (by decide) rfl).2.2.2,
    by decide, by decide⟩
end ChatServer

namespace BasicTesting

/-! ## IsPrime -/

theorem wrap64_of_range (x : Int) (h1 : -2 ^ 63 ≤ x) (h2 : x < 2 ^ 63) : wrap64 x = x := by
  unfold wrap64
  omega

theorem wrap64_root :
    wrap64 (2759374635167858507 * 2759374635167858507) = 2 ^ 63 - 7 := by
  decide

/-- The loop answers false when it meets an odd divisor whose square is at
most `n`. -/
theorem loop_false (n d : Int) (hn : n < 2 ^ 63) (hdvd : d ∣ n) (hsq : d * d ≤ n) :
    ∀ (k : Nat) (i : Int) (fuel : Nat), 3 ≤ i → d = i + 2 * k → k < fuel →
      isPrimeLoop fuel n i = some false := by
  intro k
  induction k with
  | zero =>
    intro i fuel hi hd hf
    obtain ⟨fuel, rfl⟩ : ∃ f, fuel = f + 1 := ⟨fuel - 1, by omega⟩
    have hid : d = i := by simpa using hd
    subst hid
    have hw : wrap64 (d * d) = d * d := wrap64_of_range _ (by nlinarith) (by omega)
    simp only [isPrimeLoop, hw, hsq, if_true, Int.tmod_eq_zero_of_dvd hdvd]
  | succ k ih =>
    intro i fuel hi hd hf
    obtain ⟨fuel, rfl⟩ : ∃ f, fuel = f + 1 := ⟨fuel - 1, by omega⟩
    have hid : i ≤ d := by omega
    have hii : i * i ≤ d * d := by nlinarith
    have hw : wrap64 (i * i) = i * i := wrap64_of_range _ (by nlinarith) (by omega)
    have hle : i * i ≤ n := by omega
    have hdn : d ≤ n := by nlinarith
    have hw2 : wrap64 (i + 2) = i + 2 := wrap64_of_range _ (by omega) (by omega)
    simp only [isPrimeLoop, hw, hle, if_true, hw2]
    split
    · rfl
    · exact ih (i + 2) fuel (by omega) (by push_cast at hd; omega) (by omega)

/-- The loop answers true when it reaches a candidate whose wrapped square
exceeds `n` without meeting a divisor on the way. -/
theorem loop_true (n t : Int) (ht : t < 2 ^ 63) (hwrap : n < wrap64 (t * t))
    (hnd : ∀ j : Int, 3 ≤ j → j < t → ¬ j ∣ n) :
    ∀ (k : Nat) (i : Int) (fuel : Nat), 3 ≤ i → t = i + 2 * k → k < fuel →
      isPrimeLoop fuel n i = some true := by
  intro k
  induction k with
  | zero =>
    intro i fuel hi hd hf
    obtain ⟨fuel, rfl⟩ : ∃ f, fuel = f + 1 := ⟨fuel - 1, by omega⟩
    have hid : t = i := by simpa using hd
    subst hid
    have : ¬ wrap64 (t * t) ≤ n := by omega
    simp only [isPrimeLoop, this, if_false]
  | succ k ih =>
    intro i fuel hi hd hf
    obtain ⟨fuel, rfl⟩ : ∃ f, fuel = f + 1 := ⟨fuel - 1, by omega⟩
    have hw2 : wrap64 (i + 2) = i + 2 :=
      wrap64_of_range _ (by omega) (by push_cast at hd; omega)
    simp only [isPrimeLoop, hw2]
    split
    · have hnot : ¬ n.tmod i = 0 := by
        intro h0
        exact hnd i hi (by push_cast at hd; omega) (Int.dvd_of_tmod_eq_zero h0)
      rw [if_neg hnot]
      exact ih (i + 2) fuel (by omega) (by push_cast at hd; omega) (by omega)
    · rfl

theorem loop_true_at (n t : Int) (hn3 : 3 ≤ n) (ht3 : 3 ≤ t) (htn : t ≤ n) (hodd : t % 2 = 1)
    (ht : t < 2 ^ 63) (hwrap : n < wrap64 (t * t))
    (hp : ∀ d : Int, 1 < d → d < n → ¬ d ∣ n) :
    isPrimeLoop n.toNat n 3 = some true := by
  refine loop_true n t ht hwrap (fun j h1 h2 => hp j (by omega) (by omega))
    ((t - 3) / 2).toNat 3 n.toNat (by omega) ?_ ?_
  · omega
  · omega

theorem isPrime_of_no_divisor (n : Int) (hn3 : 3 ≤ n) (hhi : n < 2 ^ 63) (hodd : n % 2 = 1)
    (hp : ∀ d : Int, 1 < d → d < n → ¬ d ∣ n) :
    isPrimeLoop n.toNat n 3 = some true := by
  by_cases h1 : n ≤ 3037000499
  · refine loop_true_at n n hn3 hn3 (le_refl _) hodd hhi ?_ hp
    have hw : wrap64 (n * n) = n * n := wrap64_of_range _ (by nlinarith) (by nlinarith)
    rw [hw]
    nlinarith
  · by_cases h2 : n < 3037000499 * 3037000499
    · refine loop_true_at n 3037000499 hn3 (by omega) (by omega) (by omega) (by omega) ?_ hp
      have hw : wrap64 (3037000499 * 3037000499) = 3037000499 * 3037000499 := by decide
      rw [hw]
      exact h2
    · by_cases h3 : n < 2 ^ 63 - 7
      · refine loop_true_at n 2759374635167858507 hn3 (by omega) (by omega) (by omega)
          (by omega) ?_ hp
        rw [wrap64_root]
        exact h3
      · exfalso
        have hcases : n = 2 ^ 63 - 7 ∨ n = 2 ^ 63 - 5 ∨ n = 2 ^ 63 - 3 ∨ n = 2 ^ 63 - 1 := by
          omega
        rcases hcases with h | h | h | h
        · exact hp 157 (by omega) (by omega) (by rw [h]; decide)
        · exact hp 3 (by omega) (by omega) (by rw [h]; decide)
        · exact hp 5 (by omega) (by omega) (by rw [h]; decide)
        · exact hp 7 (by omega) (by omega) (by rw [h]; decide)

theorem isPrime_of_divisor (n : Int) (hn3 : 3 ≤ n) (hhi : n < 2 ^ 63) (hodd : n % 2 = 1)
    (d : Int) (hd1 : 1 < d) (hdn : d < n) (hdvd : d ∣ n) :
    isPrimeLoop n.toNat n 3 = some false := by
  have hm : (n.toNat : Int) = n := Int.toNat_of_nonneg (by omega)
  have hnp : ¬ Nat.Prime n.toNat := by
    intro hprime
    have hdd : d.toNat ∣ n.toNat := by
      have : ((d.toNat : Nat) : Int) ∣ ((n.toNat : Nat) : Int) := by
        rw [hm, Int.toNat_of_nonneg (by omega)]
        exact hdvd
      exact Int.natCast_dvd_natCast.1 this
    rcases (Nat.dvd_prime hprime).1 hdd with h | h
    · omega
    · omega
  have hpos : 0 < n.toNat := by omega
  have hne1 : n.toNat ≠ 1 := by omega
  have hmp := Nat.minFac_prime hne1
  have hsq := Nat.minFac_sq_le_self hpos hnp
  have hmd := Nat.minFac_dvd n.toNat
  have hoddp : n.toNat.minFac % 2 = 1 := by
    rcases hmp.eq_two_or_odd with h | h
    · exfalso
      have : 2 ∣ n.toNat := (Nat.minFac_eq_two_iff _).1 h
      omega
    · exact h
  have h2 := hmp.two_le
  have hdvd2 : ((n.toNat.minFac : Nat) : Int) ∣ n := by
    rw [← hm]
    exact Int.natCast_dvd_natCast.2 hmd
  have hsq2 : ((n.toNat.minFac : Nat) : Int) * (n.toNat.minFac : Nat) ≤ n := by
    rw [← hm]
    have : n.toNat.minFac * n.toNat.minFac ≤ n.toNat := by
      rw [← sq]; exact hsq
    exact_mod_cast this
  have hle : n.toNat.minFac ≤ n.toNat := Nat.minFac_le hpos
  refine loop_false n (n.toNat.minFac : Nat) hhi hdvd2 hsq2
    ((n.toNat.minFac - 3) / 2) 3 n.toNat (by omega) ?_ ?_
  · omega
  · omega

/-- C25: for every 64-bit integer `n`, `IsPrime` returns, and it returns true
exactly when `n` is at least 2 and has no divisor strictly between 1 and `n`;
the values of the test are as the test expects. -/
theorem isPrime_spec (n : Int) (hlo : -2 ^ 63 ≤ n) (hhi : n < 2 ^ 63) :
    ∃ b, IsPrime n = some b ∧
      (b = true ↔ (2 ≤ n ∧ ∀ d : Int, 1 < d → d < n → ¬ d ∣ n)) := by
  unfold IsPrime
  by_cases h1 : n < 2
  · refine ⟨false, by rw [if_pos h1], ?_⟩
    constructor
    · intro h; cases h
    · intro h; omega
  · rw [if_neg h1]
    by_cases h2 : n = 2
    · refine ⟨true, by rw [if_pos h2], ?_⟩
      constructor
      · intro _
        refine ⟨by omega, ?_⟩
        intro d hd1 hd2
        omega
      · intro _; rfl
    · rw [if_neg h2]
      have hte : n.tmod 2 = n % 2 := Int.tmod_eq_emod (by omega) (by omega)
      by_cases h3 : n.tmod 2 = 0
      · refine ⟨false, by rw [if_pos h3], ?_⟩
        constructor
        · intro h; cases h
        · intro h
          exact absurd (Int.dvd_of_tmod_eq_zero h3) (h.2 2 (by omega) (by omega))
      · rw [if_neg h3]
        have hodd : n % 2 = 1 := by omega
        by_cases hp : ∀ d : Int, 1 < d → d < n → ¬ d ∣ n
        · exact ⟨true, isPrime_of_no_divisor n (by omega) hhi hodd hp,
            fun _ => ⟨by omega, hp⟩, fun _ => rfl⟩
        · have hp2 := hp
          simp only [not_forall, not_not] at hp2
          obtain ⟨d, hd1, hdn, hdvd⟩ := hp2
          refine ⟨false, isPrime_of_divisor n (by omega) hhi hodd d hd1 hdn hdvd, ?_⟩
          constructor
          · intro h; cases h
          · intro h; exact absurd h.2 hp

/-- Witness of C25: the primes and the non-primes of the test, and a number
below 2. -/
theorem isPrime_spec_witness :
    (-2 ^ 63 ≤ (29 : Int) ∧ (29 : Int) < 2 ^ 63) ∧
    (∃ b, IsPrime 29 = some b ∧
      (b = true ↔ ((2 : Int) ≤ 29 ∧ ∀ d : Int, 1 < d → d < 29 → ¬ d ∣ 29))) ∧
    ([2, 3, 5, 7, 11, 13, 17, 19, 23, 29].map IsPrime).all (· = some true) = true ∧
    ([0, 1, 4, 6, 8, 9, 10, 12, 14, 15, 16, 18, 20, -7].map IsPrime).all (· = some false)
      = true :=
  ⟨by decide, isPrime_spec 29 (by decide) (by decide), by decide, by decide⟩

end BasicTesting
